import Mathlib

/-!
# KataGo: SGF reading and writing (`cpp/dataio/sgf.cpp`) and the GTP engine (`cpp/gtp.cpp`)

A shallow embedding of the SGF reader and writer and of the main loop of the
GTP engine.

* A C++ `std::string` is a `List Char`; a `char` is a Lean `Char` standing for
  one byte.
* `ostream& out` is the list of characters appended to it.
* A C++ function that may throw returns `Except SgfError _`; the constructors
  of `SgfError` are the throw sites of the file.
* A `(str, pos)` pair of the parser is the suffix of `str` that starts at
  `pos`: `pos++` drops the head, and the `pos--` that always follows a read
  puts the character just read back.
* The bot, its search and the evaluator of the GTP engine are outside the
  embedded files: they are represented by the list of the calls made on them
  so far, and what they answer is a parameter that may depend on that list.
* A `float` or `double` is an exact rational; where the program tests `isnan`
  the value read may also be a NaN or an infinity.
-/

namespace KataGo

/-! ## Errors -/

/-- The throw sites of `sgf.cpp`, one constructor each, and the two ways the
code can leave defined behaviour. -/
inductive SgfError where
  /-- `checkNonEmpty`: `StringError("Empty sgf")` -/
  | emptySgfNodes
  /-- `Sgf::parse`: `sgfFail("Empty sgf",str,0)`, an `IOError` -/
  | emptySgf
  /-- `nextSgfTextChar`, `nextSgfChar`: `IOError` "Unexpected end of str" -/
  | unexpectedEnd
  /-- `maybeParseProperty`: `IOError` "Expected closing bracket" -/
  | expectedClosingBracket
  /-- `maybeParseProperty`: `IOError` "No property values for property ..." -/
  | noPropertyValues
  /-- `maybeParseSgf`: `IOError` "Expected closing paren for sgf tree" -/
  | expectedClosingParen
  /-- `parseSgfLoc`: `IOError` "Invalid location: ..." -/
  | invalidLocation
  /-- `accumMoves`: `IOError` "Move out of bounds: ..." -/
  | moveOutOfBounds
  /-- `getSingleProperty`: `IOError` "SGF does not contain property: ..." -/
  | missingProperty
  /-- `getSingleProperty`: `IOError` "SGF property is not a singleton: ..." -/
  | notSingleton
  /-- `getMovesHelper`: `IOError` "Found stone placements after the root" -/
  | placementsAfterRoot
  /-- `getRules`: `StringError` "Could not parse rules in sgf: ..." -/
  | couldNotParseRules
  /-- `getKomi`: `IOError` "Could not parse komi in sgf" -/
  | couldNotParseKomi
  /-- `getKomi`: `IOError` "Komi in sgf is not integer or half-integer" -/
  | komiNotHalfInt
  /-- `getBSize`: `IOError` "Could not parse board size in sgf" -/
  | couldNotParseBoardSize
  /-- `getBSize`: `IOError` "Board size in sgf is <= 0" -/
  | boardSizeNonPositive
  /-- `getBSize`: `IOError` "Board size in sgf ... is > Board::MAX_LEN ..." -/
  | boardSizeTooLarge
  /-- `setupBoardAndHist`: `StringError` "Attempting to set up position from
  SGF for invalid turn number ..." -/
  | invalidTurnNumber
  /-- `writeSgfLoc`: `StringError` "Writing coordinates for SGF files for board
  sizes >= 26 is not implemented" -/
  | coordsNotImplemented
  /-- A failed `assert` or `ASSERT_UNREACHABLE` -/
  | assertionFailed
  /-- A write or call through a null pointer (undefined behaviour) -/
  | nullDereference
  /-- An array read outside its bounds (undefined behaviour) -/
  | outOfBoundsRead
  /-- The recursion budget of the embedding is exhausted; no C++ behaviour
  corresponds to it -/
  | outOfFuel
  deriving DecidableEq, Repr

/-- The fixed part of the message carried by the exception. -/
def SgfError.message : SgfError → String
  | .emptySgfNodes => "Empty sgf"
  | .emptySgf => "Empty sgf"
  | .unexpectedEnd => "Unexpected end of str"
  | .expectedClosingBracket => "Expected closing bracket"
  | .noPropertyValues => "No property values for property "
  | .expectedClosingParen => "Expected closing paren for sgf tree"
  | .invalidLocation => "Invalid location: "
  | .moveOutOfBounds => "Move out of bounds: "
  | .missingProperty => "SGF does not contain property: "
  | .notSingleton => "SGF property is not a singleton: "
  | .placementsAfterRoot => "Found stone placements after the root"
  | .couldNotParseRules => "Could not parse rules in sgf: "
  | .couldNotParseKomi => "Could not parse komi in sgf"
  | .komiNotHalfInt => "Komi in sgf is not integer or half-integer"
  | .couldNotParseBoardSize => "Could not parse board size in sgf"
  | .boardSizeNonPositive => "Board size in sgf is <= 0"
  | .boardSizeTooLarge => "Board size in sgf is > Board::MAX_LEN"
  | .invalidTurnNumber =>
      "Attempting to set up position from SGF for invalid turn number"
  | .coordsNotImplemented =>
      "Writing coordinates for SGF files for board sizes >= 26 is not implemented"
  | .assertionFailed => "assertion failed"
  | .nullDereference => "null pointer dereference"
  | .outOfBoundsRead => "out of bounds read"
  | .outOfFuel => "out of fuel"

/-- Whether the exception is an `IOError` (thrown by `propertyFail` and
`sgfFail`), the kind that `loadFiles` catches and skips. -/
def SgfError.isIOError : SgfError → Bool
  | .emptySgf | .unexpectedEnd | .expectedClosingBracket | .noPropertyValues
  | .expectedClosingParen | .invalidLocation | .moveOutOfBounds
  | .missingProperty | .notSingleton | .placementsAfterRoot
  | .couldNotParseKomi | .komiNotHalfInt | .couldNotParseBoardSize
  | .boardSizeNonPositive | .boardSizeTooLarge => true
  | _ => false

deriving instance DecidableEq for Except

/-- Whether a computation threw. -/
def failed {α : Type} : Except SgfError α → Bool
  | .error _ => true
  | .ok _ => false

/-! ## Characters and strings (`core/global.h`) -/

/-- The value of `(int)c` for a `char` holding the byte `c` (`char` is signed
on the platforms the program is built for). -/
def charCode (c : Char) : Int :=
  if c.toNat < 128 then (c.toNat : Int) else (c.toNat : Int) - 256

/-- Modelled from the spec: `Global::isWhitespace` is declared in
`core/global.h`, a file outside this development, and the spec does not
describe it; the model is the C notion of white space its name states:
blank, tab, line feed, carriage return, vertical tab and form feed. -/
def Global.isWhitespace (c : Char) : Bool :=
  c == ' ' || c == '\t' || c == '\n' || c == '\r' || c == Char.ofNat 11 || c == Char.ofNat 12

/-- Modelled from the spec: `Global::isAlpha` is declared in `core/global.h`,
a file outside this development, and the spec does not describe it; the
model is the test for an ASCII letter its name states. -/
def Global.isAlpha (c : Char) : Bool :=
  (decide ('a' ≤ c) && decide (c ≤ 'z')) || (decide ('A' ≤ c) && decide (c ≤ 'Z'))

/-- Modelled from the spec: `Global::toLower` is declared in `core/global.h`,
a file outside this development, and the spec does not describe it; the
model maps `A`..`Z` to `a`..`z` character by character and leaves the rest,
as its name states. -/
def Global.toLower (s : List Char) : List Char :=
  s.map Char.toLower

/-- The text `operator<<` writes for an `int`: its decimal numeral. -/
def showInt (n : Int) : List Char :=
  (toString n).toList

/-- The text `operator<<` writes for a `bool` (no `boolalpha`): 0 or 1. -/
def showBool (b : Bool) : List Char :=
  if b then ['1'] else ['0']

/-! ## Locations, colours, moves (`game/board.h`) -/

/-- A `Loc` (a `short` in the program). -/
abbrev Loc := Int

/-- Modelled from the spec: `Board::PASS_LOC` is declared in `game/board.h`,
a file outside this development; the spec says a location is an integer
encoding a board coordinate, a pass sentinel, or a null sentinel. The pass
sentinel is 0. -/
def Board.PASS_LOC : Loc := 0

/-- Modelled from the spec: `Board::NULL_LOC` is declared in `game/board.h`,
a file outside this development; the null sentinel of the spec's location
encoding is 1. -/
def Board.NULL_LOC : Loc := 1

/-- Modelled from the spec: `Location::getLoc` is declared in `game/board.h`,
a file outside this development; the integer encoding of the board coordinate
`(x, y)` on a board `bSize` wide is `(x+1) + (y+1)*(bSize+1)`: rows are one
longer than the board and the first row and column are a border. -/
def Location.getLoc (x y bSize : Int) : Loc :=
  (x + 1) + (y + 1) * (bSize + 1)

/-- Modelled from the spec: `Location::getX` is declared in `game/board.h`,
a file outside this development; the column of an encoded location, with the
truncating `%` of C++. -/
def Location.getX (loc : Loc) (bSize : Int) : Int :=
  Int.tmod loc (bSize + 1) - 1

/-- Modelled from the spec: `Location::getY` is declared in `game/board.h`,
a file outside this development; the row of an encoded location, with the
truncating `/` of C++. -/
def Location.getY (loc : Loc) (bSize : Int) : Int :=
  Int.tdiv loc (bSize + 1) - 1

/-- The colours `C_EMPTY`, `C_BLACK`, `C_WHITE`, `C_WALL`. -/
inductive Color where
  | empty
  | black
  | white
  | wall
  deriving DecidableEq, Repr

/-- A `Player` is a colour; `P_BLACK` and `P_WHITE` are the two players. -/
abbrev Player := Color

/-- Modelled from the spec: `getOpp` is declared in `game/board.h`, a file
outside this development; it exchanges the two players (and, on the colour
encoding, empty and wall). -/
def getOpp : Player → Player
  | .black => .white
  | .white => .black
  | .empty => .wall
  | .wall => .empty

/-- A `Move`: location and player. -/
structure Move where
  loc : Loc
  pla : Player
  deriving DecidableEq, Repr

/-- A `MoveNoBSize`: the coordinates as two `uint8_t`, and the player;
`(128,128)` stands for a pass. -/
structure MoveNoBSize where
  x : Nat
  y : Nat
  pla : Player
  deriving DecidableEq, Repr

/-- The cast `(uint8_t)v` of an `int`. -/
def toUInt8 (v : Int) : Nat :=
  (v % 256).toNat

/-! ## Coordinates in SGF text -/

/-- The letter `'a' + i`. -/
def sgfLetter (i : Nat) : Char :=
  Char.ofNat ('a'.toNat + i)

/-- `parseSgfLoc` (sgf.cpp 56-66). -/
def parseSgfLoc (s : List Char) (bSize : Int) : Except SgfError Loc :=
  match s with
  | [c0, c1] =>
    let x := charCode c0 - charCode 'a'
    let y := charCode c1 - charCode 'a'
    if x < 0 ∨ x ≥ bSize ∨ y < 0 ∨ y ≥ bSize then
      .error .invalidLocation
    else
      .ok (Location.getLoc x y bSize)
  | _ => .error .invalidLocation

/-- `parseSgfLocOrPass` (sgf.cpp 68-72). -/
def parseSgfLocOrPass (s : List Char) (bSize : Int) : Except SgfError Loc :=
  if s.length = 0 ∨ s = ['t', 't'] then
    .ok Board.PASS_LOC
  else
    parseSgfLoc s bSize

/-- The array `chars` of `writeSgfLoc`: the 26 letters and the terminating
zero byte of the string literal. -/
def sgfCoordChars : List Char :=
  "abcdefghijklmnopqrstuvwxyz".toList ++ [Char.ofNat 0]

/-- The read `chars[i]`; outside the array it is undefined behaviour. -/
def sgfCoordChar (i : Int) : Except SgfError Char :=
  if i < 0 then .error .outOfBoundsRead
  else
    match sgfCoordChars.get? i.toNat with
    | some c => .ok c
    | none => .error .outOfBoundsRead

/-- `writeSgfLoc` (sgf.cpp 74-84): the characters appended to `out`. -/
def writeSgfLoc (loc : Loc) (bSize : Int) : Except SgfError (List Char) :=
  if bSize ≥ 26 then
    .error .coordsNotImplemented
  else if loc = Board.PASS_LOC ∨ loc = Board.NULL_LOC then
    .ok []
  else do
    let x := Location.getX loc bSize
    let y := Location.getY loc bSize
    let cx ← sgfCoordChar x
    let cy ← sgfCoordChar y
    pure [cx, cy]

/-! ## SGF nodes -/

/-- The property table `map<string,vector<string>>* props` of a node. The
null pointer and the empty map answer every query of the file alike and are
both the empty list. -/
abbrev Props := List (List Char × List (List Char))

/-- `contains(*props,key)`. -/
def Props.contains (props : Props) (key : List Char) : Bool :=
  (props.lookup key).isSome

/-- `(*props)[key].push_back(value)`: the value list of `key` is created when
absent and `value` is appended to it. -/
def Props.push : Props → List Char → List Char → Props
  | [], key, value => [(key, [value])]
  | (k, vs) :: rest, key, value =>
    if k = key then (k, vs ++ [value]) :: rest
    else (k, vs) :: Props.push rest key value

/-- An `SgfNode`: the properties and the move read from the first `B` or `W`
value of the node. -/
structure SgfNode where
  props : Props := []
  move : MoveNoBSize := ⟨0, 0, .empty⟩
  deriving DecidableEq, Repr

/-- `SgfNode::hasProperty` (sgf.cpp 86-90). -/
def SgfNode.hasProperty (node : SgfNode) (key : List Char) : Bool :=
  node.props.contains key

/-- `SgfNode::getSingleProperty` (sgf.cpp 92-101). -/
def SgfNode.getSingleProperty (node : SgfNode) (key : List Char) :
    Except SgfError (List Char) :=
  match node.props.lookup key with
  | none => .error .missingProperty
  | some prop =>
    match prop with
    | [v] => .ok v
    | _ => .error .notSingleton

/-- `SgfNode::hasPlacements` (sgf.cpp 103-105). -/
def SgfNode.hasPlacements (node : SgfNode) : Bool :=
  node.props.contains "AB".toList || node.props.contains "AW".toList
    || node.props.contains "AE".toList

/-- One of the three loops of `accumPlacements`: every value is parsed by
`parseSgfLoc` and pushed with the colour `pla`. -/
def accumLocs (vals : List (List Char)) (pla : Player) (moves : List Move) (bSize : Int) :
    Except SgfError (List Move) :=
  match vals with
  | [] => .ok moves
  | v :: rest => do
    let loc ← parseSgfLoc v bSize
    accumLocs rest pla (moves ++ [⟨loc, pla⟩]) bSize

/-- `SgfNode::accumPlacements` (sgf.cpp 107-134): the vector `moves` after the
call. -/
def SgfNode.accumPlacements (node : SgfNode) (moves : List Move) (bSize : Int) :
    Except SgfError (List Move) := do
  let moves ← (match node.props.lookup "AB".toList with
    | some ab => accumLocs ab .black moves bSize
    | none => .ok moves)
  let moves ← (match node.props.lookup "AW".toList with
    | some aw => accumLocs aw .white moves bSize
    | none => .ok moves)
  match node.props.lookup "AE".toList with
  | some ae => accumLocs ae .empty moves bSize
  | none => .ok moves

/-- The part of `accumMoves` that pushes the move held in `node.move` when its
player is `pla` (sgf.cpp 137-144 for black, 153-160 for white). -/
def accumOwnMove (node : SgfNode) (pla : Player) (moves : List Move) (bSize : Int) :
    Except SgfError (List Move) :=
  if node.move.pla = pla then
    if node.move.x = 128 ∧ node.move.y = 128 then
      .ok (moves ++ [⟨Board.PASS_LOC, node.move.pla⟩])
    else if (node.move.x : Int) ≥ bSize ∨ (node.move.y : Int) ≥ bSize then
      .error .moveOutOfBounds
    else
      .ok (moves ++ [⟨Location.getLoc node.move.x node.move.y bSize, node.move.pla⟩])
  else
    .ok moves

/-- The loops of `accumMoves` over the values of a `B` or `W` property
(sgf.cpp 145-152, 161-168): every value is parsed by `parseSgfLocOrPass`. -/
def accumLocsOrPass (vals : List (List Char)) (pla : Player) (moves : List Move)
    (bSize : Int) : Except SgfError (List Move) :=
  match vals with
  | [] => .ok moves
  | v :: rest => do
    let loc ← parseSgfLocOrPass v bSize
    accumLocsOrPass rest pla (moves ++ [⟨loc, pla⟩]) bSize

/-- `SgfNode::accumMoves` (sgf.cpp 136-169): the vector `moves` after the
call. -/
def SgfNode.accumMoves (node : SgfNode) (moves : List Move) (bSize : Int) :
    Except SgfError (List Move) := do
  let moves ← accumOwnMove node .black moves bSize
  let moves ← (match node.props.lookup ['B'] with
    | some b => accumLocsOrPass b .black moves bSize
    | none => .ok moves)
  let moves ← accumOwnMove node .white moves bSize
  match node.props.lookup ['W'] with
  | some w => accumLocsOrPass w .white moves bSize
  | none => .ok moves

/-! ## Rules -/

/-- The ko rules `Rules::KO_SIMPLE`, `KO_POSITIONAL`, `KO_SITUATIONAL`,
`KO_SPIGHT`. -/
inductive KoRule where
  | simple
  | positional
  | situational
  | spight
  deriving DecidableEq, Repr

/-- The scoring rules `Rules::SCORING_AREA`, `SCORING_TERRITORY`. -/
inductive ScoringRule where
  | area
  | territory
  deriving DecidableEq, Repr

/-- A komi. A `float` in the program; the finite floats are rationals. -/
abbrev Komi := ℚ

/-- The `Rules` record. -/
structure Rules where
  koRule : KoRule
  scoringRule : ScoringRule
  multiStoneSuicideLegal : Bool
  komi : Komi
  deriving DecidableEq

/-- Modelled from the spec: `Rules::komiIsIntOrHalfInt` is declared in
`game/rules.h`, a file outside this development; the spec speaks of a
half-integer komi and of a non-half-integer komi as a configuration error:
the komi is accepted when twice the komi is an integer. -/
def Rules.komiIsIntOrHalfInt (komi : Komi) : Bool :=
  (2 * komi).isInt

/-- The name under which `getRules` reads a ko rule (sgf.cpp 214-217). -/
def koRuleName : KoRule → List Char
  | .simple => "simple".toList
  | .positional => "positional".toList
  | .situational => "situational".toList
  | .spight => "spight".toList

/-- The name under which `getRules` reads a scoring rule (sgf.cpp
224-225). -/
def scoringRuleName : ScoringRule → List Char
  | .area => "area".toList
  | .territory => "territory".toList

/-- The lambda `startsWithAndStrip` of `getRules` (sgf.cpp 203-208): whether
`str` starts with `pfx`, and `str` afterwards. -/
def startsWithAndStrip (str pfx : List Char) : Bool × List Char :=
  let isMatch := decide (str.length ≥ pfx.length) && (str.take pfx.length == pfx)
  (isMatch, if isMatch then str.drop pfx.length else str)

/-- The branch of `getRules` for a value that begins with `ko`, after `ko` has
been stripped (sgf.cpp 214-232). -/
def parseKoScoreSui (rules : Rules) (s : List Char) : Except SgfError Rules := do
  let (rules, s) ←
    (if (startsWithAndStrip s "simple".toList).1 then
      Except.ok ({ rules with koRule := .simple }, (startsWithAndStrip s "simple".toList).2)
    else if (startsWithAndStrip s "positional".toList).1 then
      .ok ({ rules with koRule := .positional }, (startsWithAndStrip s "positional".toList).2)
    else if (startsWithAndStrip s "situational".toList).1 then
      .ok ({ rules with koRule := .situational }, (startsWithAndStrip s "situational".toList).2)
    else if (startsWithAndStrip s "spight".toList).1 then
      .ok ({ rules with koRule := .spight }, (startsWithAndStrip s "spight".toList).2)
    else .error .couldNotParseRules)
  let (b, s) := startsWithAndStrip s "score".toList
  if !b then .error .couldNotParseRules else
  let (rules, s) ←
    (if (startsWithAndStrip s "area".toList).1 then
      Except.ok ({ rules with scoringRule := .area }, (startsWithAndStrip s "area".toList).2)
    else if (startsWithAndStrip s "territory".toList).1 then
      .ok ({ rules with scoringRule := .territory }, (startsWithAndStrip s "territory".toList).2)
    else .error .couldNotParseRules)
  let (b, s) := startsWithAndStrip s "sui".toList
  if !b then .error .couldNotParseRules else
  if (startsWithAndStrip s ['1']).1 then
    .ok { rules with multiStoneSuicideLegal := true }
  else if (startsWithAndStrip s ['0']).1 then
    .ok { rules with multiStoneSuicideLegal := false }
  else .error .couldNotParseRules

/-- The body of `getRules` on the lower-cased `RU` value `s` (sgf.cpp
176-235). -/
def getRulesOfValue (rules : Rules) (s : List Char) : Except SgfError Rules :=
  if s = "japansese".toList then
    .ok { rules with scoringRule := .territory, koRule := .simple,
                     multiStoneSuicideLegal := false }
  else if s = "chinese".toList then
    .ok { rules with scoringRule := .area, koRule := .simple,
                     multiStoneSuicideLegal := false }
  else if s = "aga".toList then
    .ok { rules with scoringRule := .area, koRule := .situational,
                     multiStoneSuicideLegal := false }
  else if s = "nz".toList then
    .ok { rules with scoringRule := .area, koRule := .situational,
                     multiStoneSuicideLegal := true }
  else if s = "tromp-taylor".toList ∨ s = "tromp taylor".toList ∨ s = "tromptaylor".toList then
    .ok { rules with scoringRule := .area, koRule := .positional,
                     multiStoneSuicideLegal := true }
  else
    if (startsWithAndStrip s "ko".toList).1 then
      parseKoScoreSui rules (startsWithAndStrip s "ko".toList).2
    else
      .ok rules

/-- `SgfNode::getRules` (sgf.cpp 171-236). -/
def SgfNode.getRules (node : SgfNode) (defaultRules : Rules) : Except SgfError Rules :=
  if !node.hasProperty "RU".toList then
    .ok defaultRules
  else do
    let v ← node.getSingleProperty "RU".toList
    getRulesOfValue defaultRules (Global.toLower v)

/-! ## Game trees -/

/-- An `Sgf`: the nodes of the main sequence, then the child variations. The
fields `fileName` and `hash` (a SHA-256 of the text) are not modelled. -/
inductive Sgf where
  | mk (nodes : List SgfNode) (children : List Sgf)

/-- The field `nodes`. -/
def Sgf.nodes : Sgf → List SgfNode
  | .mk nodes _ => nodes

/-- The field `children`. -/
def Sgf.children : Sgf → List Sgf
  | .mk _ children => children

mutual
/-- `Sgf::depth` (sgf.cpp 249-257). -/
def Sgf.depth : Sgf → Nat
  | .mk nodes children => Sgf.depthLoop children 0 + nodes.length
/-- The loop of `Sgf::depth` over the children not yet visited, with the
current `maxChildDepth`. -/
def Sgf.depthLoop : List Sgf → Nat → Nat
  | [], maxChildDepth => maxChildDepth
  | child :: rest, maxChildDepth =>
    if Sgf.depth child > maxChildDepth then Sgf.depthLoop rest (Sgf.depth child)
    else Sgf.depthLoop rest maxChildDepth
end

/-- `checkNonEmpty` (sgf.cpp 259-262). Where a function calls it and then
reads `nodes[0]`, the embedding matches on `nodes` and the empty case is this
throw. -/
def checkNonEmpty (nodes : List SgfNode) : Except SgfError Unit :=
  if nodes.length ≤ 0 then .error .emptySgfNodes else .ok ()

/-- The parts of the program and of the C++ library that `sgf.cpp` uses, that
are declared outside this development, and whose results are not fixed by their names:
the size limit of a board, the readers and writers of numbers, and the names
of the rules as written. They are parameters of the embedding. -/
structure Externals where
  /-- `Board::MAX_LEN` (game/board.h) -/
  MAX_LEN : Int
  /-- `Global::tryStringToInt` (core/global.h): the `int` read from a string,
  when the string is one -/
  tryStringToInt : List Char → Option Int
  /-- `Global::tryStringToFloat` (core/global.h): the `float` read from a
  string, when the string is one -/
  tryStringToFloat : List Char → Option Komi
  /-- `operator<<` for a `float`: the text written -/
  showFloat : Komi → List Char
  /-- `Rules::writeKoRule` (game/rules.h) -/
  writeKoRule : KoRule → List Char
  /-- `Rules::writeScoringRule` (game/rules.h) -/
  writeScoringRule : ScoringRule → List Char

/-- `Sgf::getBSize` (sgf.cpp 264-282). -/
def Sgf.getBSize (E : Externals) (sgf : Sgf) : Except SgfError Int :=
  match sgf.nodes with
  | [] => .error .emptySgfNodes
  | root :: _ =>
    if !root.hasProperty "SZ".toList then
      .ok 19
    else do
      let v ← root.getSingleProperty "SZ".toList
      match E.tryStringToInt v with
      | none => .error .couldNotParseBoardSize
      | some bSize =>
        if bSize ≤ 0 then .error .boardSizeNonPositive
        else if bSize > E.MAX_LEN then .error .boardSizeTooLarge
        else .ok bSize

/-- The part of `getKomi` that follows the read of the `KM` value `v`
(sgf.cpp 287-292). -/
def komiOfValue (E : Externals) (v : List Char) : Except SgfError Komi :=
  match E.tryStringToFloat v with
  | none => .error .couldNotParseKomi
  | some komi =>
    if !Rules.komiIsIntOrHalfInt komi then .error .komiNotHalfInt
    else .ok komi

/-- `Sgf::getKomi` (sgf.cpp 284-293). -/
def Sgf.getKomi (E : Externals) (sgf : Sgf) : Except SgfError Komi :=
  match sgf.nodes with
  | [] => .error .emptySgfNodes
  | root :: _ => do
    let v ← root.getSingleProperty "KM".toList
    komiOfValue E v

/-- `Sgf::getRules` (sgf.cpp 295-298). -/
def Sgf.getRules (sgf : Sgf) (defaultRules : Rules) : Except SgfError Rules :=
  match sgf.nodes with
  | [] => .error .emptySgfNodes
  | root :: _ => root.getRules defaultRules

/-- `Sgf::getPlacements` (sgf.cpp 300-304): the vector `moves` after the
call. -/
def Sgf.getPlacements (sgf : Sgf) (bSize : Int) : Except SgfError (List Move) :=
  match sgf.nodes with
  | [] => .error .emptySgfNodes
  | root :: _ => root.accumPlacements [] bSize

/-- The first loop of `getMovesHelper` (sgf.cpp 314-318) from index `i` on,
over the nodes not yet visited. -/
def getMovesNodes : List SgfNode → Nat → List Move → Int → Except SgfError (List Move)
  | [], _, moves, _ => .ok moves
  | node :: rest, i, moves, bSize =>
    if i > 0 ∧ node.hasPlacements then
      .error .placementsAfterRoot
    else do
      let moves ← node.accumMoves moves bSize
      getMovesNodes rest (i + 1) moves bSize

/-- The second loop of `getMovesHelper` (sgf.cpp 320-328) over the children
not yet visited, with the current `maxChildDepth` and `maxChild` (`none` is
the null pointer). -/
def maxChildLoop : List Sgf → Nat → Option Sgf → Option Sgf
  | [], _, maxChild => maxChild
  | child :: rest, maxChildDepth, maxChild =>
    if child.depth > maxChildDepth then maxChildLoop rest child.depth (some child)
    else maxChildLoop rest maxChildDepth maxChild

/-- `Sgf::getMovesHelper` (sgf.cpp 312-333) with a bound on the number of
nested calls. -/
def Sgf.getMovesHelperFuel : Nat → Sgf → List Move → Int → Except SgfError (List Move)
  | 0, _, _, _ => .error .outOfFuel
  | fuel + 1, sgf, moves, bSize => do
    checkNonEmpty sgf.nodes
    let moves ← getMovesNodes sgf.nodes 0 moves bSize
    match maxChildLoop sgf.children 0 none with
    | some maxChild => Sgf.getMovesHelperFuel fuel maxChild moves bSize
    | none => .ok moves

/-- `Sgf::getMovesHelper` (sgf.cpp 312-333). Every nested call is on a tree
of smaller depth, so `depth + 1` nested calls are never exceeded
(`getMovesHelper_fuel`). -/
def Sgf.getMovesHelper (sgf : Sgf) (moves : List Move) (bSize : Int) :
    Except SgfError (List Move) :=
  Sgf.getMovesHelperFuel (sgf.depth + 1) sgf moves bSize

/-- `Sgf::getMoves` (sgf.cpp 307-310): the vector `moves` after the call. -/
def Sgf.getMoves (sgf : Sgf) (bSize : Int) : Except SgfError (List Move) :=
  Sgf.getMovesHelper sgf [] bSize

mutual
/-- The line of nodes from the root of a tree to a leaf that descends, at
every branching, into the child variation of greatest depth, the first such
child on ties: the nodes of the main sequence, then the line of that
child. -/
def Sgf.line : Sgf → List SgfNode
  | .mk nodes children => nodes ++ Sgf.lineOfDeepest children
/-- The line of the first of the trees `children` whose depth is the
greatest among them; empty when there is none. -/
def Sgf.lineOfDeepest : List Sgf → List SgfNode
  | [] => []
  | child :: rest =>
    if rest.all (fun c => decide (Sgf.depth c ≤ Sgf.depth child)) then Sgf.line child
    else Sgf.lineOfDeepest rest
end

/-- The moves collected along a list of nodes: `accumMoves` of every node, in
order. -/
def accumMovesAlong : List SgfNode → List Move → Int → Except SgfError (List Move)
  | [], moves, _ => .ok moves
  | node :: rest, moves, bSize => do
    let moves ← node.accumMoves moves bSize
    accumMovesAlong rest moves bSize

/-! ## Parsing -/

/-- `nextSgfTextChar` (sgf.cpp 352-355): the character read and the rest. -/
def nextSgfTextChar : List Char → Except SgfError (Char × List Char)
  | [] => .error .unexpectedEnd
  | c :: rest => .ok (c, rest)

/-- `nextSgfChar` (sgf.cpp 356-363): the first character that is not white
space, and the rest. -/
def nextSgfChar : List Char → Except SgfError (Char × List Char)
  | [] => .error .unexpectedEnd
  | c :: rest => if Global.isWhitespace c then nextSgfChar rest else .ok (c, rest)

/-- Where the loop of `parseTextValue` stands: at its top with `escaping`
false, at its top with `escaping` true, or inside the inner `while` that
skips the line break after a backslash. -/
inductive TextState where
  | plain
  | escaping
  | lineBreak
  deriving DecidableEq, Repr

/-- The loop of `parseTextValue` (sgf.cpp 368-393): the value accumulated and
the rest of the input, which starts at the closing bracket. The inner `while`
reads on while the character is a line break and then puts the first other
character back, to be read at the top of the loop with `escaping` false. -/
def parseTextValueLoop : TextState → List Char → List Char →
    Except SgfError (List Char × List Char)
  | _, _, [] => .error .unexpectedEnd
  | st, acc, c :: rest =>
    if st = .lineBreak ∧ (c = '\n' ∨ c = '\r') then
      parseTextValueLoop .lineBreak acc rest
    else
      let escaping : Bool := decide (st = .escaping)
      if !escaping ∧ c = ']' then
        .ok (acc, c :: rest)
      else if !escaping ∧ c = '\\' then
        parseTextValueLoop .escaping acc rest
      else if escaping ∧ (c = '\n' ∨ c = '\r') then
        parseTextValueLoop .lineBreak acc rest
      else if c = '\t' then
        parseTextValueLoop .plain (acc ++ [' ']) rest
      else
        parseTextValueLoop .plain (acc ++ [c]) rest

/-- `parseTextValue` (sgf.cpp 365-395). -/
def parseTextValue (s : List Char) : Except SgfError (List Char × List Char) :=
  parseTextValueLoop .plain [] s

/-- The key scan of `maybeParseProperty` (sgf.cpp 398-402): `nextSgfChar` is
called until it returns a character that is not a letter, which is put back;
the key is everything before that character, the white space that
`nextSgfChar` skipped included. -/
def scanKey : List Char → Except SgfError (List Char × List Char)
  | [] => .error .unexpectedEnd
  | c :: rest =>
    if Global.isWhitespace c ∨ Global.isAlpha c then do
      let (key, r) ← scanKey rest
      pure (c :: key, r)
    else
      .ok ([], c :: rest)

/-- The move stored for a parsed `B` or `W` value (sgf.cpp 413-418,
421-426). -/
def moveOfValue (txt : List Char) (pla : Player) : Except SgfError MoveNoBSize := do
  let bSize : Int := 128
  let loc ← parseSgfLocOrPass txt bSize
  if loc = Board.PASS_LOC then
    pure ⟨128, 128, pla⟩
  else
    pure ⟨toUInt8 (Location.getX loc bSize), toUInt8 (Location.getY loc bSize), pla⟩

/-- The value loop of `maybeParseProperty` (sgf.cpp 407-437) with a bound on
the number of iterations: the node, `parsedAtLeastOne` and the rest of the
input when the loop is left. -/
def parseValues : Nat → SgfNode → List Char → Bool → List Char →
    Except SgfError (SgfNode × Bool × List Char)
  | 0, _, _, _, _ => .error .outOfFuel
  | fuel + 1, node, key, parsedAtLeastOne, s => do
    let (c, r) ← nextSgfChar s
    if c ≠ '[' then
      pure (node, parsedAtLeastOne, c :: r)
    else do
      let (node, r) ←
        (if node.move.pla = .empty ∧ key = ['B'] then do
          let (txt, r) ← parseTextValue r
          let mv ← moveOfValue txt .black
          pure ({ node with move := mv }, r)
        else if node.move.pla = .empty ∧ key = ['W'] then do
          let (txt, r) ← parseTextValue r
          let mv ← moveOfValue txt .white
          pure ({ node with move := mv }, r)
        else do
          let (txt, r) ← parseTextValue r
          pure ({ node with props := node.props.push key txt }, r))
      let (c, r) ← nextSgfChar r
      if c ≠ ']' then .error .expectedClosingBracket
      else parseValues fuel node key true r

/-- `maybeParseProperty` (sgf.cpp 397-441): whether a property was parsed,
the node and the rest of the input. Every iteration of the value loop
consumes a character, so the bound is never reached. -/
def maybeParseProperty (node : SgfNode) (s : List Char) :
    Except SgfError (Bool × SgfNode × List Char) := do
  let (key, r) ← scanKey s
  if key.length ≤ 0 then
    pure (false, node, r)
  else do
    let (node, parsedAtLeastOne, r) ← parseValues (r.length + 1) node key false r
    if !parsedAtLeastOne then .error .noPropertyValues
    else pure (true, node, r)

/-- The property loop of `maybeParseNode` (sgf.cpp 450-454) with a bound on
the number of iterations. -/
def parseProperties : Nat → SgfNode → List Char → Except SgfError (SgfNode × List Char)
  | 0, _, _ => .error .outOfFuel
  | fuel + 1, node, s => do
    let (suc, node, r) ← maybeParseProperty node s
    if !suc then pure (node, r)
    else parseProperties fuel node r

/-- `maybeParseNode` (sgf.cpp 443-461): the node (`none` is the null pointer)
and the rest of the input. Every property parsed consumes a character, so
the bound is never reached. -/
def maybeParseNode (s : List Char) : Except SgfError (Option SgfNode × List Char) := do
  let (c, r) ← nextSgfChar s
  if c ≠ ';' then
    pure (none, c :: r)
  else do
    let (node, r) ← parseProperties (r.length + 1) {} r
    pure (some node, r)

/-- The node loop of `maybeParseSgf` (sgf.cpp 474-479) with a bound on the
number of iterations: the nodes pushed and the rest of the input. -/
def parseNodes : Nat → List SgfNode → List Char → Except SgfError (List SgfNode × List Char)
  | 0, _, _ => .error .outOfFuel
  | fuel + 1, nodes, s => do
    let (node, r) ← maybeParseNode s
    match node with
    | none => pure (nodes, r)
    | some node => parseNodes fuel (nodes ++ [node]) r

mutual
/-- `maybeParseSgf` (sgf.cpp 463-495) with a bound on the number of nested
calls: the tree (`none` is the null pointer) and the rest of the input. -/
def maybeParseSgf : Nat → List Char → Except SgfError (Option Sgf × List Char)
  | 0, _ => .error .outOfFuel
  | fuel + 1, s =>
    if s.length = 0 then
      .ok (none, s)
    else do
      let (c, r) ← nextSgfChar s
      if c ≠ '(' then
        pure (none, c :: r)
      else do
        let (nodes, r) ← parseNodes (r.length + 1) [] r
        let (children, r) ← parseChildren fuel [] r
        let (c, r) ← nextSgfChar r
        if c ≠ ')' then .error .expectedClosingParen
        else pure (some (Sgf.mk nodes children), r)
/-- The child loop of `maybeParseSgf` (sgf.cpp 480-485): the children pushed
and the rest of the input. -/
def parseChildren : Nat → List Sgf → List Char → Except SgfError (List Sgf × List Char)
  | 0, _, _ => .error .outOfFuel
  | fuel + 1, children, s => do
    let (child, r) ← maybeParseSgf fuel s
    match child with
    | none => pure (children, r)
    | some child => parseChildren fuel (children ++ [child]) r
end

/-- `Sgf::parse` (sgf.cpp 498-507). The hash is written through `sgf` (line
503) before `sgf` is compared with the null pointer (line 504). A call of
`maybeParseSgf` or an iteration of its child loop consumes a character, so
twice the length of the text, and one, bounds the nested calls, and the
bounds of the loops are never reached either (`parse_fuel`). -/
def Sgf.parse (str : List Char) : Except SgfError Sgf := do
  let (sgf, _) ← maybeParseSgf (2 * str.length + 1) str
  match sgf with
  | none => .error .nullDereference
  | some sgf =>
    if sgf.nodes.length = 0 then .error .emptySgf
    else pure sgf

/-! ## Compact game records -/

/-- A `CompactSgf` (the fields `fileName` and `hash` are not modelled). -/
structure CompactSgf where
  rootNode : SgfNode
  placements : List Move
  moves : List Move
  bSize : Int
  depth : Nat
  komi : Komi
  deriving DecidableEq

/-- The constructor `CompactSgf::CompactSgf(Sgf&&)` (sgf.cpp 609-636). -/
def CompactSgf.ofSgf (E : Externals) (sgf : Sgf) : Except SgfError CompactSgf := do
  let bSize ← sgf.getBSize E
  let depth := sgf.depth
  let komi ← sgf.getKomi E
  let placements ← sgf.getPlacements bSize
  let moves ← sgf.getMoves bSize
  match sgf.nodes with
  | [] => .error .emptySgfNodes
  | root :: _ =>
    pure { rootNode := root, placements := placements, moves := moves,
           bSize := bSize, depth := depth, komi := komi }

/-- `CompactSgf::parse` (sgf.cpp 642-647). -/
def CompactSgf.parse (E : Externals) (str : List Char) : Except SgfError CompactSgf := do
  let sgf ← Sgf.parse str
  CompactSgf.ofSgf E sgf

/-- The operations on `Board` and `BoardHistory` (game/board.h,
game/boardhistory.h) that `sgf.cpp` calls. Both classes are declared outside
this development; their operations are parameters of the embedding. -/
structure BoardOps (B H : Type) where
  /-- The constructor `Board(xSize,ySize)` -/
  newBoard : Int → Int → B
  /-- The constructor `BoardHistory(board,pla,rules,0)` -/
  newHistory : B → Player → Rules → H
  /-- `Board::setStone`: the board afterwards -/
  setStone : B → Loc → Color → B
  /-- `BoardHistory::makeBoardMoveAssumeLegal`: the history and the board
  afterwards -/
  makeBoardMoveAssumeLegal : H → B → Loc → Player → H × B

/-- The values `setupInitialBoardAndHist` and `setupBoardAndHist` leave in
their reference parameters `board`, `nextPla` and `hist`. -/
structure Position (B H : Type) where
  board : B
  nextPla : Player
  hist : H

/-- The placement loop of `setupInitialBoardAndHist` (sgf.cpp 692-698): the
board, `hasBlack` and `allBlack` after it. -/
def placeStones {B H : Type} (ops : BoardOps B H) :
    List Move → B × Bool × Bool → B × Bool × Bool
  | [], st => st
  | p :: rest, (board, hasBlack, allBlack) =>
    if p.pla = .black then placeStones ops rest (ops.setStone board p.loc p.pla, true, allBlack)
    else placeStones ops rest (ops.setStone board p.loc p.pla, hasBlack, false)

/-- `CompactSgf::setupInitialBoardAndHist` (sgf.cpp 681-702). -/
def CompactSgf.setupInitialBoardAndHist {B H : Type} (ops : BoardOps B H) (sgf : CompactSgf)
    (initialRules : Rules) : Except SgfError (Position B H) := do
  let rules := { initialRules with komi := sgf.komi }
  let rules ← sgf.rootNode.getRules rules
  let board := ops.newBoard sgf.bSize sgf.bSize
  let hist := ops.newHistory board .black rules
  let (board, hasBlack, allBlack) := placeStones ops sgf.placements (board, false, true)
  pure { board := board, nextPla := if hasBlack ∧ !allBlack then .white else .black,
         hist := hist }

/-- The move loop of `setupBoardAndHist` (sgf.cpp 715-718). -/
def playMoves {B H : Type} (ops : BoardOps B H) : List Move → Position B H → Position B H
  | [], pos => pos
  | m :: rest, pos =>
    let hb := ops.makeBoardMoveAssumeLegal pos.hist pos.board m.loc m.pla
    playMoves ops rest { board := hb.2, nextPla := getOpp m.pla, hist := hb.1 }

/-- `CompactSgf::setupBoardAndHist` (sgf.cpp 704-719); `turnNumber` is an
`int`. -/
def CompactSgf.setupBoardAndHist {B H : Type} (ops : BoardOps B H) (sgf : CompactSgf)
    (initialRules : Rules) (turnNumber : Int) : Except SgfError (Position B H) := do
  let pos ← sgf.setupInitialBoardAndHist ops initialRules
  if turnNumber ≤ 0 ∨ turnNumber > (sgf.moves.length : Int) then
    .error .invalidTurnNumber
  else
    pure (playMoves ops (sgf.moves.take turnNumber.toNat) pos)

/-! ## Writing -/

/-- The fields of `Board` that `writeSgf` reads. -/
structure Board where
  x_size : Int
  y_size : Int
  colors : Loc → Color

/-- The fields of `BoardHistory` that `writeSgf` and `printGameResult`
read. -/
structure BoardHistory where
  initialBoard : Board
  moveHistory : List Move
  isGameFinished : Bool
  isNoResult : Bool
  isResignation : Bool
  winner : Player
  finalWhiteMinusBlackScore : Komi

/-- A `ValueTargets` record. -/
structure ValueTargets where
  win : ℚ
  loss : ℚ
  noResult : ℚ
  score : ℚ

/-- The fields of `FinishedGameData` that `writeSgf` reads:
`startHist.moveHistory.size()`, the mode numbers, the `(turnNumber, name)` of
every changed neural net, and the value targets. -/
structure FinishedGameData where
  startTurnIdx : Nat
  mode : Int
  modeMeta1 : Int
  modeMeta2 : Int
  changedNeuralNets : List (Int × List Char)
  whiteValueTargetsByTurn : List ValueTargets

/-- The text `sprintf` writes for the formats `%.2f` and `%.1f`; it is C
library code and a parameter of the embedding. -/
structure Formats where
  /-- `sprintf(buf,"%.2f",v)` -/
  fixed2 : ℚ → List Char
  /-- `sprintf(buf,"%.1f",v)` -/
  fixed1 : ℚ → List Char

/-- The value of the `RU` property `writeSgf` writes (sgf.cpp 771-773). -/
def ruValue (E : Externals) (rules : Rules) : List Char :=
  "ko".toList ++ E.writeKoRule rules.koRule
    ++ "score".toList ++ E.writeScoringRule rules.scoringRule
    ++ "sui".toList ++ showBool rules.multiStoneSuicideLegal

/-- `WriteSgf::printGameResult` (sgf.cpp 721-740): the characters appended to
`out`. -/
def WriteSgf.printGameResult (E : Externals) (hist : BoardHistory) :
    Except SgfError (List Char) :=
  if hist.isGameFinished then do
    let body ←
      (if hist.isNoResult then Except.ok "Void".toList
      else if hist.isResignation ∧ hist.winner = .black then .ok "B+R".toList
      else if hist.isResignation ∧ hist.winner = .white then .ok "W+R".toList
      else if hist.winner = .black then
        .ok ("B+".toList ++ E.showFloat (-hist.finalWhiteMinusBlackScore))
      else if hist.winner = .white then
        .ok ("W+".toList ++ E.showFloat hist.finalWhiteMinusBlackScore)
      else if hist.winner = .empty then .ok ['0']
      else .error .assertionFailed)
    pure ("RE[".toList ++ body ++ [']'])
  else
    .ok []

/-- The locations in the order of the nested loops `for y ... for x ...` of
`writeSgf` (sgf.cpp 757-759, 777-779, 793-795). -/
def boardLocs (bSize : Int) : List Loc :=
  (List.range bSize.toNat).flatMap fun y =>
    (List.range bSize.toNat).map fun x => Location.getLoc x y bSize

/-- The handicap loop of `writeSgf` (sgf.cpp 755-765): `handicap` and
`hasWhite` after it. -/
def countHandicap (board : Board) : List Loc → Int × Bool → Int × Bool
  | [], st => st
  | loc :: rest, (handicap, hasWhite) =>
    countHandicap board rest
      (if board.colors loc = .black then handicap + 1 else handicap,
       if board.colors loc = .white then true else hasWhite)

/-- The loops of `writeSgf` that write `AB` and `AW` (sgf.cpp 776-806) for
the colour `color` and the property name `name`: the characters appended to
`out`, given whether the name has been written already. -/
def writePlacements (board : Board) (bSize : Int) (color : Color) (name : List Char) :
    List Loc → Bool → Except SgfError (List Char)
  | [], _ => .ok []
  | loc :: rest, hasName =>
    if board.colors loc = color then do
      let coords ← writeSgfLoc loc bSize
      let more ← writePlacements board bSize color name rest true
      pure ((if !hasName then name else []) ++ ['['] ++ coords ++ [']'] ++ more)
    else
      writePlacements board bSize color name rest hasName

/-- The comment `writeSgf` opens the game with when `gameData` is given
(sgf.cpp 811-819). -/
def writeStartComment (gameData : FinishedGameData) : List Char :=
  "C[startTurnIdx=".toList ++ showInt gameData.startTurnIdx
    ++ ",mode=".toList ++ showInt gameData.mode
    ++ ",modeM1=".toList ++ showInt gameData.modeMeta1
    ++ ",modeM2=".toList ++ showInt gameData.modeMeta2
    ++ (gameData.changedNeuralNets.flatMap fun nn =>
          ",newNeuralNetTurn".toList ++ showInt nn.1 ++ ['='] ++ nn.2)
    ++ [']']

/-- The move loop of `writeSgf` (sgf.cpp 823-849) from index `i` on: the
characters appended to `out`. -/
def writeMoves (F : Formats) (bSize : Int) (gameData : Option FinishedGameData) :
    List Move → Nat → Except SgfError (List Char)
  | [], _ => .ok []
  | m :: rest, i => do
    let coords ← writeSgfLoc m.loc bSize
    let comment ←
      (match gameData with
      | none => Except.ok []
      | some gd =>
        if i ≥ gd.startTurnIdx then
          match gd.whiteValueTargetsByTurn.get? (i - gd.startTurnIdx) with
          | none => .error .outOfBoundsRead
          | some targets =>
            .ok ("C[".toList ++ F.fixed2 targets.win ++ [' '] ++ F.fixed2 targets.loss ++ [' ']
              ++ F.fixed2 targets.noResult ++ [' '] ++ F.fixed1 targets.score ++ [']'])
        else .ok [])
    let more ← writeMoves F bSize gameData rest (i + 1)
    pure ((if m.pla = .black then ";B[".toList else ";W[".toList) ++ coords ++ [']']
      ++ comment ++ more)

/-- `WriteSgf::writeSgf` (sgf.cpp 742-852): the characters appended to
`out`. The two `assert`s are taken to be checked. -/
def WriteSgf.writeSgf (E : Externals) (F : Formats) (bName wName : List Char) (rules : Rules)
    (hist : BoardHistory) (gameData : Option FinishedGameData) :
    Except SgfError (List Char) := do
  let initialBoard := hist.initialBoard
  if initialBoard.x_size ≠ initialBoard.y_size then .error .assertionFailed else
  let bSize := initialBoard.x_size
  let hd := countHandicap initialBoard (boardLocs bSize) (0, false)
  let handicap : Int := if hd.2 then 0 else hd.1
  let result ← WriteSgf.printGameResult E hist
  let ab ← writePlacements initialBoard bSize .black "AB".toList (boardLocs bSize) false
  let aw ← writePlacements initialBoard bSize .white "AW".toList (boardLocs bSize) false
  let startComment ←
    (match gameData with
    | none => Except.ok []
    | some gd =>
      if hist.moveHistory.length < gd.startTurnIdx
          ∨ hist.moveHistory.length - gd.startTurnIdx > gd.whiteValueTargetsByTurn.length then
        .error .assertionFailed
      else .ok (writeStartComment gd))
  let moves ← writeMoves F bSize gameData hist.moveHistory 0
  pure ("(;FF[4]GM[1]".toList
    ++ "SZ[".toList ++ showInt bSize ++ [']']
    ++ "PB[".toList ++ bName ++ [']']
    ++ "PW[".toList ++ wName ++ [']']
    ++ "HA[".toList ++ showInt handicap ++ [']']
    ++ "KM[".toList ++ E.showFloat rules.komi ++ [']']
    ++ "RU[".toList ++ ruValue E rules ++ [']']
    ++ result ++ ab ++ aw ++ startComment ++ moves ++ [')'])

/-! ## Notions used to state the round trip of a game -/

/-- A text with neither a closing bracket nor a backslash. -/
def plainText (t : List Char) : Prop :=
  ∀ c ∈ t, c ≠ ']' ∧ c ≠ '\\'

/-- The value `parseTextValue` reads from a plain text: the text with every
tab replaced by a blank. -/
def textValue (t : List Char) : List Char :=
  t.map fun c => if c = '\t' then ' ' else c

/-- The text of a property with one value. -/
def propText (key value : List Char) : List Char :=
  key ++ '[' :: value ++ [']']

/-- What an iteration of the value loop of `maybeParseProperty` does with the
value `txt` it has read (sgf.cpp 412-433). -/
def storeValue (node : SgfNode) (key txt : List Char) : Except SgfError SgfNode :=
  if node.move.pla = .empty ∧ key = ['B'] then do
    let mv ← moveOfValue txt .black
    pure { node with move := mv }
  else if node.move.pla = .empty ∧ key = ['W'] then do
    let mv ← moveOfValue txt .white
    pure { node with move := mv }
  else
    pure { node with props := node.props.push key txt }

/-- The location is a point of the board of size `n`. -/
def onBoard (loc : Loc) (n : Nat) : Prop :=
  ∃ x y : Nat, x < n ∧ y < n ∧ loc = Location.getLoc x y n

/-- A move of a game on the board of size `n`: a pass or a point of the
board, by Black or by White. -/
def gameMove (n : Nat) (m : Move) : Prop :=
  (m.loc = Board.PASS_LOC ∨ onBoard m.loc n) ∧ (m.pla = .black ∨ m.pla = .white)

/-- The node the parser builds from the text `writeSgf` writes for a move on
the board of size `n`. -/
def nodeOfMove (n : Nat) (m : Move) : SgfNode :=
  if m.loc = Board.PASS_LOC then
    { props := [], move := ⟨128, 128, m.pla⟩ }
  else
    { props := [],
      move := ⟨(Location.getX m.loc n).toNat, (Location.getY m.loc n).toNat, m.pla⟩ }

/-- The text starts with a character that is no white space, no letter and
no opening bracket: such a character ends the properties of a node. -/
def endsNode (s : List Char) : Prop :=
  ∃ c r, s = c :: r ∧ Global.isWhitespace c = false ∧ Global.isAlpha c = false ∧ c ≠ '['

/-- The text of a list of properties with one value each. -/
def propsText (ps : List (List Char × List Char)) : List Char :=
  ps.flatMap fun kv => propText kv.1 kv.2

/-- The property table after the values of the properties `ps` have been
pushed into `props`. -/
def storeProps (props : Props) (ps : List (List Char × List Char)) : Props :=
  ps.foldl (fun p kv => p.push kv.1 (textValue kv.2)) props

/-- A property name that is stored in the property table: letters only, not
empty, and neither `B` nor `W`. -/
def propName (key : List Char) : Prop :=
  (∀ k ∈ key, Global.isAlpha k = true) ∧ key ≠ [] ∧ key ≠ ['B'] ∧ key ≠ ['W']

/-- The coordinates `writeSgf` writes for a pass (nothing) or a point of the
board of size `n` (two letters). -/
def coordText (n : Nat) (loc : Loc) : List Char :=
  if loc = Board.PASS_LOC then []
  else [sgfLetter (Location.getX loc n).toNat, sgfLetter (Location.getY loc n).toNat]

/-- The text `writeSgf` writes for a move of a game on the board of size `n`
when no game data is given. -/
def moveText (n : Nat) (m : Move) : List Char :=
  ';' :: propText [if m.pla = .black then 'B' else 'W'] (coordText n m.loc)

/-- The value of the `RE` property `printGameResult` writes for a finished
game whose winner is a colour of the game (sgf.cpp 724-735). -/
def resultBody (E : Externals) (hist : BoardHistory) : List Char :=
  if hist.isNoResult then "Void".toList
  else if hist.isResignation ∧ hist.winner = .black then "B+R".toList
  else if hist.isResignation ∧ hist.winner = .white then "W+R".toList
  else if hist.winner = .black then "B+".toList ++ E.showFloat (-hist.finalWhiteMinusBlackScore)
  else if hist.winner = .white then "W+".toList ++ E.showFloat hist.finalWhiteMinusBlackScore
  else ['0']

/-- The properties `printGameResult` writes: `RE` for a finished game, none
otherwise. -/
def resultProps (E : Externals) (hist : BoardHistory) : List (List Char × List Char) :=
  if hist.isGameFinished then [("RE".toList, resultBody E hist)] else []

/-- The properties of the root node `writeSgf` writes for a game that starts
from the empty board of size `n`. -/
def rootProps (E : Externals) (n : Nat) (bName wName : List Char) (rules : Rules)
    (hist : BoardHistory) : List (List Char × List Char) :=
  [("FF".toList, ['4']), ("GM".toList, ['1']), ("SZ".toList, showInt n),
   ("PB".toList, bName), ("PW".toList, wName), ("HA".toList, showInt 0),
   ("KM".toList, E.showFloat rules.komi), ("RU".toList, ruValue E rules)]
    ++ resultProps E hist

/-- The text `writeSgf` writes for a game that starts from the empty board of
size `n`, when no game data is given. -/
def gameText (E : Externals) (n : Nat) (bName wName : List Char) (rules : Rules)
    (hist : BoardHistory) : List Char :=
  '(' :: ';' :: propsText (rootProps E n bName wName rules hist)
    ++ hist.moveHistory.flatMap (moveText n) ++ [')']

/-! ## A sample instance of the externals -/

/-- The natural number a string of decimal digits denotes, after the digits
`acc` read so far. -/
def readDigits : List Char → Nat → Option Nat
  | [], acc => some acc
  | c :: rest, acc =>
    if c.isDigit then readDigits rest (10 * acc + (c.toNat - '0'.toNat)) else none

/-- The integer a decimal numeral denotes. -/
def readInt : List Char → Option Int
  | [] => none
  | '-' :: rest => if rest = [] then none else (readDigits rest 0).map fun n => -(n : Int)
  | s => (readDigits s 0).map fun n => (n : Int)

/-- The number a decimal numeral denotes, or a decimal numeral without sign
followed by `.5`. -/
def readHalves (s : List Char) : Option ℚ :=
  match s.reverse with
  | '5' :: '.' :: rest =>
    if rest = [] then none
    else (readDigits rest.reverse 0).map fun n => Rat.mk' (2 * n + 1) 2 (by omega) (by simp)
  | _ => (readInt s).map fun i => (i : ℚ)

/-- The decimal numeral of a whole number and, for the other numbers, of the
next whole number below followed by `.5`. -/
def showHalves (k : ℚ) : List Char :=
  if k.den = 1 then showInt k.num else showInt (k.num / k.den) ++ ".5".toList

/-- An instance of the externals: boards up to 19x19, decimal numerals, and
the names of the rules in capitals. -/
def sampleExternals : Externals where
  MAX_LEN := 19
  tryStringToInt := readInt
  tryStringToFloat := readHalves
  showFloat := showHalves
  writeKoRule := fun ko => (koRuleName ko).map Char.toUpper
  writeScoringRule := fun sc => (scoringRuleName sc).map Char.toUpper

/-- An instance of the formats: both write as the sample externals write a
komi. -/
def sampleFormats : Formats where
  fixed2 := showHalves
  fixed1 := showHalves

/-- The history of a game on the empty board of size `n` that is not
finished. -/
def sampleHistory (n : Nat) (moves : List Move) : BoardHistory where
  initialBoard := { x_size := n, y_size := n, colors := fun _ => .empty }
  moveHistory := moves
  isGameFinished := false
  isNoResult := false
  isResignation := false
  winner := .empty
  finalWhiteMinusBlackScore := 0

/-- A node that holds the move of `pla` at `(x, y)` and no property. -/
def moveNode (x y : Nat) (pla : Player) : SgfNode :=
  { props := [], move := ⟨x, y, pla⟩ }

/-- The tree of `(;B[aa](;W[bb])(;W[cc];B[dd])(;W[ee];B[ff]))`: a root node
and three variations, the second and the third of the greatest depth. -/
def sampleTree : Sgf :=
  .mk [moveNode 0 0 .black]
    [.mk [moveNode 1 1 .white] [],
     .mk [moveNode 2 2 .white, moveNode 3 3 .black] [],
     .mk [moveNode 4 4 .white, moveNode 5 5 .black] []]

/-! ## The GTP engine (`cpp/gtp.cpp`): values and library -/

/-- A `float` or `double` that was read from text: a NaN, an infinity, or a
finite number. -/
inductive Num where
  | nan
  | negInf
  | posInf
  | fin (q : ℚ)
  deriving DecidableEq

/-- The test `isnan(x)`. -/
def Num.isnan : Num → Bool
  | .nan => true
  | _ => false

/-- The comparison `x < c` with a finite `c`; it is false for a NaN. -/
def Num.lt : Num → ℚ → Bool
  | .nan, _ => false
  | .negInf, _ => true
  | .posInf, _ => false
  | .fin q, c => decide (q < c)

/-- The comparison `x > c` with a finite `c`; it is false for a NaN. -/
def Num.gt : Num → ℚ → Bool
  | .nan, _ => false
  | .negInf, _ => false
  | .posInf, _ => true
  | .fin q, c => decide (q > c)

/-- The comparison `x >= c` with a finite `c`; it is false for a NaN. -/
def Num.ge : Num → ℚ → Bool
  | .nan, _ => false
  | .negInf, _ => false
  | .posInf, _ => true
  | .fin q, c => decide (q ≥ c)

/-- The number a finite `x` holds. The program stores `x` only after it has
excluded a NaN and the infinities by `isnan` and a comparison on each side;
for those the value here is 0 and is not used. -/
def Num.toRat : Num → ℚ
  | .fin q => q
  | _ => 0

/-- The fields of `TimeControls` that `gtp.cpp` assigns. -/
structure TimeControls where
  originalMainTime : ℚ
  increment : ℚ
  originalNumPeriods : Int
  numStonesPerPeriod : Int
  perPeriodTime : ℚ
  mainTimeLeft : ℚ
  inOvertime : Bool
  numPeriodsLeftIncludingCurrent : Int
  numStonesLeftInPeriod : Int
  timeLeftInPeriod : ℚ
  deriving DecidableEq

/-- Modelled from the spec: `Global::isDigit` is declared in `core/global.h`,
a file outside this development, and the spec does not describe it; the
model is the test for `0`..`9` its name states. -/
def Global.isDigit (c : Char) : Bool :=
  decide ('0' ≤ c) && decide (c ≤ '9')

/-- Modelled from the spec: `Global::trim` is declared in `core/global.h`, a
file outside this development, and the spec does not describe it; the model
removes the white space at both ends, as its name states. -/
def Global.trim (s : List Char) : List Char :=
  ((s.dropWhile Global.isWhitespace).reverse.dropWhile Global.isWhitespace).reverse

/-- The loop of `Global::split`: `cur` is the piece read so far, reversed. -/
def Global.splitLoop (delim : Char) : List Char → List Char → List (List Char)
  | [], cur => if cur = [] then [] else [cur.reverse]
  | c :: rest, cur =>
    if c = delim then cur.reverse :: Global.splitLoop delim rest []
    else Global.splitLoop delim rest (c :: cur)

/-- Modelled from the spec: `Global::split` is declared in `core/global.h`, a
file outside this development, and the spec does not describe it; the model
cuts the string at every `delim`, keeps the empty pieces between two
delimiters and has no piece after a final delimiter, as reading with
`getline(in,piece,delim)` does. -/
def Global.split (s : List Char) (delim : Char) : List (List Char) :=
  Global.splitLoop delim s []

/-- Modelled from the spec: `Global::concat` is declared in `core/global.h`,
a file outside this development, and the spec does not describe it; the model
joins the pieces with `delim` between them, as its use in the messages
states. -/
def Global.concat : List (List Char) → List Char → List Char
  | [], _ => []
  | [p], _ => p
  | p :: q :: rest, delim => p ++ delim ++ Global.concat (q :: rest) delim

/-- `tryParsePlayer` (gtp.cpp 14-25): the player, or nothing when it returns
false. -/
def tryParsePlayer (s : List Char) : Option Player :=
  let str := Global.toLower s
  if str = "black".toList ∨ str = "b".toList then some .black
  else if str = "white".toList ∨ str = "w".toList then some .white
  else none

/-- The values `MainCmds::gtp` reads from the command line and from the
configuration before the main loop (gtp.cpp 61-113, 161-163). -/
structure GtpConfig where
  overrideVersion : List Char
  ponderingEnabled : Bool
  cleanupBeforePass : Bool
  allowResignation : Bool
  resignThreshold : ℚ
  whiteBonusPerHandicapStone : Int
  searchFactorWhenWinning : ℚ
  searchFactorWhenWinningThreshold : ℚ

/-- The queries of `ConfigParser` (core/config_parser.h, outside this
development) that `MainCmds::gtp` makes: whether a key is set, and the value
of a key as a `bool`, as a `double` within bounds, as an `int` within
bounds. -/
structure ConfigParser where
  contains : List Char → Bool
  getBool : List Char → Bool
  getDouble : List Char → ℚ → ℚ → ℚ
  getInt : List Char → Int → Int → Int

/-- The settings of the engine as `MainCmds::gtp` takes them from the
configuration (gtp.cpp 109-113, 161-162). -/
def readConfig (cfg : ConfigParser) (overrideVersion : List Char) : GtpConfig where
  overrideVersion := overrideVersion
  ponderingEnabled := cfg.getBool "ponderingEnabled".toList
  cleanupBeforePass :=
    if cfg.contains "cleanupBeforePass".toList then cfg.getBool "cleanupBeforePass".toList
    else false
  allowResignation :=
    if cfg.contains "allowResignation".toList then cfg.getBool "allowResignation".toList
    else false
  resignThreshold :=
    if cfg.contains "allowResignation".toList then
      cfg.getDouble "resignThreshold".toList (-1) 0
    else -1
  whiteBonusPerHandicapStone :=
    if cfg.contains "whiteBonusPerHandicapStone".toList then
      cfg.getInt "whiteBonusPerHandicapStone".toList 0 1
    else 0
  searchFactorWhenWinning :=
    if cfg.contains "searchFactorWhenWinning".toList then
      cfg.getDouble "searchFactorWhenWinning".toList (1 / 100) 1
    else 1
  searchFactorWhenWinningThreshold :=
    if cfg.contains "searchFactorWhenWinningThreshold".toList then
      cfg.getDouble "searchFactorWhenWinningThreshold".toList 0 1
    else 1

/-! ## The GTP engine: the bot and the state of the main loop -/

/-- The calls `MainCmds::gtp` makes that change the bot, its search or the
evaluator (`search/asyncbot.h`, `nneval.h`, `program/play.h`, all outside
this development), with their arguments. `newBot` stands for deleting the
bot and the evaluator and making new ones for a board size (gtp.cpp
120-144); an analysis is started with the command that was given (`kata` for
`kata-analyze`) and the `minMoves` and the player its callback holds. -/
inductive BotCall (B H : Type) where
  | stopAndWait
  | newBot (boardSize : Int)
  | setPosition (pla : Player) (board : B) (hist : H)
  | setKomiIfNew (komi : Komi)
  | makeMove (loc : Loc) (pla : Player)
  | clearStats
  | genMoveSynchronous (pla : Player) (tc : TimeControls) (searchFactor : ℚ)
  | playExtraBlack (n : Int) (board : B) (hist : H)
  | ponder (searchFactor : ℚ)
  | analyze (pla : Player) (searchFactor : ℚ) (interval : ℚ) (kata : Bool) (minMoves : Int)
  deriving DecidableEq

/-- What the bot, its search and the evaluator answer. They are outside this
development, and an answer may depend on everything that was done to them
before: each answer is a function of the calls made so far, in order. -/
structure Bot (B H : Type) where
  /-- `nnEval->getPosLen()` -/
  getPosLen : List (BotCall B H) → Int
  /-- `bot->getRootBoard()` -/
  getRootBoard : List (BotCall B H) → B
  /-- `bot->getRootHist()` -/
  getRootHist : List (BotCall B H) → H
  /-- `bot->getRootPla()` -/
  getRootPla : List (BotCall B H) → Player
  /-- The result of `bot->makeMove(loc,pla)` -/
  makeMove : List (BotCall B H) → Loc → Player → Bool
  /-- The result of `bot->genMoveSynchronous(pla,tc,searchFactor)` -/
  genMoveSynchronous : List (BotCall B H) → Player → TimeControls → ℚ → Loc
  /-- `bot->isLegal(loc,pla)` -/
  isLegal : List (BotCall B H) → Loc → Player → Bool
  /-- `bot->getSearch()->rootSafeArea[loc]` -/
  rootSafeArea : List (BotCall B H) → Loc → Color
  /-- The fields `winLossValue` and `expectedScore` of
  `bot->getSearch()->getRootValuesAssertSuccess()` -/
  getRootValues : List (BotCall B H) → ℚ × ℚ
  /-- The values `Play::playExtraBlack` leaves in `board` and `hist` -/
  playExtraBlack : List (BotCall B H) → Int → B → H → B × H

/-- The parts of the board library, of the core library and of the C++
library that the main loop of `gtp.cpp` uses and that are outside this
development. -/
structure GtpLib (B H : Type) where
  /-- The constructors and `Board::setStone`, as for `CompactSgf` -/
  ops : BoardOps B H
  /-- `Board::MAX_LEN` -/
  MAX_LEN : Int
  /-- `Global::tryStringToInt`: the value, or nothing when it returns false -/
  tryStringToInt : List Char → Option Int
  /-- `Global::tryStringToFloat` -/
  tryStringToFloat : List Char → Option Num
  /-- `Global::tryStringToDouble` -/
  tryStringToDouble : List Char → Option Num
  /-- `Global::parseDigits(line,0,len)` on the `len` digits at the start of
  the line: the value, or the message of the `IOError` it throws -/
  parseDigits : List Char → Except (List Char) Int
  /-- `Global::strprintf("%.1f",v)` -/
  fixed1 : ℚ → List Char
  /-- The field `x_size` of a board -/
  x_size : B → Int
  /-- The field `y_size` of a board -/
  y_size : B → Int
  /-- The entry `colors[loc]` of a board -/
  colors : B → Loc → Color
  /-- `Board::isEmpty` -/
  isEmpty : B → Bool
  /-- `Board::isAdjacentToPla` -/
  isAdjacentToPla : B → Loc → Player → Bool
  /-- `Location::tryOfString(s,board,loc)`: the location, or nothing when it
  returns false -/
  tryOfString : List Char → B → Option Loc
  /-- The value of a local `Loc loc;` that was never assigned -/
  unassignedLoc : Loc
  /-- `Location::toString(loc,board)` -/
  locToString : Loc → B → List Char
  /-- The text `Board::printBoard(sout,board,loc,&hist.moveHistory)` writes -/
  printBoard : B → Loc → H → List Char
  /-- The field `rules` of a history -/
  rules : H → Rules
  /-- The field `initialBoard` of a history -/
  initialBoard : H → B
  /-- The field `initialPla` of a history -/
  initialPla : H → Player
  /-- The value of `moveHistory.size()` -/
  numMoves : H → Nat
  /-- The field `isGameFinished` of a history -/
  isGameFinished : H → Bool
  /-- The field `isNoResult` of a history -/
  isNoResult : H → Bool
  /-- The field `winner` of a history -/
  winner : H → Color
  /-- The field `finalWhiteMinusBlackScore` of a history -/
  finalWhiteMinusBlackScore : H → ℚ
  /-- `BoardHistory::isLegal(board,loc,pla)` -/
  histIsLegal : H → B → Loc → Player → Bool
  /-- `BoardHistory::endAndScoreGameNow`: the history afterwards -/
  endAndScoreGameNow : H → B → H
  /-- The entry `area[loc]` after `hist.endAndScoreGameNow(board,area)` -/
  scoreArea : H → B → Loc → Color
  /-- `Play::getSearchFactor(threshold,factor,params,recentWinLossValues,pla)`
  for the search parameters of the engine -/
  getSearchFactor : ℚ → ℚ → List ℚ → Player → ℚ
  /-- The value of a `TimeControls` made by its default constructor -/
  defaultTimeControls : TimeControls

/-- The variables of `MainCmds::gtp` that live across the iterations of the
main loop; the bot and the evaluator are represented by the calls made on
them so far. -/
structure GtpState (B H : Type) where
  calls : List (BotCall B H)
  bTimeControls : TimeControls
  wTimeControls : TimeControls
  recentWinLossValues : List ℚ
  lastSearchFactor : ℚ
  unhackedKomi : Komi
  currentlyAnalyzing : Bool

/-- The variables of one iteration of the main loop after the command was
handled (gtp.cpp 281-284), with the state. -/
structure Handled (B H : Type) where
  st : GtpState B H
  responseIsError : Bool
  shouldQuitAfterResponse : Bool
  maybeStartPondering : Bool
  response : List Char

/-- A command that succeeded with the response `response` and neither quits
nor starts pondering. -/
def Handled.ok {B H : Type} (st : GtpState B H) (response : List Char) : Handled B H :=
  { st := st, responseIsError := false, shouldQuitAfterResponse := false,
    maybeStartPondering := false, response := response }

/-- A command that failed with the message `response`. -/
def Handled.err {B H : Type} (st : GtpState B H) (response : List Char) : Handled B H :=
  { st := st, responseIsError := true, shouldQuitAfterResponse := false,
    maybeStartPondering := false, response := response }

/-- One more call on the bot. -/
def GtpState.call {B H : Type} (st : GtpState B H) (c : BotCall B H) : GtpState B H :=
  { st with calls := st.calls ++ [c] }

/-- The locations in the order of the nested loops `for y ... for x ...` over
a board (gtp.cpp 35-37, 555-557, 705-707, 797-799, 808-810). -/
def gtpBoardLocs (x_size y_size : Int) : List Loc :=
  (List.range y_size.toNat).flatMap fun y =>
    (List.range x_size.toNat).map fun x => Location.getLoc x y x_size

/-- `numHandicapStones` (gtp.cpp 31-47). -/
def numHandicapStones {B H : Type} (L : GtpLib B H) (hist : H) : Int :=
  let board := L.initialBoard hist
  let locs := gtpBoardLocs (L.x_size board) (L.y_size board)
  let startBoardNumBlackStones := (locs.filter fun loc => L.colors board loc = .black).length
  let startBoardNumWhiteStones := (locs.filter fun loc => L.colors board loc = .white).length
  if startBoardNumWhiteStones = 0 then startBoardNumBlackStones else 0

/-- The lambda `maybeInitializeNNEvalAndAsyncBot` (gtp.cpp 120-144) in the
main loop, where the evaluator and the bot exist. -/
def maybeInitializeNNEvalAndAsyncBot {B H : Type} (bot : Bot B H) (st : GtpState B H)
    (boardSize : Int) : GtpState B H :=
  if boardSize = bot.getPosLen st.calls then st
  else (st.call .stopAndWait).call (.newBot boardSize)

/-- The lambda `updateKomiIfNew` (gtp.cpp 170-176). -/
def updateKomiIfNew {B H : Type} (L : GtpLib B H) (bot : Bot B H) (cfg : GtpConfig)
    (st : GtpState B H) : GtpState B H :=
  let newKomi : Komi :=
    st.unhackedKomi
      + numHandicapStones L (bot.getRootHist st.calls) * cfg.whiteBonusPerHandicapStone
  let st1 :=
    if newKomi ≠ (L.rules (bot.getRootHist st.calls)).komi then
      { st with recentWinLossValues := [] }
    else st
  st1.call (.setKomiIfNew newKomi)

/-- The state before the main loop (gtp.cpp 146-178): the evaluator and the
bot are made for size 19, the bot is given the empty board, and the base
komi is the komi of the bot. -/
def initialState {B H : Type} (L : GtpLib B H) (bot : Bot B H) (initialRules : Rules) :
    GtpState B H :=
  let board := L.ops.newBoard 19 19
  let calls : List (BotCall B H) :=
    [.newBot 19, .setPosition .black board (L.ops.newHistory board .black initialRules)]
  { calls := calls
    bTimeControls := L.defaultTimeControls
    wTimeControls := L.defaultTimeControls
    recentWinLossValues := []
    lastSearchFactor := 1
    unhackedKomi := (L.rules (bot.getRootHist calls)).komi
    currentlyAnalyzing := false }

/-! ## The GTP engine: the commands -/

/-- The vector `knownCommands` (gtp.cpp 180-202). -/
def knownCommands : List (List Char) :=
  ["protocol_version".toList, "name".toList, "version".toList, "known_command".toList,
   "list_commands".toList, "quit".toList, "boardsize".toList, "clear_board".toList,
   "komi".toList, "play".toList, "genmove".toList, "showboard".toList,
   "place_free_handicap".toList, "set_free_handicap".toList, "time_settings".toList,
   "time_left".toList, "final_score".toList, "final_status_list".toList,
   "lz-analyze".toList, "kata-analyze".toList, "stop".toList]

/-- The branches of the chain `if(command == ...) ... else if ...` of the main
loop (gtp.cpp 286-981), in its order; the last stands for the final `else`. -/
inductive Branch where
  | protocol_version
  | name
  | version
  | known_command
  | list_commands
  | quit
  | boardsize
  | clear_board
  | komi
  | time_settings
  | time_left
  | play
  | genmove
  | showboard
  | place_free_handicap
  | set_free_handicap
  | final_score
  | final_status_list
  | analyze
  | stop
  | unknown
  deriving DecidableEq

/-- The branch of the chain the main loop takes for `command`: the tests of
the chain in their order (gtp.cpp 286, 290, 297, 304, 317, 322, 327, 352, 363,
386, 445, 492, 517, 662, 668, 722, 751, 771, 834, 973, 978). -/
def branchOf (command : List Char) : Branch :=
  if command = "protocol_version".toList then .protocol_version
  else if command = "name".toList then .name
  else if command = "version".toList then .version
  else if command = "known_command".toList then .known_command
  else if command = "list_commands".toList then .list_commands
  else if command = "quit".toList then .quit
  else if command = "boardsize".toList then .boardsize
  else if command = "clear_board".toList then .clear_board
  else if command = "komi".toList then .komi
  else if command = "time_settings".toList then .time_settings
  else if command = "time_left".toList then .time_left
  else if command = "play".toList then .play
  else if command = "genmove".toList then .genmove
  else if command = "showboard".toList then .showboard
  else if command = "place_free_handicap".toList then .place_free_handicap
  else if command = "set_free_handicap".toList then .set_free_handicap
  else if command = "final_score".toList then .final_score
  else if command = "final_status_list".toList then .final_status_list
  else if command = "lz-analyze".toList ∨ command = "kata-analyze".toList then .analyze
  else if command = "stop".toList then .stop
  else .unknown

/-- The branch `name` (gtp.cpp 290-295). -/
def cmdName {B H : Type} (cfg : GtpConfig) (st : GtpState B H) : Handled B H :=
  if cfg.overrideVersion.length > 0 then Handled.ok st "Leela Zero".toList
  else Handled.ok st "KataGo".toList

/-- The branch `version` (gtp.cpp 297-302). -/
def cmdVersion {B H : Type} (cfg : GtpConfig) (st : GtpState B H) : Handled B H :=
  if cfg.overrideVersion.length > 0 then Handled.ok st cfg.overrideVersion
  else Handled.ok st "1.1".toList

/-- The branch `known_command` (gtp.cpp 304-315). -/
def cmdKnownCommand {B H : Type} (st : GtpState B H) (pieces : List (List Char)) :
    Handled B H :=
  match pieces with
  | [c] =>
    if c ∈ knownCommands then Handled.ok st "true".toList
    else Handled.ok st "false".toList
  | _ =>
    Handled.err st ("Expected single argument for known_command but got '".toList
      ++ Global.concat pieces " ".toList ++ "'".toList)

/-- The branch `list_commands` (gtp.cpp 317-320). -/
def cmdListCommands {B H : Type} (st : GtpState B H) : Handled B H :=
  Handled.ok st (knownCommands.flatMap fun c => c ++ "\n".toList)

/-- The branch `quit` (gtp.cpp 322-325). -/
def cmdQuit {B H : Type} (st : GtpState B H) : Handled B H :=
  { Handled.ok st [] with shouldQuitAfterResponse := true }

/-- The statements of the branches `boardsize` and `clear_board` that give
the bot the empty board of size `newBSize` (gtp.cpp 343-348, 355-360). -/
def setEmptyPosition {B H : Type} (L : GtpLib B H) (bot : Bot B H) (cfg : GtpConfig)
    (st : GtpState B H) (newBSize : Int) : GtpState B H :=
  let board := L.ops.newBoard newBSize newBSize
  let pla : Player := .black
  let hist := L.ops.newHistory board pla (L.rules (bot.getRootHist st.calls))
  let st1 := st.call (.setPosition pla board hist)
  let st2 := updateKomiIfNew L bot cfg st1
  { st2 with recentWinLossValues := [] }

/-- The branch `boardsize` (gtp.cpp 327-350). -/
def cmdBoardsize {B H : Type} (L : GtpLib B H) (bot : Bot B H) (cfg : GtpConfig)
    (st : GtpState B H) (pieces : List (List Char)) : Handled B H :=
  let bad := Handled.err st ("Expected single int argument for boardsize but got '".toList
    ++ Global.concat pieces " ".toList ++ "'".toList)
  match pieces with
  | [p] =>
    match L.tryStringToInt p with
    | none => bad
    | some newBSize =>
      if newBSize < 2 ∨ newBSize > L.MAX_LEN then Handled.err st "unacceptable size".toList
      else if newBSize > L.MAX_LEN then
        Handled.err st ("unacceptable size (Board::MAX_LEN is ".toList ++ showInt L.MAX_LEN
          ++ ", consider increasing and recompiling)".toList)
      else
        Handled.ok
          (setEmptyPosition L bot cfg (maybeInitializeNNEvalAndAsyncBot bot st newBSize) newBSize)
          []
  | _ => bad

/-- The branch `clear_board` (gtp.cpp 352-361); the assertion that the board
is square is not checked here. -/
def cmdClearBoard {B H : Type} (L : GtpLib B H) (bot : Bot B H) (cfg : GtpConfig)
    (st : GtpState B H) : Handled B H :=
  Handled.ok (setEmptyPosition L bot cfg st (L.x_size (bot.getRootBoard st.calls))) []

/-- The branch `komi` (gtp.cpp 363-384). -/
def cmdKomi {B H : Type} (L : GtpLib B H) (bot : Bot B H) (cfg : GtpConfig)
    (st : GtpState B H) (pieces : List (List Char)) : Handled B H :=
  let bad := Handled.err st ("Expected single float argument for komi but got '".toList
    ++ Global.concat pieces " ".toList ++ "'".toList)
  match pieces with
  | [p] =>
    match L.tryStringToFloat p with
    | none => bad
    | some newKomi =>
      if newKomi.isnan ∨ newKomi.lt (-100) ∨ newKomi.gt 100 then
        Handled.err st "unacceptable komi".toList
      else if !Rules.komiIsIntOrHalfInt newKomi.toRat then
        Handled.err st "komi must be an integer or half-integer".toList
      else
        let st1 := updateKomiIfNew L bot cfg { st with unhackedKomi := newKomi.toRat }
        { Handled.ok st1 [] with
            maybeStartPondering := decide (L.numMoves (bot.getRootHist st1.calls) > 0) }
  | _ => bad

/-- The value of `tc` at the end of the accepting branch of `time_settings`
(gtp.cpp 410-438). -/
def timeSettingsControls (dflt : TimeControls) (mainTime byoYomiTime : ℚ)
    (byoYomiStones : Int) : TimeControls :=
  if byoYomiStones = 0 ∧ byoYomiTime > 0 then dflt
  else if byoYomiStones = 0 then
    { originalMainTime := mainTime
      increment := 0
      originalNumPeriods := 0
      numStonesPerPeriod := 0
      perPeriodTime := 0
      mainTimeLeft := mainTime
      inOvertime := false
      numPeriodsLeftIncludingCurrent := 0
      numStonesLeftInPeriod := 0
      timeLeftInPeriod := 0 }
  else
    { originalMainTime := mainTime
      increment := 0
      originalNumPeriods := 1
      numStonesPerPeriod := byoYomiStones
      perPeriodTime := byoYomiTime
      mainTimeLeft := mainTime
      inOvertime := false
      numPeriodsLeftIncludingCurrent := 1
      numStonesLeftInPeriod := 0
      timeLeftInPeriod := 0 }

/-- The value of the `double` literal `1e50` (gtp.cpp 398, 402, 460): the
`double` nearest to `10^50`, which is `2407412430484045 * 2^115`, a little
above `10^50`. -/
def double1e50 : ℚ := 100000000000000007629769841091887003294964970946560

/-- The value of the `double` literal `1e30` (gtp.cpp 838): the `double`
nearest to `10^30`, which is `3552713678800501 * 2^48`. -/
def double1e30 : ℚ := 1000000000000000019884624838656

/-- The value of the `double` literal `1e40` (gtp.cpp 967): the `double`
nearest to `10^40`, which is `8271806125530277 * 2^80`. -/
def double1e40 : ℚ := 10000000000000000303786028427003666890752

/-- The branch `time_settings` (gtp.cpp 386-443); the bound `1e50` is the
value `double1e50` of that literal. -/
def cmdTimeSettings {B H : Type} (L : GtpLib B H) (st : GtpState B H)
    (pieces : List (List Char)) : Handled B H :=
  let bad := Handled.err st ("Expected 2 floats and an int for time_settings but got '".toList
    ++ Global.concat pieces " ".toList ++ "'".toList)
  match pieces with
  | [p0, p1, p2] =>
    match L.tryStringToDouble p0, L.tryStringToDouble p1, L.tryStringToInt p2 with
    | some mainTime, some byoYomiTime, some byoYomiStones =>
      if mainTime.isnan ∨ mainTime.lt 0 ∨ mainTime.gt double1e50 then
        Handled.err st "invalid main_time".toList
      else if byoYomiTime.isnan ∨ byoYomiTime.lt 0 ∨ byoYomiTime.gt double1e50 then
        Handled.err st "invalid byo_yomi_time".toList
      else if byoYomiStones < 0 ∨ byoYomiStones > 100000 then
        Handled.err st "invalid byo_yomi_stones".toList
      else
        let tc := timeSettingsControls L.defaultTimeControls mainTime.toRat byoYomiTime.toRat
          byoYomiStones
        Handled.ok { st with bTimeControls := tc, wTimeControls := tc } []
    | _, _, _ => bad
  | _ => bad

/-- The branch `time_left` (gtp.cpp 445-490). -/
def cmdTimeLeft {B H : Type} (L : GtpLib B H) (st : GtpState B H)
    (pieces : List (List Char)) : Handled B H :=
  let bad := Handled.err st
    ("Expected player and float time and int stones for time_left but got '".toList
      ++ Global.concat pieces " ".toList ++ "'".toList)
  match pieces with
  | [p0, p1, p2] =>
    match tryParsePlayer p0, L.tryStringToDouble p1, L.tryStringToInt p2 with
    | some pla, some time, some stones =>
      if time.isnan ∨ time.lt (-10) ∨ time.gt double1e50 then
        Handled.err st "invalid time".toList
      else if stones < 0 ∨ stones > 100000 then
        Handled.err st "invalid stones".toList
      else
        let tc0 := if pla = .black then st.bTimeControls else st.wTimeControls
        let tc : TimeControls :=
          if stones = 0 then
            { tc0 with
                mainTimeLeft := time.toRat
                inOvertime := false
                numPeriodsLeftIncludingCurrent := tc0.originalNumPeriods
                numStonesLeftInPeriod := 0
                timeLeftInPeriod := 0 }
          else
            { tc0 with
                mainTimeLeft := 9 / 10
                inOvertime := true
                numPeriodsLeftIncludingCurrent := 1
                numStonesLeftInPeriod := stones
                timeLeftInPeriod := time.toRat }
        if pla = .black then Handled.ok { st with bTimeControls := tc } []
        else Handled.ok { st with wTimeControls := tc } []
    | _, _, _ => bad
  | _ => bad

/-- The branch `play` (gtp.cpp 492-515). -/
def cmdPlay {B H : Type} (L : GtpLib B H) (bot : Bot B H) (st : GtpState B H)
    (pieces : List (List Char)) : Handled B H :=
  match pieces with
  | [p0, p1] =>
    match tryParsePlayer p0 with
    | none => Handled.err st ("Could not parse color: '".toList ++ p0 ++ "'".toList)
    | some pla =>
      match L.tryOfString p1 (bot.getRootBoard st.calls) with
      | none => Handled.err st ("Could not parse vertex: '".toList ++ p1 ++ "'".toList)
      | some loc =>
        let suc := bot.makeMove st.calls loc pla
        let st1 := st.call (.makeMove loc pla)
        if !suc then { Handled.err st1 "illegal move".toList with maybeStartPondering := true }
        else { Handled.ok st1 [] with maybeStartPondering := true }
  | _ =>
    Handled.err st ("Expected two arguments for play but got '".toList
      ++ Global.concat pieces " ".toList ++ "'".toList)

/-- The scan of the `cleanupBeforePass` hack (gtp.cpp 555-568): `moveLoc`
after the loops over the locations `locs`. -/
def cleanupScan {B H : Type} (L : GtpLib B H) (board : B) (hist : H)
    (safeArea : Loc → Color) (pla : Player) : List Loc → Loc → Loc
  | [], moveLoc => moveLoc
  | otherLoc :: rest, moveLoc =>
    if moveLoc = Board.PASS_LOC ∧ L.colors board otherLoc = .empty ∧ safeArea otherLoc = pla
        ∧ L.isAdjacentToPla board otherLoc (getOpp pla) = true
        ∧ L.histIsLegal hist board otherLoc pla = true then
      cleanupScan L board hist safeArea pla rest otherLoc
    else cleanupScan L board hist safeArea pla rest moveLoc

/-- The `cleanupBeforePass` hack of `genmove` (gtp.cpp 549-570): `moveLoc`
after it, for the calls made on the bot so far. -/
def cleanupMove {B H : Type} (L : GtpLib B H) (bot : Bot B H) (cfg : GtpConfig)
    (calls : List (BotCall B H)) (pla : Player) (moveLoc : Loc) : Loc :=
  if cfg.cleanupBeforePass = true ∧ moveLoc = Board.PASS_LOC then
    let board := bot.getRootBoard calls
    cleanupScan L board (bot.getRootHist calls) (bot.rootSafeArea calls) pla
      (gtpBoardLocs (L.x_size board) (L.y_size board)) moveLoc
  else moveLoc

/-- The block of `genmove` that decides on resignation (gtp.cpp 582-627): the
value of `resigned` after it, from the history `hist` of the bot, the player
to move and the root values. -/
def genmoveResigned {B H : Type} (L : GtpLib B H) (cfg : GtpConfig) (hist : H)
    (pla : Player) (winLossValue expectedScore : ℚ) : Bool :=
  if cfg.allowResignation then
    let initialBoard := L.initialBoard hist
    let extraBlackStones0 := numHandicapStones L hist
    let extraBlackStones :=
      if L.initialPla hist = .white ∧ extraBlackStones0 > 0 then extraBlackStones0 - 1
      else extraBlackStones0
    let handicapBlackAdvantage : ℚ := 15 * extraBlackStones + (15 / 2 - (L.rules hist).komi)
    let area : Int := L.x_size initialBoard * L.y_size initialBoard
    let handicapGame : Bool := decide (handicapBlackAdvantage > 2 ∧ pla = .white)
    let minTurnForResignation : Int := if handicapGame then 1 + Int.tdiv area 6 else 0
    let numTurnsToCatchUp0 : ℚ :=
      3 / 5 * L.x_size initialBoard * L.y_size initialBoard - minTurnForResignation
    let numTurnsSpent0 : ℚ := (L.numMoves hist : ℚ) - minTurnForResignation
    let numTurnsToCatchUp : ℚ := if numTurnsToCatchUp0 ≤ 1 then 1 else numTurnsToCatchUp0
    let numTurnsSpent1 : ℚ := if numTurnsSpent0 ≤ 0 then 0 else numTurnsSpent0
    let numTurnsSpent : ℚ :=
      if numTurnsSpent1 > numTurnsToCatchUp then numTurnsToCatchUp else numTurnsSpent1
    let resignScore : ℚ :=
      -handicapBlackAdvantage * ((numTurnsToCatchUp - numTurnsSpent) / numTurnsToCatchUp)
        - 5 - handicapBlackAdvantage * (3 / 20)
    let noResignationWhenWhiteScoreAbove : ℚ := if handicapGame then resignScore else area
    let resignPlayerThisTurn : Player :=
      if winLossValue < cfg.resignThreshold then .white
      else if winLossValue > -cfg.resignThreshold then .black
      else .empty
    decide (resignPlayerThisTurn = pla ∧ (L.numMoves hist : Int) ≥ minTurnForResignation
      ∧ ¬ (pla = .white ∧ expectedScore > noResignationWhenWhiteScoreAbove))
  else false

/-- The branch `genmove` (gtp.cpp 517-660); what it writes to the log is left
out, and the assertion that the bot accepts the move is not checked. -/
def cmdGenmove {B H : Type} (L : GtpLib B H) (bot : Bot B H) (cfg : GtpConfig)
    (st : GtpState B H) (pieces : List (List Char)) : Handled B H :=
  match pieces with
  | [p0] =>
    match tryParsePlayer p0 with
    | none => Handled.err st ("Could not parse color: '".toList ++ p0 ++ "'".toList)
    | some pla =>
      let st1 := st.call .clearStats
      let tc := if pla = .black then st.bTimeControls else st.wTimeControls
      let searchFactor := L.getSearchFactor cfg.searchFactorWhenWinningThreshold
        cfg.searchFactorWhenWinning st.recentWinLossValues pla
      let moveLoc0 := bot.genMoveSynchronous st1.calls pla tc searchFactor
      let st2 : GtpState B H :=
        { st1.call (.genMoveSynchronous pla tc searchFactor) with
            lastSearchFactor := searchFactor }
      let isLegal := bot.isLegal st2.calls moveLoc0 pla
      let responseIsError : Bool := decide (moveLoc0 = Board.NULL_LOC) || !isLegal
      let moveLoc := cleanupMove L bot cfg st2.calls pla moveLoc0
      let winLossValue := (bot.getRootValues st2.calls).1
      let expectedScore := (bot.getRootValues st2.calls).2
      let st3 : GtpState B H :=
        { st2 with recentWinLossValues := st2.recentWinLossValues ++ [winLossValue] }
      let resigned :=
        genmoveResigned L cfg (bot.getRootHist st3.calls) pla winLossValue expectedScore
      let response :=
        if resigned then "resign".toList
        else L.locToString moveLoc (bot.getRootBoard st3.calls)
      if !resigned ∧ moveLoc ≠ Board.NULL_LOC ∧ isLegal = true then
        { st := st3.call (.makeMove moveLoc pla), responseIsError := responseIsError,
          shouldQuitAfterResponse := false, maybeStartPondering := true,
          response := response }
      else
        { st := st3, responseIsError := responseIsError, shouldQuitAfterResponse := false,
          maybeStartPondering := false, response := response }
  | _ =>
    Handled.err st ("Expected one argument for genmove but got '".toList
      ++ Global.concat pieces " ".toList ++ "'".toList)

/-- The branch `showboard` (gtp.cpp 662-666). -/
def cmdShowboard {B H : Type} (L : GtpLib B H) (bot : Bot B H) (st : GtpState B H) :
    Handled B H :=
  Handled.ok st
    (Global.trim
      (L.printBoard (bot.getRootBoard st.calls) Board.NULL_LOC (bot.getRootHist st.calls)))

/-- The text the loops of `place_free_handicap` collect (gtp.cpp 704-712): a
blank and the name of each location of `board` that is not empty. -/
def stonesText {B H : Type} (L : GtpLib B H) (board : B) : List Char :=
  ((gtpBoardLocs (L.x_size board) (L.y_size board)).filter
      fun loc => L.colors board loc ≠ .empty).flatMap
    fun loc => " ".toList ++ L.locToString loc board

/-- The branch `place_free_handicap` (gtp.cpp 668-720). -/
def cmdPlaceFreeHandicap {B H : Type} (L : GtpLib B H) (bot : Bot B H) (cfg : GtpConfig)
    (st : GtpState B H) (pieces : List (List Char)) : Handled B H :=
  match pieces with
  | [p0] =>
    match L.tryStringToInt p0 with
    | none =>
      Handled.err st
        ("Could not parse number of handicap stones: '".toList ++ p0 ++ "'".toList)
    | some n0 =>
      if n0 < 2 then
        Handled.err st
          ("Number of handicap stones less than 2: '".toList ++ p0 ++ "'".toList)
      else if !L.isEmpty (bot.getRootBoard st.calls) then
        Handled.err st "Board is not empty".toList
      else
        let xSize := L.x_size (bot.getRootBoard st.calls)
        let ySize := L.y_size (bot.getRootBoard st.calls)
        let maxHandicap0 := Int.tdiv (xSize * ySize) 4
        let maxHandicap := if maxHandicap0 > 30 then 30 else maxHandicap0
        let n := if n0 > maxHandicap then maxHandicap else n0
        let board0 := L.ops.newBoard xSize ySize
        let pla : Player := .black
        let hist0 := L.ops.newHistory board0 pla (L.rules (bot.getRootHist st.calls))
        let played := bot.playExtraBlack st.calls n board0 hist0
        let st1 := st.call (.playExtraBlack n board0 hist0)
        let response := Global.trim (stonesText L played.1)
        let st2 := st1.call (.setPosition pla played.1 played.2)
        Handled.ok (updateKomiIfNew L bot cfg st2) response
  | _ =>
    Handled.err st ("Expected one argument for place_free_handicap but got '".toList
      ++ Global.concat pieces " ".toList ++ "'".toList)

/-- The first loop of `set_free_handicap` (gtp.cpp 733-741) from the piece
it has reached: `responseIsError`, `response` and `locs` after it. A location
that could not be read is pushed as it was declared, without a value. -/
def handicapLocs {B H : Type} (L : GtpLib B H) (board : B) :
    List (List Char) → Bool × List Char × List Loc → Bool × List Char × List Loc
  | [], acc => acc
  | p :: rest, (responseIsError, response, locs) =>
    match L.tryOfString p board with
    | none =>
      handicapLocs L board rest
        (true, "Invalid handicap location: ".toList ++ p, locs ++ [L.unassignedLoc])
    | some loc =>
      if loc = Board.PASS_LOC then
        handicapLocs L board rest
          (true, "Invalid handicap location: ".toList ++ p, locs ++ [loc])
      else handicapLocs L board rest (responseIsError, response, locs ++ [loc])

/-- The branch `set_free_handicap` (gtp.cpp 722-749). -/
def cmdSetFreeHandicap {B H : Type} (L : GtpLib B H) (bot : Bot B H) (cfg : GtpConfig)
    (st : GtpState B H) (pieces : List (List Char)) : Handled B H :=
  if !L.isEmpty (bot.getRootBoard st.calls) then Handled.err st "Board is not empty".toList
  else
    let xSize := L.x_size (bot.getRootBoard st.calls)
    let ySize := L.y_size (bot.getRootBoard st.calls)
    let board0 := L.ops.newBoard xSize ySize
    let read := handicapLocs L board0 pieces (false, [], [])
    let board := read.2.2.foldl (fun b loc => L.ops.setStone b loc .black) board0
    let pla : Player := .black
    let hist := L.ops.newHistory board pla (L.rules (bot.getRootHist st.calls))
    let st1 := st.call (.setPosition pla board hist)
    { st := updateKomiIfNew L bot cfg st1, responseIsError := read.1,
      shouldQuitAfterResponse := false, maybeStartPondering := false, response := read.2.1 }

/-- The branch `final_score` (gtp.cpp 751-769); for a winner that is no
player and not empty the program asserts, and no response is set here. -/
def cmdFinalScore {B H : Type} (L : GtpLib B H) (bot : Bot B H) (st : GtpState B H) :
    Handled B H :=
  let board := bot.getRootBoard st.calls
  let hist0 := bot.getRootHist st.calls
  let hist := if !L.isGameFinished hist0 then L.endAndScoreGameNow hist0 board else hist0
  match L.winner hist with
  | .empty => Handled.ok st "0".toList
  | .black => Handled.ok st ("B+".toList ++ L.fixed1 (-L.finalWhiteMinusBlackScore hist))
  | .white => Handled.ok st ("W+".toList ++ L.fixed1 (L.finalWhiteMinusBlackScore hist))
  | .wall => Handled.ok st []

/-- The locations `final_status_list` reports for the status `statusMode`
(0 alive, 1 seki, 2 dead) (gtp.cpp 792-822). -/
def locsToReport {B H : Type} (L : GtpLib B H) (board : B) (hist : H) (statusMode : Nat) :
    List Loc :=
  let locs := gtpBoardLocs (L.x_size board) (L.y_size board)
  if L.isGameFinished hist = true ∧ L.isNoResult hist = true then
    if statusMode = 0 then locs.filter fun loc => L.colors board loc ≠ .empty
    else []
  else
    let area := L.scoreArea hist board
    locs.filter fun loc =>
      if L.colors board loc ≠ .empty then
        if statusMode = 0 ∧ L.colors board loc = area loc then true
        else if statusMode = 2 ∧ L.colors board loc ≠ area loc then true
        else false
      else false

/-- The branch `final_status_list` (gtp.cpp 771-832). -/
def cmdFinalStatusList {B H : Type} (L : GtpLib B H) (bot : Bot B H) (st : GtpState B H)
    (pieces : List (List Char)) : Handled B H :=
  match pieces with
  | [p0] =>
    let statusMode : Nat :=
      if p0 = "alive".toList then 0
      else if p0 = "seki".toList then 1
      else if p0 = "dead".toList then 2
      else 3
    if statusMode < 3 then
      let board := bot.getRootBoard st.calls
      let locs := locsToReport L board (bot.getRootHist st.calls) statusMode
      Handled.ok st (Global.concat (locs.map fun loc => L.locToString loc board) " ".toList)
    else
      Handled.err st
        "Argument to final_status_list must be 'alive' or 'seki' or 'dead'".toList
  | _ =>
    Handled.err st ("Expected one argument for final_status_list but got '".toList
      ++ Global.concat pieces " ".toList ++ "'".toList)

/-- The test on an interval of `lz-analyze` (gtp.cpp 846-847, 854-855). -/
def intervalOk (x : Num) : Bool :=
  !x.isnan && x.ge 0 && x.lt (10 ^ 20)

/-- The `while` loop over the keyword arguments of `lz-analyze` (gtp.cpp
850-895) on the pieces not yet read: `lzAnalyzeInterval` and `minMoves` after
it, or nothing when `parseFailed` is set. -/
def parseAnalyzeKeywords {B H : Type} (L : GtpLib B H) :
    List (List Char) → Num → Int → Option (Num × Int)
  | [], interval, minMoves => some (interval, minMoves)
  | key :: rest, interval, minMoves =>
    if key = "interval".toList then
      match rest with
      | [] => none
      | v :: rest2 =>
        match L.tryStringToDouble v with
        | none => none
        | some x => if intervalOk x then parseAnalyzeKeywords L rest2 x minMoves else none
    else if key = "avoid".toList ∨ key = "allow".toList then
      match rest with
      | _ :: _ :: _ :: rest2 => parseAnalyzeKeywords L rest2 interval minMoves
      | _ => none
    else if key = "minmoves".toList then
      match rest with
      | [] => none
      | v :: rest2 =>
        match L.tryStringToInt v with
        | none => none
        | some m =>
          if m ≥ 0 ∧ m < 1000000000 then parseAnalyzeKeywords L rest2 interval m else none
    else none

/-- The branch `lz-analyze` and `kata-analyze` (gtp.cpp 834-971); `1e30` and
`1e40` are the values `double1e30` and `double1e40` of those literals, and
`1e20` is `10^20`, which is a `double`. The callback the bot is given is
represented by the command, `minMoves` and the player. -/
def cmdAnalyze {B H : Type} (L : GtpLib B H) (bot : Bot B H) (st : GtpState B H)
    (command : List Char) (pieces : List (List Char)) : Handled B H :=
  let pla0 := bot.getRootPla st.calls
  let afterPla : Player × List (List Char) :=
    match pieces with
    | [] => (pla0, pieces)
    | p :: rest =>
      match tryParsePlayer p with
      | some pla => (pla, rest)
      | none => (pla0, pieces)
  let afterInterval : Num × List (List Char) :=
    match afterPla.2 with
    | [] => (.fin double1e30, afterPla.2)
    | p :: rest =>
      match L.tryStringToDouble p with
      | some x => if intervalOk x then (x, rest) else (x, afterPla.2)
      | none => (.fin double1e30, afterPla.2)
  match parseAnalyzeKeywords L afterInterval.2 afterInterval.1 0 with
  | none =>
    Handled.err st
      ("Could not parse lz-analyze arguments or arguments out of range: '".toList
        ++ Global.concat pieces " ".toList ++ "'".toList)
  | some (interval, minMoves) =>
    let lzAnalyzeInterval := interval.toRat * (1 / 100)
    let st1 := st.call
      (.analyze afterPla.1 double1e40 lzAnalyzeInterval (decide (command ≠ "lz-analyze".toList))
        minMoves)
    Handled.ok { st1 with currentlyAnalyzing := true } []

/-- The branch `stop` (gtp.cpp 973-976). -/
def cmdStop {B H : Type} (st : GtpState B H) : Handled B H :=
  Handled.ok (st.call .stopAndWait) []

/-- The chain of the main loop (gtp.cpp 286-981): the variables after the
command `command` with the arguments `pieces` was handled. -/
def handleCommand {B H : Type} (L : GtpLib B H) (bot : Bot B H) (cfg : GtpConfig)
    (st : GtpState B H) (command : List Char) (pieces : List (List Char)) : Handled B H :=
  match branchOf command with
  | .protocol_version => Handled.ok st "2".toList
  | .name => cmdName cfg st
  | .version => cmdVersion cfg st
  | .known_command => cmdKnownCommand st pieces
  | .list_commands => cmdListCommands st
  | .quit => cmdQuit st
  | .boardsize => cmdBoardsize L bot cfg st pieces
  | .clear_board => cmdClearBoard L bot cfg st
  | .komi => cmdKomi L bot cfg st pieces
  | .time_settings => cmdTimeSettings L st pieces
  | .time_left => cmdTimeLeft L st pieces
  | .play => cmdPlay L bot st pieces
  | .genmove => cmdGenmove L bot cfg st pieces
  | .showboard => cmdShowboard L bot st
  | .place_free_handicap => cmdPlaceFreeHandicap L bot cfg st pieces
  | .set_free_handicap => cmdSetFreeHandicap L bot cfg st pieces
  | .final_score => cmdFinalScore L bot st
  | .final_status_list => cmdFinalStatusList L bot st pieces
  | .analyze => cmdAnalyze L bot st command pieces
  | .stop => cmdStop st
  | .unknown => Handled.err st "unknown command".toList

/-! ## The GTP engine: the main loop -/

/-- What the main loop finds in a line (gtp.cpp 215-273): nothing, an id that
`parseDigits` rejects with a message, an id with no command, or a command
with its arguments and, when `hasId` is set, its id. -/
inductive ParsedLine where
  | blank
  | badId (message : List Char)
  | emptyCommand
  | command (hasId : Bool) (id : Int) (command : List Char) (pieces : List (List Char))
  deriving DecidableEq

/-- The line after the characters outside the printable ASCII range were
dropped, the comment was cut, tabs were made blanks and the ends were trimmed
(gtp.cpp 221-240). -/
def cleanLine (line : List Char) : List Char :=
  let kept := line.filter fun c =>
    (decide (charCode c ≥ 32) && decide (charCode c ≤ 126)) || c == '\t'
  let noComment := kept.takeWhile fun c => c != '#'
  Global.trim (noComment.map fun c => if c = '\t' then ' ' else c)

/-- The command and the arguments of a line that is not empty after its id
(gtp.cpp 266-272); a line with no piece has the empty command (the program
asserts that there is a piece). -/
def commandOf (hasId : Bool) (id : Int) (line : List Char) : ParsedLine :=
  match (Global.split line ' ').map Global.trim with
  | [] => .command hasId id [] []
  | command :: pieces => .command hasId id command pieces

/-- The parsing of a line by the main loop (gtp.cpp 215-273). -/
def parseLine {B H : Type} (L : GtpLib B H) (line0 : List Char) : ParsedLine :=
  let line := cleanLine line0
  if line.length = 0 then .blank
  else
    let digits := line.takeWhile Global.isDigit
    if digits.length > 0 then
      match L.parseDigits digits with
      | .error message => .badId message
      | .ok id =>
        let rest := Global.trim (line.drop digits.length)
        if rest.length ≤ 0 then .emptyCommand else commandOf true id rest
    else
      let rest := Global.trim line
      if rest.length ≤ 0 then .emptyCommand else commandOf false 0 rest

/-- The variables of `MainCmds::gtp` during the main loop: the state, what
was written to `cout`, and whether the loop was left by `quit`. -/
structure GtpRun (B H : Type) where
  st : GtpState B H
  out : List Char
  quit : Bool

/-- The response as it is written (gtp.cpp 984-993): the mark of success or
failure, the id when the line had one, a blank, and the response of the
command. -/
def frameResponse (hasId : Bool) (id : Int) (responseIsError : Bool)
    (response : List Char) : List Char :=
  let response1 := if hasId then showInt id ++ " ".toList ++ response else ' ' :: response
  if responseIsError then '?' :: response1 else '=' :: response1

/-- The call on the bot when a command arrives (gtp.cpp 276-277): a running
analysis is stopped. -/
def stopAnalysis {B H : Type} (st : GtpState B H) : GtpState B H :=
  if st.currentlyAnalyzing then st.call .stopAndWait else st

/-- The part of an iteration of the main loop after the line was parsed
(gtp.cpp 275-1008). -/
def runCommand {B H : Type} (L : GtpLib B H) (bot : Bot B H) (cfg : GtpConfig)
    (run : GtpRun B H) (hasId : Bool) (id : Int) (command : List Char)
    (pieces : List (List Char)) : GtpRun B H :=
  let st0 := stopAnalysis run.st
  let out0 := if run.st.currentlyAnalyzing then run.out ++ "\n".toList else run.out
  let r := handleCommand L bot cfg st0 command pieces
  let out1 := out0 ++ frameResponse hasId id r.responseIsError r.response ++ "\n".toList
  let out2 := if !r.st.currentlyAnalyzing then out1 ++ "\n".toList else out1
  if r.shouldQuitAfterResponse then { st := r.st, out := out2, quit := true }
  else if r.maybeStartPondering && cfg.ponderingEnabled then
    { st := r.st.call (.ponder r.st.lastSearchFactor), out := out2, quit := false }
  else { st := r.st, out := out2, quit := false }

/-- One iteration of the main loop on the line `line` (gtp.cpp 208-1010);
what it writes to the log is left out. -/
def processLine {B H : Type} (L : GtpLib B H) (bot : Bot B H) (cfg : GtpConfig)
    (run : GtpRun B H) (line : List Char) : GtpRun B H :=
  match parseLine L line with
  | .blank => run
  | .badId message =>
    { run with
        out := run.out ++ "? GTP id '".toList ++ showInt 0
          ++ "' could not be parsed: ".toList ++ message ++ "\n".toList }
  | .emptyCommand => { run with out := run.out ++ "? empty command".toList ++ "\n".toList }
  | .command hasId id command pieces => runCommand L bot cfg run hasId id command pieces

/-- The main loop (gtp.cpp 207-1010) until `quit` or the end of the input.
The list holds, for each iteration, the text of `line` after `getline`: the
lines the controller sends and, since the loop tests `cin` before `getline`,
whatever the last iteration finds in `line` when the input has ended (nothing
after a final line feed, and otherwise what the iteration before left
there). -/
def runLines {B H : Type} (L : GtpLib B H) (bot : Bot B H) (cfg : GtpConfig) :
    GtpRun B H → List (List Char) → GtpRun B H
  | run, [] => run
  | run, line :: rest =>
    if run.quit then run else runLines L bot cfg (processLine L bot cfg run line) rest

/-! ## Notions used to state the claims on resignation -/

/-- The root win-loss value `v` is beyond `resignThreshold` against the
player to move: below it for White, above its negative for Black. -/
def beyondThreshold (resignThreshold : ℚ) (pla : Player) (v : ℚ) : Bool :=
  if pla = .white then decide (v < resignThreshold)
  else if pla = .black then decide (v > -resignThreshold)
  else false

/-- The root win-loss value was beyond the threshold against `pla` on each of
the last `n` turns the record `values` holds, and it holds that many. -/
def beyondThresholdOnLast (resignThreshold : ℚ) (pla : Player) (values : List ℚ)
    (n : Nat) : Bool :=
  decide (n ≤ values.length) && (values.reverse.take n).all (beyondThreshold resignThreshold pla)

/-! ## A sample instance of the GTP engine -/

/-- A board of the sample: its size and the stones set on it, in order. -/
structure SampleBoard where
  x_size : Int
  y_size : Int
  stones : List (Loc × Color)
  deriving DecidableEq

/-- A history of the sample: the board and the player it began with, the
rules, and the number of moves. -/
structure SampleHist where
  initialBoard : SampleBoard
  initialPla : Player
  rules : Rules
  numMoves : Nat
  deriving DecidableEq

/-- The board operations of the sample. -/
def sampleOps : BoardOps SampleBoard SampleHist where
  newBoard := fun x y => { x_size := x, y_size := y, stones := [] }
  newHistory := fun b pla rules =>
    { initialBoard := b, initialPla := pla, rules := rules, numMoves := 0 }
  setStone := fun b loc c => { b with stones := b.stones ++ [(loc, c)] }
  makeBoardMoveAssumeLegal := fun h b loc pla =>
    ({ h with numMoves := h.numMoves + 1 }, { b with stones := b.stones ++ [(loc, pla)] })

/-- The vertices the sample reads: `pass`, and a capital letter from `A`
with a digit from `1`, for the column and the row. -/
def sampleVertex (s : List Char) (b : SampleBoard) : Option Loc :=
  if s = "pass".toList then some Board.PASS_LOC
  else
    match s with
    | [c, d] =>
      if 'A' ≤ c ∧ c ≤ 'T' ∧ '1' ≤ d ∧ d ≤ '9' then
        some (Location.getLoc ((c.toNat : Int) - 65) ((d.toNat : Int) - 49) b.x_size)
      else none
    | _ => none

/-- The numbers the sample reads: `nan`, and the numerals of `readHalves`. -/
def sampleNum (s : List Char) : Option Num :=
  if s = "nan".toList then some .nan else (readHalves s).map Num.fin

/-- The ids the sample reads: up to nine digits. -/
def sampleDigits (s : List Char) : Except (List Char) Int :=
  if s.length ≤ 9 then
    match readDigits s 0 with
    | some n => .ok (n : Int)
    | none => .error "not a number".toList
  else .error "overflow".toList

/-- Time controls with every field zero. -/
def sampleTimeControls : TimeControls where
  originalMainTime := 0
  increment := 0
  originalNumPeriods := 0
  numStonesPerPeriod := 0
  perPeriodTime := 0
  mainTimeLeft := 0
  inOvertime := false
  numPeriodsLeftIncludingCurrent := 0
  numStonesLeftInPeriod := 0
  timeLeftInPeriod := 0

/-- An instance of the library: boards up to 19x19 that record the stones set
on them, decimal numerals, locations written as numbers. -/
def sampleLib : GtpLib SampleBoard SampleHist where
  ops := sampleOps
  MAX_LEN := 19
  tryStringToInt := readInt
  tryStringToFloat := sampleNum
  tryStringToDouble := sampleNum
  parseDigits := sampleDigits
  fixed1 := showHalves
  x_size := fun b => b.x_size
  y_size := fun b => b.y_size
  colors := fun b loc => ((b.stones.reverse.lookup loc).getD .empty)
  isEmpty := fun b => b.stones.isEmpty
  isAdjacentToPla := fun _ _ _ => false
  tryOfString := sampleVertex
  unassignedLoc := Board.NULL_LOC
  locToString := fun loc _ => showInt loc
  printBoard := fun _ _ _ => "board".toList
  rules := fun h => h.rules
  initialBoard := fun h => h.initialBoard
  initialPla := fun h => h.initialPla
  numMoves := fun h => h.numMoves
  isGameFinished := fun _ => false
  isNoResult := fun _ => false
  winner := fun _ => .empty
  finalWhiteMinusBlackScore := fun _ => 0
  histIsLegal := fun _ _ _ _ => true
  endAndScoreGameNow := fun h _ => h
  scoreArea := fun _ _ _ => .empty
  getSearchFactor := fun _ _ _ _ => 1
  defaultTimeControls := sampleTimeControls

/-- The position the bot of the sample was given last. -/
def lastPosition : List (BotCall SampleBoard SampleHist) →
    Option (Player × SampleBoard × SampleHist)
  | [] => none
  | c :: rest =>
    match lastPosition rest with
    | some p => some p
    | none =>
      match c with
      | .setPosition pla board hist => some (pla, board, hist)
      | _ => none

/-- The rules of the sample. -/
def sampleRules : Rules where
  koRule := .simple
  scoringRule := .area
  multiStoneSuicideLegal := false
  komi := 15 / 2

/-- A bot of the sample: its position is the one it was given last, it
accepts every move or none (`legal`), and its search always returns the move
`move` and the root win-loss value `winLoss`. -/
def sampleBot (legal : Bool) (move : Loc) (winLoss : ℚ) : Bot SampleBoard SampleHist where
  getPosLen := fun _ => 19
  getRootBoard := fun calls =>
    match lastPosition calls with
    | some p => p.2.1
    | none => sampleOps.newBoard 19 19
  getRootHist := fun calls =>
    match lastPosition calls with
    | some p => p.2.2
    | none => sampleOps.newHistory (sampleOps.newBoard 19 19) .black sampleRules
  getRootPla := fun calls =>
    match lastPosition calls with
    | some p => p.1
    | none => .black
  makeMove := fun _ _ _ => legal
  genMoveSynchronous := fun _ _ _ _ => move
  isLegal := fun _ _ _ => legal
  rootSafeArea := fun _ _ => .empty
  getRootValues := fun _ => (winLoss, 0)
  playExtraBlack := fun _ _ b h => (b, h)

/-- Settings of the sample: pondering as given, resignation allowed below
`-9/10`. -/
def sampleConfig (ponderingEnabled : Bool) : GtpConfig where
  overrideVersion := []
  ponderingEnabled := ponderingEnabled
  cleanupBeforePass := false
  allowResignation := true
  resignThreshold := -9 / 10
  whiteBonusPerHandicapStone := 0
  searchFactorWhenWinning := 1
  searchFactorWhenWinningThreshold := 1

/-- The state of the sample before the first line: the state before the main
loop, nothing written. -/
def sampleRun (bot : Bot SampleBoard SampleHist) : GtpRun SampleBoard SampleHist where
  st := initialState sampleLib bot sampleRules
  out := []
  quit := false

/-! ## Notions used to state the claim on an illegal move -/

/-- The position of the bot after the calls `calls`: the board, the history
and the player to move it answers with (`bot->getRootBoard()`,
`bot->getRootHist()`, `bot->getRootPla()`). -/
def Bot.position {B H : Type} (bot : Bot B H) (calls : List (BotCall B H)) : B × H × Player :=
  (bot.getRootBoard calls, bot.getRootHist calls, bot.getRootPla calls)

/-! ## Notions used to state the framing of a response -/

/-- The digits at the start of a line after it was cleaned: the id of the
command as written, when there is one. -/
def idDigits (line : List Char) : List Char :=
  (cleanLine line).takeWhile Global.isDigit

/-- The text of a cleaned line after its id, trimmed. -/
def afterId (line : List Char) : List Char :=
  Global.trim ((cleanLine line).drop (idDigits line).length)

/-- What is on `cout` when the response of a command is written: what was
there, and the line feed that ends an analysis when the flag
`currentlyAnalyzing` is set (gtp.cpp 276-279). -/
def outBefore {B H : Type} (run : GtpRun B H) : List Char :=
  if run.st.currentlyAnalyzing then run.out ++ "\n".toList else run.out

/-- A bot of the sample whose search returns the move at `D4` and the root
win-loss value 0 until a move was made, and `-19/20` afterwards. -/
def turningBot : Bot SampleBoard SampleHist :=
  { sampleBot true 84 0 with
    getRootValues := fun calls =>
      if calls.any (fun c => match c with
        | .makeMove _ _ => true
        | _ => false) then (-19 / 20, 0)
      else (0, 0) }

/-! ## Notions used to state the claims on `genmove` -/

/-- The time controls `genmove` passes to the search for `pla` (gtp.cpp
530). -/
def genmoveControls {B H : Type} (st : GtpState B H) (pla : Player) : TimeControls :=
  if pla = .black then st.bTimeControls else st.wTimeControls

/-- The search factor of `genmove` for `pla` (gtp.cpp 533). -/
def genmoveSearchFactor {B H : Type} (L : GtpLib B H) (cfg : GtpConfig) (st : GtpState B H)
    (pla : Player) : ℚ :=
  L.getSearchFactor cfg.searchFactorWhenWinningThreshold cfg.searchFactorWhenWinning
    st.recentWinLossValues pla

/-- The calls made on the bot when the search of `genmove` for `pla` has
returned: those made before, `clearStats` and `genMoveSynchronous`. -/
def genmoveCalls {B H : Type} (L : GtpLib B H) (cfg : GtpConfig) (st : GtpState B H)
    (pla : Player) : List (BotCall B H) :=
  st.calls ++ [.clearStats]
    ++ [.genMoveSynchronous pla (genmoveControls st pla) (genmoveSearchFactor L cfg st pla)]

/-- The move `genMoveSynchronous` returns to `genmove` for `pla` (gtp.cpp
536). -/
def genmoveChosen {B H : Type} (L : GtpLib B H) (bot : Bot B H) (cfg : GtpConfig)
    (st : GtpState B H) (pla : Player) : Loc :=
  bot.genMoveSynchronous (st.calls ++ [.clearStats]) pla (genmoveControls st pla)
    (genmoveSearchFactor L cfg st pla)

/-- The move of `genmove` for `pla` after the `cleanupBeforePass` hack. -/
def genmoveFinal {B H : Type} (L : GtpLib B H) (bot : Bot B H) (cfg : GtpConfig)
    (st : GtpState B H) (pla : Player) : Loc :=
  cleanupMove L bot cfg (genmoveCalls L cfg st pla) pla (genmoveChosen L bot cfg st pla)

/-- The value of `resigned` in `genmove` for `pla` (gtp.cpp 581-627). -/
def genmoveResigns {B H : Type} (L : GtpLib B H) (bot : Bot B H) (cfg : GtpConfig)
    (st : GtpState B H) (pla : Player) : Bool :=
  genmoveResigned L cfg (bot.getRootHist (genmoveCalls L cfg st pla)) pla
    (bot.getRootValues (genmoveCalls L cfg st pla)).1
    (bot.getRootValues (genmoveCalls L cfg st pla)).2

/-! ## The GTP engine: the callbacks of `lz-analyze` and `kata-analyze` -/

/-- The fields of `AnalysisData` (search/analysisdata.h) that the callbacks
read. -/
structure AnalysisData where
  move : Loc
  numVisits : Int
  utility : ℚ
  winLossValue : ℚ
  scoreMean : ℚ
  scoreStdev : ℚ
  policyPrior : ℚ
  order : Int
  pv : List Loc

/-- The C library function `round`: the nearest integer, a half away from
zero. It is applied here to exact products; the program rounds the `double`
product, which can fall on the other side of a half when the exact product
is not a `double`. -/
def cRound (q : ℚ) : Int :=
  if 0 ≤ q then ⌊q + 1 / 2⌋ else -⌊-q + 1 / 2⌋

/-- The value of `winrate` the callbacks report for a move (gtp.cpp 915-916
and 942-943), from the win-loss value of the move and the player the
callback holds. -/
def analysisWinrate (pla : Player) (winLossValue : ℚ) : ℚ :=
  let winrate := 1 / 2 * (1 + winLossValue)
  if pla = .black then -winrate else winrate

/-- The text the loop of the callbacks writes after ` pv` (gtp.cpp 923-925,
953-955). -/
def pvText {B H : Type} (L : GtpLib B H) (board : B) (pv : List Loc) : List Char :=
  pv.flatMap fun loc => " ".toList ++ L.locToString loc board

/-- What the callback of `lz-analyze` writes for one move (gtp.cpp 917-925);
`showDouble` is the text `operator<<` writes for a `double`. -/
def lzAnalyzeInfo {B H : Type} (L : GtpLib B H) (showDouble : ℚ → List Char) (pla : Player)
    (board : B) (data : AnalysisData) : List Char :=
  "info".toList
    ++ " move ".toList ++ L.locToString data.move board
    ++ " visits ".toList ++ showInt data.numVisits
    ++ " winrate ".toList
    ++ showDouble (cRound (analysisWinrate pla data.winLossValue * 10000))
    ++ " prior ".toList ++ showDouble (cRound (data.policyPrior * 10000))
    ++ " order ".toList ++ showInt data.order
    ++ " pv".toList ++ pvText L board data.pv

/-- What the callback of `kata-analyze` writes for one move (gtp.cpp
944-955). -/
def kataAnalyzeInfo {B H : Type} (L : GtpLib B H) (showDouble : ℚ → List Char)
    (pla : Player) (board : B) (data : AnalysisData) : List Char :=
  "info".toList
    ++ " move ".toList ++ L.locToString data.move board
    ++ " visits ".toList ++ showInt data.numVisits
    ++ " utility ".toList ++ showDouble data.utility
    ++ " winrate ".toList ++ showDouble (analysisWinrate pla data.winLossValue)
    ++ " scoreMean ".toList ++ showDouble data.scoreMean
    ++ " scoreStdev ".toList ++ showDouble data.scoreStdev
    ++ " prior ".toList ++ showDouble data.policyPrior
    ++ " order ".toList ++ showInt data.order
    ++ " pv".toList ++ pvText L board data.pv

/-- What a callback writes to `cout` when the search calls it (gtp.cpp
907-927, 934-957): nothing when `getAnalysisData` fills `buf` with no move,
and otherwise the moves of `buf` with a blank between them and a line feed.
`kata` tells the callback of `kata-analyze` from that of `lz-analyze`, and
`board` is the root board of the search. -/
def analyzeCallback {B H : Type} (L : GtpLib B H) (showDouble : ℚ → List Char) (kata : Bool)
    (pla : Player) (board : B) (buf : List AnalysisData) : List Char :=
  if buf.length ≤ 0 then []
  else
    Global.concat
        (buf.map fun data =>
          if kata then kataAnalyzeInfo L showDouble pla board data
          else lzAnalyzeInfo L showDouble pla board data)
        " ".toList
      ++ "\n".toList

/-! ## The search (`search/search.h`) -/

/-- The fields of `NodeStats` (search.h 24-31). -/
structure NodeStats where
  visits : Int
  winValueSum : ℚ
  noResultValueSum : ℚ
  scoreMeanSum : ℚ
  scoreMeanSqSum : ℚ
  valueSumWeight : ℚ
  deriving DecidableEq

/-- A `SearchNode` (search.h 41-73) with the nodes it owns: the player to
move, the move that led to it, its children in order, its statistics and its
virtual losses. The locks and the output of the net are left out. -/
inductive SearchNode where
  | mk (nextPla : Player) (prevMoveLoc : Loc) (children : List SearchNode) (stats : NodeStats)
      (virtualLosses : Int)

/-- The field `prevMoveLoc`. -/
def SearchNode.prevMoveLoc : SearchNode → Loc
  | .mk _ prevMoveLoc _ _ _ => prevMoveLoc

/-- The field `children`. -/
def SearchNode.children : SearchNode → List SearchNode
  | .mk _ _ children _ _ => children

/-- The fields of `Search` (search.h 104-128) that hold the root position and
the tree; `rootNode` may be null. -/
structure Search (B H : Type) where
  rootPla : Player
  rootBoard : B
  rootHistory : H
  rootNode : Option SearchNode

/-- The parts of the board library the functions of `Search` use, outside
this development. -/
structure SearchLib (B H : Type) where
  /-- The constructors and the moves of the board library -/
  ops : BoardOps B H
  /-- `Search::isLegal(moveLoc,movePla)` at a root position: declared in
  search.h 169, its body is outside this development -/
  isLegal : Player → B → H → Loc → Player → Bool
  /-- The history after `setPlayerAndClearHistory(pla)` -/
  clearHistory : B → Player → H → H
  /-- The komi of the rules of a history -/
  komi : H → Komi
  /-- The history with the komi of its rules replaced -/
  setKomi : H → Komi → H

/-- Modelled from the spec: the body of `Search::makeMove` is missing
(search.h 168 declares it; the definitions of `Search` are in a file outside
this development). The declaration says: "If the move is not legal for the
specified player, returns false and does nothing, else returns true. In the
case where the player was not the expected one moving next, also clears
history." The spec (4.6) says: an illegal move returns false and does
nothing; when the player is not the expected one the history-derived state
and the search are cleared; when a child of the root corresponds to the move
the root is replaced by that child, and else the search is cleared; the move
is appended to the position and the root player advances. The value is the
search afterwards and the result. -/
def Search.makeMove {B H : Type} (S : SearchLib B H) (s : Search B H) (moveLoc : Loc)
    (movePla : Player) : Search B H × Bool :=
  if !S.isLegal s.rootPla s.rootBoard s.rootHistory moveLoc movePla then (s, false)
  else
    let s1 : Search B H :=
      if movePla ≠ s.rootPla then
        { rootPla := movePla, rootBoard := s.rootBoard
          rootHistory := S.clearHistory s.rootBoard movePla s.rootHistory, rootNode := none }
      else s
    let child : Option SearchNode :=
      match s1.rootNode with
      | none => none
      | some root => root.children.find? fun c => decide (c.prevMoveLoc = moveLoc)
    let moved :=
      S.ops.makeBoardMoveAssumeLegal s1.rootHistory s1.rootBoard moveLoc s1.rootPla
    ({ rootPla := getOpp s1.rootPla, rootBoard := moved.2, rootHistory := moved.1,
       rootNode := child }, true)

/-- Modelled from the spec: the body of `Search::setKomiIfNew` is missing
(search.h 156 declares it with the comment "Does not clear history, does
clear search unless komi is equal"). The spec says: "updates komi; clears
search only if the value actually changed". -/
def Search.setKomiIfNew {B H : Type} (S : SearchLib B H) (s : Search B H) (newKomi : Komi) :
    Search B H :=
  if S.komi s.rootHistory ≠ newKomi then
    { s with rootHistory := S.setKomi s.rootHistory newKomi, rootNode := none }
  else s

/-- A search of the sample: Black to move on the board of the sample with a
white stone at `C3`, and a root node that has one child, for the move at
`D4`. -/
def sampleSearch : Search SampleBoard SampleHist where
  rootPla := .black
  rootBoard := sampleOps.setStone (sampleOps.newBoard 19 19) 63 .white
  rootHistory := sampleOps.newHistory (sampleOps.setStone (sampleOps.newBoard 19 19) 63 .white)
    .black sampleRules
  rootNode := some (.mk .black Board.NULL_LOC
    [.mk .white 84 [] ⟨3, 1, 0, 0, 0, 3⟩ 0] ⟨5, 2, 0, 0, 0, 5⟩ 0)

/-- The board library of the sample for the search: a move is legal when its
point holds no stone. -/
def sampleSearchLib : SearchLib SampleBoard SampleHist where
  ops := sampleOps
  isLegal := fun _ b _ loc _ => (b.stones.lookup loc).isNone
  clearHistory := fun b pla h => sampleOps.newHistory b pla h.rules
  komi := fun h => h.rules.komi
  setKomi := fun h k => { h with rules := { h.rules with komi := k } }

/-! ## Notions used to state the claim on the arguments of an analysis -/

/-- The number a token gives as an interval: a number that is not a NaN and
lies in `[0, 10^20)`. -/
def validInterval {B H : Type} (L : GtpLib B H) (v : List Char) : Option ℚ :=
  match L.tryStringToDouble v with
  | some (.fin q) => if 0 ≤ q ∧ q < 10 ^ 20 then some q else none
  | _ => none

/-- The number a token gives as `minmoves`: an integer in `[0, 10^9)`. -/
def validMinMoves {B H : Type} (L : GtpLib B H) (n : List Char) : Option Int :=
  match L.tryStringToInt n with
  | some m => if 0 ≤ m ∧ m < 1000000000 then some m else none
  | none => none

/-- A keyword argument of an analysis as the claim lists them: `interval v`;
`avoid` or `allow` (the token `key`) with three tokens; `minmoves n`. -/
inductive AnalyzeItem where
  | interval (v : List Char)
  | exclude (key a b c : List Char)
  | minmoves (n : List Char)

/-- The tokens of a keyword argument. -/
def AnalyzeItem.tokens : AnalyzeItem → List (List Char)
  | .interval v => ["interval".toList, v]
  | .exclude key a b c => [key, a, b, c]
  | .minmoves n => ["minmoves".toList, n]

/-- A keyword argument is well formed: its interval or its number is in
range, and the keyword of an exclusion is `avoid` or `allow`. -/
def AnalyzeItem.valid {B H : Type} (L : GtpLib B H) : AnalyzeItem → Bool
  | .interval v => (validInterval L v).isSome
  | .exclude key _ _ _ => decide (key = "avoid".toList ∨ key = "allow".toList)
  | .minmoves n => (validMinMoves L n).isSome

/-- The last interval among keyword arguments, or `current` when they give
none. -/
def lastInterval {B H : Type} (L : GtpLib B H) : List AnalyzeItem → ℚ → ℚ
  | [], current => current
  | .interval v :: rest, current => lastInterval L rest ((validInterval L v).getD current)
  | _ :: rest, current => lastInterval L rest current

/-- The last `minmoves` among keyword arguments, or `current` when they give
none. -/
def lastMinMoves {B H : Type} (L : GtpLib B H) : List AnalyzeItem → Int → Int
  | [], current => current
  | .minmoves n :: rest, current => lastMinMoves L rest ((validMinMoves L n).getD current)
  | _ :: rest, current => lastMinMoves L rest current

/-- An argument list of the form the claim states: an optional player, an
optional interval, and keyword arguments. -/
structure AnalyzeArgs where
  player : Option (List Char)
  interval : Option (List Char)
  items : List AnalyzeItem

/-- The tokens of an argument list of that form, in order. -/
def AnalyzeArgs.tokens (a : AnalyzeArgs) : List (List Char) :=
  a.player.toList ++ a.interval.toList ++ a.items.flatMap AnalyzeItem.tokens

/-- The parts of an argument list are well formed: the player is a player,
the interval is in range, and so is every keyword argument. -/
def AnalyzeArgs.valid {B H : Type} (L : GtpLib B H) (a : AnalyzeArgs) : Bool :=
  a.player.all (fun p => (tryParsePlayer p).isSome)
    && a.interval.all (fun v => (validInterval L v).isSome)
    && a.items.all (AnalyzeItem.valid L)

/-- The player of an argument list, or `rootPla` when it names none. -/
def AnalyzeArgs.pla (a : AnalyzeArgs) (rootPla : Player) : Player :=
  match a.player with
  | some p => (tryParsePlayer p).getD rootPla
  | none => rootPla

/-- The last interval an argument list gives, in centiseconds; `1e30` when
it gives none. -/
def AnalyzeArgs.lastInterval {B H : Type} (L : GtpLib B H) (a : AnalyzeArgs) : ℚ :=
  KataGo.lastInterval L a.items
    (match a.interval with
      | some v => (validInterval L v).getD double1e30
      | none => double1e30)

/-- The player and the pieces left after the optional player of an analysis
was read (gtp.cpp 843-844). -/
def analyzePlayer (rootPla : Player) (pieces : List (List Char)) :
    Player × List (List Char) :=
  match pieces with
  | [] => (rootPla, pieces)
  | p :: rest =>
    match tryParsePlayer p with
    | some pla => (pla, rest)
    | none => (rootPla, pieces)

/-- The value of `lzAnalyzeInterval` and the pieces left after the optional
interval of an analysis was read (gtp.cpp 846-849). -/
def analyzeInterval {B H : Type} (L : GtpLib B H) (pieces : List (List Char)) :
    Num × List (List Char) :=
  match pieces with
  | [] => (.fin double1e30, pieces)
  | p :: rest =>
    match L.tryStringToDouble p with
    | some x => if intervalOk x then (x, rest) else (x, pieces)
    | none => (.fin double1e30, pieces)

/-- A library of the sample that reads the numeral `50` and no other text as
a `double`. -/
def analyzeLib : GtpLib SampleBoard SampleHist :=
  { sampleLib with
    tryStringToDouble := fun s => if s = "50".toList then some (.fin 50) else none }

/-! ## A sample position with stones -/

/-- A library of the sample whose scoring gives the point `D4` to Black and
no other point to a player. -/
def areaLib : GtpLib SampleBoard SampleHist :=
  { sampleLib with scoreArea := fun _ _ loc => if loc = 84 then .black else .empty }

/-- A board of the sample with a black stone at `D4` and a white stone at
`C3`. -/
def stonesBoard : SampleBoard :=
  sampleOps.setStone (sampleOps.setStone (sampleOps.newBoard 19 19) 84 .black) 63 .white

/-- The history of the sample that begins with `stonesBoard`. -/
def stonesHist : SampleHist :=
  sampleOps.newHistory stonesBoard .black sampleRules

/-- The state of the sample after the bot was given `stonesBoard`. -/
def stonesState (bot : Bot SampleBoard SampleHist) : GtpState SampleBoard SampleHist :=
  (sampleRun bot).st.call (.setPosition .black stonesBoard stonesHist)

/-- A library of the sample that reads `1e50` as the `double` of that
literal and `2e50` as twice that number. -/
def timeLib : GtpLib SampleBoard SampleHist :=
  { sampleLib with
    tryStringToDouble := fun s =>
      if s = "1e50".toList then some (.fin double1e50)
      else if s = "2e50".toList then some (.fin (2 * double1e50))
      else sampleNum s }

/-! ## A bot of the sample that keeps a search -/

/-- The search of that bot after one more call: `setPosition` gives it the
position, `makeMove` is `Search.makeMove`, and every other call leaves the
position as it is. -/
def searchStep (s : Search SampleBoard SampleHist) :
    BotCall SampleBoard SampleHist → Search SampleBoard SampleHist
  | .setPosition pla board hist =>
    { rootPla := pla, rootBoard := board, rootHistory := hist, rootNode := none }
  | .makeMove loc pla => (Search.makeMove sampleSearchLib s loc pla).1
  | _ => s

/-- The search of that bot after the calls `calls`, begun from
`sampleSearch`. -/
def searchAfter (calls : List (BotCall SampleBoard SampleHist)) :
    Search SampleBoard SampleHist :=
  calls.foldl searchStep sampleSearch

/-- A bot of the sample whose position is that of its search: a move is
legal when its point holds no stone, and a legal move is made on the
board. -/
def searchBot : Bot SampleBoard SampleHist :=
  { sampleBot true 84 0 with
    getRootBoard := fun calls => (searchAfter calls).rootBoard
    getRootHist := fun calls => (searchAfter calls).rootHistory
    getRootPla := fun calls => (searchAfter calls).rootPla
    makeMove := fun calls loc pla =>
      (Search.makeMove sampleSearchLib (searchAfter calls) loc pla).2
    isLegal := fun calls loc pla =>
      sampleSearchLib.isLegal (searchAfter calls).rootPla (searchAfter calls).rootBoard
        (searchAfter calls).rootHistory loc pla }

/-! # Theorems -/

/-! ## Coordinates -/

theorem getX_getLoc (x y b : Int) (hx0 : 0 ≤ x) (hx : x < b) (hy0 : 0 ≤ y) :
    Location.getX (Location.getLoc x y b) b = x := by
  unfold Location.getX Location.getLoc
  have h1 : (0 : Int) ≤ (x + 1) + (y + 1) * (b + 1) := by
    have := mul_nonneg (show (0 : Int) ≤ y + 1 by omega) (show (0 : Int) ≤ b + 1 by omega)
    omega
  rw [Int.tmod_eq_emod h1 (by omega), Int.add_mul_emod_self, Int.emod_eq_of_lt (by omega) (by omega)]
  omega

theorem getY_getLoc (x y b : Int) (hx0 : 0 ≤ x) (hx : x < b) (hy0 : 0 ≤ y) :
    Location.getY (Location.getLoc x y b) b = y := by
  unfold Location.getY Location.getLoc
  have h1 : (0 : Int) ≤ (x + 1) + (y + 1) * (b + 1) := by
    have := mul_nonneg (show (0 : Int) ≤ y + 1 by omega) (show (0 : Int) ≤ b + 1 by omega)
    omega
  rw [Int.tdiv_eq_ediv h1 (by omega), Int.add_mul_ediv_right _ _ (by omega),
    Int.ediv_eq_zero_of_lt (by omega) (by omega)]
  omega

theorem getLoc_gt_one (x y b : Int) (hx0 : 0 ≤ x) (hy0 : 0 ≤ y) (hb : 0 ≤ b) :
    1 < Location.getLoc x y b := by
  unfold Location.getLoc
  nlinarith [mul_nonneg hy0 hb]

theorem sgfCoordChar_letter : ∀ n : Nat, n < 26 →
    sgfCoordChar (n : Int) = .ok (sgfLetter n) := by
  decide

theorem charCode_letter : ∀ n : Nat, n < 26 →
    charCode (sgfLetter n) - charCode 'a' = (n : Int) := by
  decide

/-- C3. Coordinate round trip: on a board of size `b` with `1 ≤ b < 26`, for
every `x, y < b`, `writeSgfLoc` writes for `Location::getLoc(x,y,b)` exactly
the two letters `'a'+x` and `'a'+y`, and `parseSgfLoc` applied to these two
letters with size `b` returns `Location::getLoc(x,y,b)`. -/
theorem sgfLoc_roundtrip (b x y : Nat) (hb1 : 1 ≤ b) (hb : b < 26) (hx : x < b) (hy : y < b) :
    writeSgfLoc (Location.getLoc x y b) b = .ok [sgfLetter x, sgfLetter y]
    ∧ parseSgfLoc [sgfLetter x, sgfLetter y] b = .ok (Location.getLoc x y b) := by
  have hgx := getX_getLoc x y b (by omega) (by omega) (by omega)
  have hgy := getY_getLoc x y b (by omega) (by omega) (by omega)
  have hgt := getLoc_gt_one x y b (by omega) (by omega) (by omega)
  constructor
  · unfold writeSgfLoc
    have hne : ¬ (Location.getLoc x y b = Board.PASS_LOC ∨ Location.getLoc x y b = Board.NULL_LOC) := by
      rintro (h | h) <;> rw [h] at hgt <;> exact absurd hgt (by decide)
    rw [if_neg (by omega), if_neg hne]
    simp only [hgx, hgy, sgfCoordChar_letter x (by omega), sgfCoordChar_letter y (by omega)]
    rfl
  · unfold parseSgfLoc
    simp only [charCode_letter x (by omega), charCode_letter y (by omega)]
    rw [if_neg (by omega)]

/-- C3 at the corner point `(18,18)` of the 19x19 board. -/
theorem sgfLoc_roundtrip_witness :
    writeSgfLoc (Location.getLoc (18 : Nat) (18 : Nat) (19 : Nat)) (19 : Nat)
        = .ok [sgfLetter 18, sgfLetter 18]
    ∧ parseSgfLoc [sgfLetter 18, sgfLetter 18] (19 : Nat)
        = .ok (Location.getLoc (18 : Nat) (18 : Nat) (19 : Nat)) :=
  sgfLoc_roundtrip 19 18 18 (by decide) (by decide) (by decide) (by decide)

/-! ## Rules -/

theorem lookup_contains (props : Props) (key : List Char) (v : List (List Char))
    (h : props.lookup key = some v) : props.contains key = true := by
  simp [Props.contains, h]

theorem getRules_of_single (node : SgfNode) (defaults : Rules) (v : List Char)
    (h : node.props.lookup "RU".toList = some [v]) :
    node.getRules defaults = getRulesOfValue defaults (Global.toLower v) := by
  unfold SgfNode.getRules SgfNode.hasProperty SgfNode.getSingleProperty
  rw [lookup_contains _ _ _ h, h]
  rfl

theorem toLower_ruValue (E : Externals) (rules : Rules)
    (hko : Global.toLower (E.writeKoRule rules.koRule) = koRuleName rules.koRule)
    (hsc : Global.toLower (E.writeScoringRule rules.scoringRule)
      = scoringRuleName rules.scoringRule) :
    Global.toLower (ruValue E rules)
      = "ko".toList ++ koRuleName rules.koRule ++ "score".toList
        ++ scoringRuleName rules.scoringRule ++ "sui".toList
        ++ showBool rules.multiStoneSuicideLegal := by
  unfold Global.toLower at *
  unfold ruValue
  simp only [List.map_append, hko, hsc]
  cases rules.multiStoneSuicideLegal <;> rfl

/-- C4. Rules round trip through the `RU` property: when the names
`writeSgf` writes for the ko rule and the scoring rule are, in any letter
case, the names `getRules` reads, a node whose single `RU` value is the text
`writeSgf` writes for `rules` is read by `SgfNode::getRules` as the default
rules with exactly the ko rule, scoring rule and suicide flag of `rules`,
whatever the defaults. -/
theorem getRules_ruValue (E : Externals) (rules defaults : Rules) (node : SgfNode)
    (hko : Global.toLower (E.writeKoRule rules.koRule) = koRuleName rules.koRule)
    (hsc : Global.toLower (E.writeScoringRule rules.scoringRule)
      = scoringRuleName rules.scoringRule)
    (hnode : node.props.lookup "RU".toList = some [ruValue E rules]) :
    node.getRules defaults
      = .ok { defaults with koRule := rules.koRule, scoringRule := rules.scoringRule,
                            multiStoneSuicideLegal := rules.multiStoneSuicideLegal } := by
  rw [getRules_of_single node defaults _ hnode, toLower_ruValue E rules hko hsc]
  obtain ⟨ko, sc, sui, komi⟩ := rules
  cases ko <;> cases sc <;> cases sui <;>
    (dsimp only [koRuleName, scoringRuleName, showBool]; rfl)

/-- C4 for the rules "positional ko, territory scoring, suicide legal"
written with the names in capitals, read against the defaults "simple ko,
area scoring, no suicide". -/
theorem getRules_ruValue_witness :
    SgfNode.getRules
        { props := [("RU".toList, [ruValue sampleExternals ⟨.positional, .territory, true, 0⟩])] }
        ⟨.simple, .area, false, 7⟩
      = .ok ⟨.positional, .territory, true, 7⟩ :=
  getRules_ruValue sampleExternals ⟨.positional, .territory, true, 0⟩ ⟨.simple, .area, false, 7⟩
    { props := [("RU".toList, [ruValue sampleExternals ⟨.positional, .territory, true, 0⟩])] }
    (by decide) (by decide) (by decide)

/-- C9. The rule set `japanese` is not recognised: `getRules` compares the
lower-cased `RU` value with the misspelt `japansese` (sgf.cpp 176), so for
`RU[japanese]`, and for `RU[Japanese]`, it returns the default rules
unchanged, whatever they are, instead of territory scoring, simple ko and no
suicide; these it returns for `RU[japansese]`. -/
theorem getRules_japanese (defaults : Rules) :
    SgfNode.getRules { props := [("RU".toList, ["japanese".toList])] } defaults = .ok defaults
    ∧ SgfNode.getRules { props := [("RU".toList, ["Japanese".toList])] } defaults = .ok defaults
    ∧ SgfNode.getRules { props := [("RU".toList, ["japansese".toList])] } defaults
        = .ok { defaults with scoringRule := .territory, koRule := .simple,
                              multiStoneSuicideLegal := false } :=
  ⟨rfl, rfl, rfl⟩

/-- C8. An `RU` value that is no rule-set name and does not begin with `ko`
is not an error: for `RU[foo]` `getRules` returns the default rules
unchanged, whatever they are. Nor is a value an error that continues after
a complete `ko...score...sui.` string: `RU[kosimplescoreareasui1xyz]` is read
as `RU[kosimplescoreareasui1]`. A value that begins with `ko` and does not
continue as the form requires is an error. -/
theorem getRules_unknown (defaults : Rules) :
    SgfNode.getRules { props := [("RU".toList, ["foo".toList])] } defaults = .ok defaults
    ∧ SgfNode.getRules { props := [("RU".toList, ["kosimplescoreareasui1xyz".toList])] } defaults
        = .ok { defaults with koRule := .simple, scoringRule := .area,
                              multiStoneSuicideLegal := true }
    ∧ SgfNode.getRules { props := [("RU".toList, ["korean".toList])] } defaults
        = .error .couldNotParseRules :=
  ⟨rfl, rfl, rfl⟩

/-! ## Komi -/

theorem komiIsIntOrHalfInt_iff (k : Komi) :
    Rules.komiIsIntOrHalfInt k = true ↔ ∃ n : ℤ, 2 * k = n := by
  simp only [Rules.komiIsIntOrHalfInt, Rat.isInt, Nat.beq_eq_true_eq]
  constructor
  · intro h
    refine ⟨(2 * k).num, ?_⟩
    conv_lhs => rw [← Rat.num_div_den (2 * k)]
    simp [h]
  · rintro ⟨n, hn⟩
    rw [hn]
    simp

theorem getSingleProperty_ok_iff (node : SgfNode) (key v : List Char) :
    node.getSingleProperty key = .ok v ↔ node.props.lookup key = some [v] := by
  unfold SgfNode.getSingleProperty
  cases h : node.props.lookup key with
  | none => simp
  | some prop =>
    match prop with
    | [] => simp
    | [w] => simp
    | _ :: _ :: _ => simp

theorem getKomi_cons (E : Externals) (sgf : Sgf) (root : SgfNode) (rest : List SgfNode)
    (h : sgf.nodes = root :: rest) :
    sgf.getKomi E = (root.getSingleProperty "KM".toList).bind (komiOfValue E) := by
  unfold Sgf.getKomi
  rw [h]
  rfl

theorem komiOfValue_ok_iff (E : Externals) (v : List Char) (k : Komi) :
    komiOfValue E v = .ok k ↔ E.tryStringToFloat v = some k ∧ ∃ n : ℤ, 2 * k = n := by
  unfold komiOfValue
  cases hf : E.tryStringToFloat v with
  | none => simp
  | some komi =>
    by_cases hk : Rules.komiIsIntOrHalfInt komi = true
    · simp only [hk, Bool.not_true, Bool.false_eq_true, if_false, Except.ok.injEq,
        Option.some.injEq]
      constructor
      · rintro rfl
        exact ⟨rfl, (komiIsIntOrHalfInt_iff _).mp hk⟩
      · rintro ⟨rfl, _⟩
        rfl
    · have hk2 : Rules.komiIsIntOrHalfInt komi = false := by simpa using hk
      simp only [hk2, Bool.not_false, if_true, Option.some.injEq]
      constructor
      · intro h
        cases h
      · rintro ⟨rfl, hint⟩
        rw [(komiIsIntOrHalfInt_iff _).mpr hint] at hk2
        cases hk2

theorem getKomi_ok_iff_aux (E : Externals) (sgf : Sgf) (k : Komi) :
    sgf.getKomi E = .ok k ↔
      ∃ root rest v, sgf.nodes = root :: rest ∧ root.props.lookup "KM".toList = some [v]
        ∧ E.tryStringToFloat v = some k ∧ ∃ n : ℤ, 2 * k = n := by
  cases hn : sgf.nodes with
  | nil =>
    constructor
    · intro h
      unfold Sgf.getKomi at h
      rw [hn] at h
      cases h
    · rintro ⟨root, rest, v, hnodes, _⟩
      cases hnodes
  | cons root rest =>
    rw [getKomi_cons E sgf root rest hn]
    constructor
    · intro h
      cases hv : root.getSingleProperty "KM".toList with
      | error e =>
        rw [hv] at h
        cases h
      | ok v =>
        rw [hv] at h
        exact ⟨root, rest, v, rfl, (getSingleProperty_ok_iff root _ v).mp hv,
          (komiOfValue_ok_iff E v k).mp h⟩
    · rintro ⟨root2, rest2, v, hnodes, hl, hrest⟩
      cases hnodes
      rw [(getSingleProperty_ok_iff root _ v).mpr hl]
      exact (komiOfValue_ok_iff E v k).mpr hrest

theorem getKomi_quarter (E : Externals) (sgf : Sgf) (root : SgfNode) (rest : List SgfNode)
    (v : List Char) (hn : sgf.nodes = root :: rest)
    (hl : root.props.lookup "KM".toList = some [v])
    (hf : E.tryStringToFloat v = some (25 / 4)) :
    sgf.getKomi E = .error .komiNotHalfInt := by
  rw [getKomi_cons E sgf root rest hn, (getSingleProperty_ok_iff root _ v).mpr hl]
  have h : Rules.komiIsIntOrHalfInt (25 / 4) = false := by with_unfolding_all decide
  simp only [Except.bind, komiOfValue, hf, h, Bool.not_false, if_true]

/-- C10. `Sgf::getKomi` returns `k` exactly when the root node has exactly one
`KM` value, that value is read by `tryStringToFloat` as the number `k`, and
twice `k` is an integer; in every other case (no node, `KM` absent, several
`KM` values, a text that is not a number, a number such as 6.25) it
fails. -/
theorem getKomi_ok_iff (E : Externals) (sgf : Sgf) :
    (∀ k : Komi, sgf.getKomi E = .ok k ↔
      ∃ root rest v, sgf.nodes = root :: rest ∧ root.props.lookup "KM".toList = some [v]
        ∧ E.tryStringToFloat v = some k ∧ ∃ n : ℤ, 2 * k = n)
    ∧ ((¬ ∃ (k : Komi) (root : SgfNode) (rest : List SgfNode) (v : List Char),
          sgf.nodes = root :: rest ∧ root.props.lookup "KM".toList = some [v]
            ∧ E.tryStringToFloat v = some k ∧ ∃ n : ℤ, 2 * k = n)
        → failed (sgf.getKomi E) = true) := by
  refine ⟨getKomi_ok_iff_aux E sgf, ?_⟩
  intro hno
  cases hr : sgf.getKomi E with
  | error e => rfl
  | ok k =>
    obtain ⟨root, rest, v, h⟩ := (getKomi_ok_iff_aux E sgf k).mp hr
    exact absurd ⟨k, root, rest, v, h⟩ hno

/-! ## Parsing -/

/-- The part of C1 that holds: `Sgf::parse` never returns an `Sgf` whose node
list is empty. -/
theorem parse_nodes_ne_nil (str : List Char) (sgf : Sgf) (h : Sgf.parse str = .ok sgf) :
    sgf.nodes ≠ [] := by
  unfold Sgf.parse at h
  cases hm : maybeParseSgf (2 * str.length + 1) str with
  | error e =>
    rw [hm] at h
    cases h
  | ok res =>
    obtain ⟨t, r⟩ := res
    rw [hm] at h
    cases t with
    | none => cases h
    | some t =>
      simp only [bind, Except.bind] at h
      by_cases hl : t.nodes.length = 0
      · rw [if_pos hl] at h
        cases h
      · rw [if_neg hl] at h
        cases h
        intro hnil
        rw [hnil] at hl
        exact hl rfl

/-- C1. For a text with no game tree `maybeParseSgf` returns the null pointer,
and `Sgf::parse` writes the hash through it (sgf.cpp 503) before it compares
it with the null pointer (sgf.cpp 504): for the empty string and for `abc`
the outcome is a null-pointer write, not the `IOError` "Empty sgf". For `()`,
a game tree without nodes, the outcome is the `IOError` "Empty sgf". -/
theorem parse_without_tree :
    Sgf.parse "".toList = .error .nullDereference
    ∧ Sgf.parse "abc".toList = .error .nullDereference
    ∧ Sgf.parse "()".toList = .error .emptySgf :=
  ⟨rfl, rfl, rfl⟩

/-! ## Setting up a position -/

/-- C6. `setupBoardAndHist` rejects the turn number 0, which its error
message declares valid ("valid values are 0 to moves.size()"): the test is
`turnNumber <= 0 || turnNumber > moves.size()` (sgf.cpp 707). For every game
record, whenever the initial position is set up, the call with the turn
number 0 throws; and for every turn number `t` the call succeeds exactly when
the initial position is set up and `1 ≤ t ≤ moves.size()`. -/
theorem setupBoardAndHist_turn_zero {B H : Type} (ops : BoardOps B H) (sgf : CompactSgf)
    (initialRules : Rules) :
    failed (sgf.setupBoardAndHist ops initialRules 0) = true
    ∧ (∀ pos, sgf.setupInitialBoardAndHist ops initialRules = .ok pos →
        sgf.setupBoardAndHist ops initialRules 0 = .error .invalidTurnNumber)
    ∧ (∀ t : Int, failed (sgf.setupBoardAndHist ops initialRules t) = false ↔
        (failed (sgf.setupInitialBoardAndHist ops initialRules) = false
          ∧ 1 ≤ t ∧ t ≤ (sgf.moves.length : Int))) := by
  have key : ∀ t : Int, failed (sgf.setupBoardAndHist ops initialRules t) = false ↔
      (failed (sgf.setupInitialBoardAndHist ops initialRules) = false
        ∧ 1 ≤ t ∧ t ≤ (sgf.moves.length : Int)) := by
    intro t
    unfold CompactSgf.setupBoardAndHist
    cases hi : sgf.setupInitialBoardAndHist ops initialRules with
    | error e => simp [failed, bind, Except.bind]
    | ok pos =>
      simp only [bind, Except.bind, failed, true_and]
      by_cases ht : t ≤ 0 ∨ t > (sgf.moves.length : Int)
      · rw [if_pos ht]
        simp only [failed, Bool.true_eq_false, false_iff]
        omega
      · rw [if_neg ht]
        simp only [pure, Except.pure, failed, true_iff]
        omega
  refine ⟨?_, ?_, key⟩
  · cases hf : failed (sgf.setupBoardAndHist ops initialRules 0) with
    | true => rfl
    | false =>
      have := ((key 0).mp hf).2.1
      omega
  · intro pos hi
    unfold CompactSgf.setupBoardAndHist
    rw [hi]
    simp only [bind, Except.bind]
    rw [if_pos (Or.inl (le_refl 0))]

/-! ## Moves of a game tree -/

/-- C7. `getMovesHelper` tests `i > 0 && nodes[i]->hasPlacements()` with the
index `i` inside the current variation (sgf.cpp 315), so the first node of a
child variation is never tested. In the tree read from
`(;SZ[19](;AB[aa]W[bb]))` the node `;AB[aa]W[bb]` is the first node of the
only child variation, it is not the root and it has placements, and
`getMoves` succeeds with the move `W[bb]`; for the same node on the main
line, `(;SZ[19];AB[aa]W[bb])`, `getMoves` throws "Found stone placements
after the root". -/
theorem getMoves_placements_in_variation :
    (Sgf.parse "(;SZ[19](;AB[aa]W[bb]))".toList).map
        (fun sgf => (sgf.nodes.length,
          sgf.children.map (fun c => c.nodes.map SgfNode.hasPlacements),
          sgf.getMoves 19))
      = .ok (1, [[true]], .ok [⟨Location.getLoc 1 1 19, .white⟩])
    ∧ (Sgf.parse "(;SZ[19];AB[aa]W[bb])".toList).map
        (fun sgf => (sgf.nodes.map SgfNode.hasPlacements, sgf.getMoves 19))
      = .ok ([false, true], .error .placementsAfterRoot) :=
  ⟨rfl, rfl⟩

theorem depthLoop_cons (c : Sgf) (cs : List Sgf) (m : Nat) :
    Sgf.depthLoop (c :: cs) m = Sgf.depthLoop cs (max m c.depth) := by
  rw [Sgf.depthLoop]
  by_cases h : c.depth > m
  · rw [if_pos h, max_eq_right (by omega)]
  · rw [if_neg h, max_eq_left (by omega)]

theorem depthLoop_eq_max (cs : List Sgf) (m : Nat) :
    Sgf.depthLoop cs m = max m (Sgf.depthLoop cs 0) := by
  induction cs generalizing m with
  | nil => simp [Sgf.depthLoop]
  | cons c cs ih =>
    rw [depthLoop_cons, depthLoop_cons, ih (max m c.depth), ih (max 0 c.depth)]
    omega

theorem depthLoop_of_le (cs : List Sgf) (m : Nat) (h : ∀ c ∈ cs, Sgf.depth c ≤ m) :
    Sgf.depthLoop cs m = m := by
  induction cs with
  | nil => simp [Sgf.depthLoop]
  | cons c cs ih =>
    rw [depthLoop_cons, max_eq_left (h c (List.mem_cons_self _ _))]
    exact ih (fun c' hc' => h c' (List.mem_cons_of_mem _ hc'))

theorem le_depthLoop (cs : List Sgf) (m : Nat) (c : Sgf) (hc : c ∈ cs) :
    Sgf.depth c ≤ Sgf.depthLoop cs m := by
  induction cs generalizing m with
  | nil => cases hc
  | cons c' cs ih =>
    rw [depthLoop_cons]
    rcases List.mem_cons.mp hc with rfl | h
    · rw [depthLoop_eq_max]
      omega
    · exact ih _ h

theorem maxChildLoop_of_le (cs : List Sgf) (m : Nat) (best : Option Sgf)
    (h : ∀ c ∈ cs, Sgf.depth c ≤ m) : maxChildLoop cs m best = best := by
  induction cs with
  | nil => rfl
  | cons c cs ih =>
    rw [maxChildLoop, if_neg (by have := h c (List.mem_cons_self _ _); omega)]
    exact ih (fun c' hc' => h c' (List.mem_cons_of_mem _ hc'))

theorem maxChildLoop_depth (cs : List Sgf) (m : Nat) (best : Option Sgf) (c : Sgf)
    (hbest : ∀ b, best = some b → Sgf.depth b = m)
    (h : maxChildLoop cs m best = some c) : Sgf.depth c = Sgf.depthLoop cs m := by
  induction cs generalizing m best with
  | nil =>
    rw [maxChildLoop] at h
    rw [Sgf.depthLoop]
    exact hbest c h
  | cons c' cs ih =>
    rw [maxChildLoop] at h
    rw [Sgf.depthLoop]
    by_cases hd : c'.depth > m
    · rw [if_pos hd] at h
      rw [if_pos hd]
      exact ih _ _ (fun b hb => by cases hb; rfl) h
    · rw [if_neg hd] at h
      rw [if_neg hd]
      exact ih _ _ hbest h

theorem maxChildLoop_none (cs : List Sgf) (m : Nat) (best : Option Sgf)
    (h : maxChildLoop cs m best = none) : ∀ c ∈ cs, Sgf.depth c ≤ m := by
  induction cs generalizing m best with
  | nil => intro c hc; cases hc
  | cons c' cs ih =>
    rw [maxChildLoop] at h
    by_cases hd : c'.depth > m
    · rw [if_pos hd] at h
      exfalso
      by_cases hall : ∀ c ∈ cs, Sgf.depth c ≤ c'.depth
      · rw [maxChildLoop_of_le cs _ _ hall] at h
        cases h
      · push_neg at hall
        obtain ⟨c2, hc2, hlt⟩ := hall
        have := ih _ _ h c2 hc2
        omega
    · rw [if_neg hd] at h
      intro c hc
      rcases List.mem_cons.mp hc with rfl | hc
      · omega
      · exact ih _ _ h c hc

theorem maxChildLoop_line (cs : List Sgf) (m : Nat) (best : Option Sgf)
    (h : ∃ c ∈ cs, m < Sgf.depth c) :
    ∃ c, maxChildLoop cs m best = some c ∧ Sgf.line c = Sgf.lineOfDeepest cs := by
  induction cs generalizing m best with
  | nil =>
    obtain ⟨c, hc, _⟩ := h
    cases hc
  | cons c' cs ih =>
    rw [maxChildLoop, Sgf.lineOfDeepest]
    by_cases hd : c'.depth > m
    · rw [if_pos hd]
      by_cases hall : ∀ c ∈ cs, Sgf.depth c ≤ c'.depth
      · refine ⟨c', maxChildLoop_of_le cs _ _ hall, ?_⟩
        rw [if_pos (by simpa using hall)]
      · rw [if_neg (by simpa using hall)]
        push_neg at hall
        exact ih _ _ hall
    · rw [if_neg hd]
      obtain ⟨c, hc, hlt⟩ := h
      rcases List.mem_cons.mp hc with rfl | hc
      · omega
      · have hnot : ¬ ∀ c2 ∈ cs, Sgf.depth c2 ≤ c'.depth := by
          intro hall
          have := hall c hc
          omega
        rw [if_neg (by simpa using hnot)]
        exact ih _ _ ⟨c, hc, hlt⟩

theorem lineOfDeepest_length (cs : List Sgf)
    (ih : ∀ c ∈ cs, (Sgf.line c).length = Sgf.depth c) :
    (Sgf.lineOfDeepest cs).length = Sgf.depthLoop cs 0 := by
  induction cs with
  | nil => rfl
  | cons c cs ihl =>
    rw [Sgf.lineOfDeepest, depthLoop_cons, Nat.zero_max]
    by_cases hall : ∀ c2 ∈ cs, Sgf.depth c2 ≤ c.depth
    · rw [if_pos (by simpa using hall), ih c (List.mem_cons_self _ _),
        depthLoop_of_le cs _ hall]
    · rw [if_neg (by simpa using hall), ihl (fun c2 hc2 => ih c2 (List.mem_cons_of_mem _ hc2)),
        depthLoop_eq_max cs c.depth]
      push_neg at hall
      obtain ⟨c2, hc2, hlt⟩ := hall
      have := le_depthLoop cs 0 c2 hc2
      omega

theorem line_length_aux (n : Nat) :
    ∀ sgf : Sgf, sizeOf sgf = n → sgf.line.length = sgf.depth := by
  induction n using Nat.strong_induction_on with
  | _ n ih =>
    intro sgf hn
    obtain ⟨nodes, children⟩ := sgf
    rw [Sgf.line, Sgf.depth, List.length_append, lineOfDeepest_length children, Nat.add_comm]
    intro c hc
    have hlt := List.sizeOf_lt_of_mem hc
    exact ih (sizeOf c) (by rw [← hn]; simp only [Sgf.mk.sizeOf_spec]; omega) c rfl

theorem line_length (sgf : Sgf) : sgf.line.length = sgf.depth :=
  line_length_aux (sizeOf sgf) sgf rfl

theorem bind_ok_iff {α β : Type} (x : Except SgfError α) (f : α → Except SgfError β) (b : β) :
    (x >>= f) = .ok b ↔ ∃ a, x = .ok a ∧ f a = .ok b := by
  cases x with
  | error e => simp [bind, Except.bind]
  | ok a => simp [bind, Except.bind]

theorem bind_error_iff {α β : Type} (x : Except SgfError α) (f : α → Except SgfError β)
    (e : SgfError) :
    (x >>= f) = .error e ↔ x = .error e ∨ ∃ a, x = .ok a ∧ f a = .error e := by
  cases x with
  | error e2 => simp [bind, Except.bind]
  | ok a => simp [bind, Except.bind]

theorem line_eq (sgf : Sgf) : sgf.line = sgf.nodes ++ Sgf.lineOfDeepest sgf.children := by
  obtain ⟨nodes, children⟩ := sgf
  rw [Sgf.line]
  rfl

theorem accumMovesAlong_append (l1 l2 : List SgfNode) (moves : List Move) (bSize : Int) :
    accumMovesAlong (l1 ++ l2) moves bSize
      = (accumMovesAlong l1 moves bSize >>= fun m => accumMovesAlong l2 m bSize) := by
  induction l1 generalizing moves with
  | nil => rfl
  | cons n l1 ih =>
    simp only [List.cons_append, accumMovesAlong]
    cases h : n.accumMoves moves bSize with
    | error e => rfl
    | ok m => exact ih m

theorem getMovesNodes_ok (nodes : List SgfNode) (i : Nat) (moves ms : List Move) (bSize : Int)
    (h : getMovesNodes nodes i moves bSize = .ok ms) :
    accumMovesAlong nodes moves bSize = .ok ms := by
  induction nodes generalizing i moves with
  | nil => exact h
  | cons n nodes ih =>
    rw [getMovesNodes] at h
    by_cases hp : i > 0 ∧ n.hasPlacements = true
    · rw [if_pos hp] at h
      cases h
    · rw [if_neg hp] at h
      obtain ⟨m, hm, hrest⟩ := (bind_ok_iff _ _ _).mp h
      rw [accumMovesAlong, hm]
      exact ih _ _ hrest

theorem getMovesHelperFuel_line (fuel : Nat) (sgf : Sgf) (moves ms : List Move) (bSize : Int)
    (h : Sgf.getMovesHelperFuel fuel sgf moves bSize = .ok ms) :
    accumMovesAlong sgf.line moves bSize = .ok ms := by
  induction fuel generalizing sgf moves with
  | zero => cases h
  | succ fuel ih =>
    rw [Sgf.getMovesHelperFuel] at h
    obtain ⟨_, _, h⟩ := (bind_ok_iff _ _ _).mp h
    obtain ⟨m1, hm1, h⟩ := (bind_ok_iff _ _ _).mp h
    rw [line_eq, accumMovesAlong_append, getMovesNodes_ok _ _ _ _ _ hm1]
    cases hmax : maxChildLoop sgf.children 0 none with
    | none =>
      rw [hmax] at h
      have hall := maxChildLoop_none _ _ _ hmax
      have hlen := lineOfDeepest_length sgf.children (fun c _ => line_length c)
      rw [depthLoop_of_le _ _ hall] at hlen
      rw [List.length_eq_zero.mp hlen]
      exact h
    | some c =>
      rw [hmax] at h
      have hex : ∃ c ∈ sgf.children, 0 < Sgf.depth c := by
        by_contra hno
        push_neg at hno
        rw [maxChildLoop_of_le _ _ _ hno] at hmax
        cases hmax
      obtain ⟨c2, hc2, hline⟩ := maxChildLoop_line sgf.children 0 none hex
      rw [hmax] at hc2
      cases hc2
      rw [← hline]
      exact ih _ _ h

theorem parseSgfLoc_error (s : List Char) (bSize : Int) (e : SgfError)
    (h : parseSgfLoc s bSize = .error e) : e = .invalidLocation := by
  unfold parseSgfLoc at h
  split at h
  · simp only at h
    split at h
    · cases h; rfl
    · cases h
  · cases h; rfl

theorem parseSgfLocOrPass_error (s : List Char) (bSize : Int) (e : SgfError)
    (h : parseSgfLocOrPass s bSize = .error e) : e = .invalidLocation := by
  unfold parseSgfLocOrPass at h
  split at h
  · cases h
  · exact parseSgfLoc_error _ _ _ h

theorem accumLocsOrPass_error (vals : List (List Char)) (pla : Player) (moves : List Move)
    (bSize : Int) (e : SgfError) (h : accumLocsOrPass vals pla moves bSize = .error e) :
    e = .invalidLocation := by
  induction vals generalizing moves with
  | nil => cases h
  | cons v vals ih =>
    rw [accumLocsOrPass] at h
    rcases (bind_error_iff _ _ _).mp h with h1 | ⟨loc, _, h2⟩
    · exact parseSgfLocOrPass_error _ _ _ h1
    · exact ih _ h2

theorem accumOwnMove_error (node : SgfNode) (pla : Player) (moves : List Move) (bSize : Int)
    (e : SgfError) (h : accumOwnMove node pla moves bSize = .error e) :
    e = .moveOutOfBounds := by
  unfold accumOwnMove at h
  split at h
  · split at h
    · cases h
    · split at h
      · cases h; rfl
      · cases h
  · cases h

theorem accumMoves_error (node : SgfNode) (moves : List Move) (bSize : Int) (e : SgfError)
    (h : node.accumMoves moves bSize = .error e) :
    e = .invalidLocation ∨ e = .moveOutOfBounds := by
  unfold SgfNode.accumMoves at h
  rcases (bind_error_iff _ _ _).mp h with h1 | ⟨m1, _, h⟩
  · exact Or.inr (accumOwnMove_error _ _ _ _ _ h1)
  rcases (bind_error_iff _ _ _).mp h with h1 | ⟨m2, _, h⟩
  · split at h1
    · exact Or.inl (accumLocsOrPass_error _ _ _ _ _ h1)
    · cases h1
  rcases (bind_error_iff _ _ _).mp h with h1 | ⟨m3, _, h⟩
  · exact Or.inr (accumOwnMove_error _ _ _ _ _ h1)
  split at h
  · exact Or.inl (accumLocsOrPass_error _ _ _ _ _ h)
  · cases h

theorem getMovesNodes_error (nodes : List SgfNode) (i : Nat) (moves : List Move) (bSize : Int)
    (e : SgfError) (h : getMovesNodes nodes i moves bSize = .error e) :
    e = .invalidLocation ∨ e = .moveOutOfBounds ∨ e = .placementsAfterRoot := by
  induction nodes generalizing i moves with
  | nil => cases h
  | cons n nodes ih =>
    rw [getMovesNodes] at h
    by_cases hp : i > 0 ∧ n.hasPlacements = true
    · rw [if_pos hp] at h
      cases h
      exact Or.inr (Or.inr rfl)
    · rw [if_neg hp] at h
      rcases (bind_error_iff _ _ _).mp h with h1 | ⟨m, _, h2⟩
      · rcases accumMoves_error _ _ _ _ h1 with h | h
        · exact Or.inl h
        · exact Or.inr (Or.inl h)
      · exact ih _ _ h2

/-- The bound on the nested calls of `getMovesHelper` is never reached. -/
theorem getMovesHelper_fuel (fuel : Nat) (sgf : Sgf) (moves : List Move) (bSize : Int)
    (hfuel : sgf.depth < fuel) :
    Sgf.getMovesHelperFuel fuel sgf moves bSize ≠ .error .outOfFuel := by
  induction fuel generalizing sgf moves with
  | zero => omega
  | succ fuel ih =>
    intro h
    rw [Sgf.getMovesHelperFuel] at h
    rcases (bind_error_iff _ _ _).mp h with h1 | ⟨_, hne, h⟩
    · unfold checkNonEmpty at h1
      split at h1 <;> cases h1
    rcases (bind_error_iff _ _ _).mp h with h1 | ⟨m1, _, h⟩
    · rcases getMovesNodes_error _ _ _ _ _ h1 with h | h | h <;> cases h
    cases hmax : maxChildLoop sgf.children 0 none with
    | none =>
      rw [hmax] at h
      cases h
    | some c =>
      rw [hmax] at h
      have hd := maxChildLoop_depth _ _ _ _ (fun b hb => by cases hb) hmax
      have hlen : 0 < sgf.nodes.length := by
        unfold checkNonEmpty at hne
        split at hne
        · cases hne
        · omega
      have hdepth : sgf.depth = Sgf.depthLoop sgf.children 0 + sgf.nodes.length := by
        obtain ⟨nodes, children⟩ := sgf
        rw [Sgf.depth]
        rfl
      exact ih c m1 (by omega) h

theorem lineOfDeepest_spec (cs : List Sgf) (hne : cs ≠ []) :
    ∃ pre c post, cs = pre ++ c :: post
      ∧ (∀ c2 ∈ pre, Sgf.depth c2 < Sgf.depth c)
      ∧ (∀ c2 ∈ post, Sgf.depth c2 ≤ Sgf.depth c)
      ∧ Sgf.lineOfDeepest cs = Sgf.line c := by
  induction cs with
  | nil => exact absurd rfl hne
  | cons c cs ih =>
    rw [Sgf.lineOfDeepest]
    by_cases hall : ∀ c2 ∈ cs, Sgf.depth c2 ≤ c.depth
    · rw [if_pos (by simpa using hall)]
      exact ⟨[], c, cs, rfl, fun c2 h => absurd h (List.not_mem_nil c2), hall, rfl⟩
    · rw [if_neg (by simpa using hall)]
      push_neg at hall
      obtain ⟨x, hx, hlt⟩ := hall
      obtain ⟨pre, c3, post, hcs, hpre, hpost, hline⟩ :=
        ih (by intro h; rw [h] at hx; cases hx)
      refine ⟨c :: pre, c3, post, by rw [hcs]; rfl, ?_, hpost, hline⟩
      have hx3 : Sgf.depth x ≤ Sgf.depth c3 := by
        rw [hcs] at hx
        rcases List.mem_append.mp hx with h | h
        · exact Nat.le_of_lt (hpre x h)
        · rcases List.mem_cons.mp h with h | h
          · rw [h]
          · exact hpost x h
      intro c2 hc2
      rcases List.mem_cons.mp hc2 with h | h
      · rw [h]
        omega
      · exact hpre c2 h

/-- C5. `Sgf::getMoves` gets the longest line when the tree has branches.
The line of a tree is its nodes alone when it has no child variation, and
otherwise its nodes followed by the line of a child variation whose
`depth()` is greater than that of every child before it and not smaller than
that of every child after it: the first child of greatest depth. The line
has `depth()` nodes; whenever `getMoves` returns, the moves it returns are
those collected by `accumMoves` along the nodes of the line, in order; and
the bound on nested calls of the embedding is never what stops it. -/
theorem getMoves_longest_line (sgf : Sgf) :
    (sgf.children = [] → sgf.line = sgf.nodes)
    ∧ (sgf.children ≠ [] → ∃ pre c post, sgf.children = pre ++ c :: post
        ∧ (∀ c2 ∈ pre, Sgf.depth c2 < Sgf.depth c)
        ∧ (∀ c2 ∈ post, Sgf.depth c2 ≤ Sgf.depth c)
        ∧ sgf.line = sgf.nodes ++ Sgf.line c)
    ∧ sgf.line.length = sgf.depth
    ∧ (∀ (bSize : Int) (ms : List Move), sgf.getMoves bSize = .ok ms →
        accumMovesAlong sgf.line [] bSize = .ok ms)
    ∧ ∀ bSize : Int, sgf.getMoves bSize ≠ .error .outOfFuel := by
  refine ⟨?_, ?_, line_length sgf,
    fun bSize ms h => getMovesHelperFuel_line _ sgf [] ms bSize h,
    fun bSize => getMovesHelper_fuel _ sgf [] bSize (Nat.lt_succ_self _)⟩
  · intro h
    rw [line_eq, h]
    simp [Sgf.lineOfDeepest]
  · intro h
    obtain ⟨pre, c, post, hcs, hpre, hpost, hline⟩ := lineOfDeepest_spec sgf.children h
    exact ⟨pre, c, post, hcs, hpre, hpost, by rw [line_eq, hline]⟩

/-- C5 on a tree with three variations of depths 1, 2 and 2: the line goes
through the second variation and has three nodes. -/
theorem getMoves_longest_line_witness :
    sampleTree.getMoves 19
      = .ok [⟨Location.getLoc 0 0 19, .black⟩, ⟨Location.getLoc 2 2 19, .white⟩,
             ⟨Location.getLoc 3 3 19, .black⟩]
    ∧ sampleTree.line = [moveNode 0 0 .black, moveNode 2 2 .white, moveNode 3 3 .black]
    ∧ sampleTree.line.length = sampleTree.depth
    ∧ accumMovesAlong sampleTree.line [] 19
      = .ok [⟨Location.getLoc 0 0 19, .black⟩, ⟨Location.getLoc 2 2 19, .white⟩,
             ⟨Location.getLoc 3 3 19, .black⟩] :=
  ⟨by decide, by decide, (getMoves_longest_line sampleTree).2.2.1,
   (getMoves_longest_line sampleTree).2.2.2.1 19 _ (by decide)⟩

/-! ## The round trip of a game: reading what `writeSgf` writes -/

theorem plainText_nil : plainText [] := by
  intro c hc
  cases hc

theorem plainText_append {s t : List Char} (hs : plainText s) (ht : plainText t) :
    plainText (s ++ t) := by
  intro c hc
  rcases List.mem_append.mp hc with h | h
  · exact hs c h
  · exact ht c h

theorem plainText_cons {c : Char} {t : List Char} (h : plainText (c :: t)) :
    (c ≠ ']' ∧ c ≠ '\\') ∧ plainText t :=
  ⟨h c (List.mem_cons_self _ _), fun c' hc' => h c' (List.mem_cons_of_mem _ hc')⟩

theorem parseTextValueLoop_plain (t : List Char) (acc tail : List Char) (ht : plainText t) :
    parseTextValueLoop .plain acc (t ++ ']' :: tail) = .ok (acc ++ textValue t, ']' :: tail) := by
  induction t generalizing acc with
  | nil => simp [parseTextValueLoop, textValue]
  | cons c t ih =>
    obtain ⟨⟨h1, h2⟩, ht'⟩ := plainText_cons ht
    rw [List.cons_append, parseTextValueLoop]
    by_cases htab : c = '\t'
    · subst htab
      simp [ih _ ht', textValue]
    · simp [h1, h2, htab, ih _ ht', textValue]

theorem parseTextValue_plain (t tail : List Char) (ht : plainText t) :
    parseTextValue (t ++ ']' :: tail) = .ok (textValue t, ']' :: tail) := by
  unfold parseTextValue
  rw [parseTextValueLoop_plain t [] tail ht]
  rfl

theorem nextSgfChar_cons (c : Char) (r : List Char) (h : Global.isWhitespace c = false) :
    nextSgfChar (c :: r) = .ok (c, r) := by
  rw [nextSgfChar, h]
  rfl

theorem scanKey_stop (c : Char) (r : List Char) (hw : Global.isWhitespace c = false)
    (ha : Global.isAlpha c = false) : scanKey (c :: r) = .ok ([], c :: r) := by
  rw [scanKey]
  simp [hw, ha]

theorem scanKey_alpha (key : List Char) (c : Char) (r : List Char)
    (hkey : ∀ k ∈ key, Global.isAlpha k = true)
    (hw : Global.isWhitespace c = false) (ha : Global.isAlpha c = false) :
    scanKey (key ++ c :: r) = .ok (key, c :: r) := by
  induction key with
  | nil => exact scanKey_stop c r hw ha
  | cons k key ih =>
    rw [List.cons_append, scanKey, ih (fun k' hk' => hkey k' (List.mem_cons_of_mem _ hk'))]
    simp [hkey k (List.mem_cons_self _ _)]

theorem parseValues_exit (fuel : Nat) (node : SgfNode) (key : List Char) (p : Bool) (c : Char)
    (r : List Char) (hw : Global.isWhitespace c = false) (hc : c ≠ '[') :
    parseValues (fuel + 1) node key p (c :: r) = .ok (node, p, c :: r) := by
  rw [parseValues, nextSgfChar_cons c r hw]
  simp only [bind, Except.bind, ne_eq, hc, not_false_eq_true, if_true]
  rfl

theorem parseValues_step (fuel : Nat) (node : SgfNode) (key value tail : List Char) (p : Bool)
    (hv : plainText value) :
    parseValues (fuel + 1) node key p ('[' :: value ++ ']' :: tail)
      = (storeValue node key (textValue value) >>= fun node2 =>
          parseValues fuel node2 key true tail) := by
  rw [parseValues, List.cons_append, nextSgfChar_cons '[' _ (by decide)]
  simp only [bind, Except.bind, ne_eq, not_true_eq_false, if_false,
    parseTextValue_plain value tail hv, storeValue]
  by_cases hB : node.move.pla = .empty ∧ key = ['B']
  · rw [if_pos hB, if_pos hB]
    cases moveOfValue (textValue value) .black with
    | error e => rfl
    | ok mv =>
      simp only [pure, Except.pure, nextSgfChar_cons ']' tail (by decide)]
      rfl
  · rw [if_neg hB, if_neg hB]
    by_cases hW : node.move.pla = .empty ∧ key = ['W']
    · rw [if_pos hW, if_pos hW]
      cases moveOfValue (textValue value) .white with
      | error e => rfl
      | ok mv =>
        simp only [pure, Except.pure, nextSgfChar_cons ']' tail (by decide)]
        rfl
    · rw [if_neg hW, if_neg hW]
      simp only [pure, Except.pure, nextSgfChar_cons ']' tail (by decide)]
      rfl

theorem maybeParseProperty_none (node : SgfNode) (s : List Char) (hs : endsNode s) :
    maybeParseProperty node s = .ok (false, node, s) := by
  obtain ⟨c, r, rfl, hw, ha, _⟩ := hs
  unfold maybeParseProperty
  rw [scanKey_stop c r hw ha]
  rfl

theorem maybeParseProperty_one (node node2 : SgfNode) (key value tail : List Char) (c : Char)
    (r : List Char) (hkey : ∀ k ∈ key, Global.isAlpha k = true) (hne : key ≠ [])
    (hv : plainText value) (htail : tail = c :: r)
    (hw : Global.isWhitespace c = false) (hc : c ≠ '[')
    (hstore : storeValue node key (textValue value) = .ok node2) :
    maybeParseProperty node (propText key value ++ tail) = .ok (true, node2, tail) := by
  unfold maybeParseProperty propText
  have h1 : key ++ '[' :: value ++ [']'] ++ tail = key ++ '[' :: (value ++ ']' :: tail) := by
    simp
  rw [h1, scanKey_alpha key '[' _ hkey (by decide) (by decide)]
  have hlen : ¬ key.length ≤ 0 := by
    cases key with
    | nil => exact absurd rfl hne
    | cons k key => simp
  simp only [bind, Except.bind, hlen, if_false]
  have h2 : ('[' :: (value ++ ']' :: tail)).length + 1 = (value.length + tail.length) + 1 + 1 + 1 := by
    simp
    omega
  rw [h2]
  have h3 := parseValues_step ((value.length + tail.length) + 1 + 1) node key value tail false hv
  simp only [List.cons_append] at h3
  rw [h3, hstore, htail]
  simp only [bind, Except.bind, parseValues_exit _ node2 key true c r hw hc]
  rfl

theorem isAlpha_toNat (c : Char) (h : Global.isAlpha c = true) :
    (97 ≤ c.toNat ∧ c.toNat ≤ 122) ∨ (65 ≤ c.toNat ∧ c.toNat ≤ 90) := by
  unfold Global.isAlpha at h
  simp only [Bool.or_eq_true, Bool.and_eq_true, decide_eq_true_eq] at h
  rcases h with ⟨h1, h2⟩ | ⟨h1, h2⟩
  · exact Or.inl ⟨Char.le_def.mp h1, Char.le_def.mp h2⟩
  · exact Or.inr ⟨Char.le_def.mp h1, Char.le_def.mp h2⟩

theorem isAlpha_not_whitespace (c : Char) (h : Global.isAlpha c = true) :
    Global.isWhitespace c = false := by
  have hn := isAlpha_toNat c h
  cases hw : Global.isWhitespace c with
  | false => rfl
  | true =>
    exfalso
    unfold Global.isWhitespace at hw
    simp only [Bool.or_eq_true, beq_iff_eq] at hw
    rcases hw with ((((hw | hw) | hw) | hw) | hw) | hw <;> subst hw <;>
      revert hn <;> decide

theorem isAlpha_ne_bracket (c : Char) (h : Global.isAlpha c = true) : c ≠ '[' := by
  have hn := isAlpha_toNat c h
  intro hc
  subst hc
  revert hn
  decide

theorem propsText_cons (kv : List Char × List Char) (ps : List (List Char × List Char)) :
    propsText (kv :: ps) = propText kv.1 kv.2 ++ propsText ps := by
  simp [propsText]

theorem propsText_head (ps : List (List Char × List Char)) (tail : List Char)
    (hps : ∀ kv ∈ ps, propName kv.1) (htail : endsNode tail) :
    ∃ c r, propsText ps ++ tail = c :: r ∧ Global.isWhitespace c = false ∧ c ≠ '[' := by
  cases ps with
  | nil =>
    obtain ⟨c, r, h, hw, _, hc⟩ := htail
    exact ⟨c, r, by simpa [propsText] using h, hw, hc⟩
  | cons kv ps =>
    obtain ⟨hal, hne, _, _⟩ := hps kv (List.mem_cons_self _ _)
    obtain ⟨key, value⟩ := kv
    cases key with
    | nil => exact absurd rfl hne
    | cons k key =>
      refine ⟨k, key ++ '[' :: value ++ [']'] ++ (propsText ps ++ tail), ?_,
        isAlpha_not_whitespace k (hal k (List.mem_cons_self _ _)),
        isAlpha_ne_bracket k (hal k (List.mem_cons_self _ _))⟩
      rw [propsText_cons]
      simp [propText]

theorem storeValue_prop (node : SgfNode) (key txt : List Char) (hk : propName key) :
    storeValue node key txt = .ok { node with props := node.props.push key txt } := by
  obtain ⟨_, _, hB, hW⟩ := hk
  unfold storeValue
  rw [if_neg (fun h => hB h.2), if_neg (fun h => hW h.2)]
  rfl

theorem parseProperties_list (ps : List (List Char × List Char)) (node : SgfNode)
    (tail : List Char) (fuel : Nat)
    (hps : ∀ kv ∈ ps, propName kv.1 ∧ plainText kv.2) (htail : endsNode tail)
    (hfuel : ps.length < fuel) :
    parseProperties fuel node (propsText ps ++ tail)
      = .ok ({ node with props := storeProps node.props ps }, tail) := by
  induction ps generalizing node fuel with
  | nil =>
    obtain ⟨f, rfl⟩ : ∃ f, fuel = f + 1 := ⟨fuel - 1, by simp at hfuel; omega⟩
    rw [parseProperties]
    simp only [propsText, List.flatMap_nil, List.nil_append,
      maybeParseProperty_none node tail htail, bind, Except.bind]
    rfl
  | cons kv ps ih =>
    obtain ⟨f, rfl⟩ : ∃ f, fuel = f + 1 := ⟨fuel - 1, by simp at hfuel; omega⟩
    have hps' : ∀ kv ∈ ps, propName kv.1 ∧ plainText kv.2 :=
      fun kv' h => hps kv' (List.mem_cons_of_mem _ h)
    obtain ⟨hname, hplain⟩ := hps kv (List.mem_cons_self _ _)
    obtain ⟨c, r, hcr, hw, hc⟩ := propsText_head ps tail (fun kv' h => (hps' kv' h).1) htail
    rw [parseProperties, propsText_cons, List.append_assoc,
      maybeParseProperty_one node _ kv.1 kv.2 _ c r hname.1 hname.2.1 hplain hcr hw hc
        (storeValue_prop node kv.1 _ hname)]
    simp only [bind, Except.bind, Bool.not_true, Bool.false_eq_true, if_false]
    rw [ih _ _ hps' (by simp at hfuel; omega)]
    rfl


theorem sgfLetter_plain : ∀ i : Nat, i < 26 →
    sgfLetter i ≠ ']' ∧ sgfLetter i ≠ '\\' ∧ sgfLetter i ≠ '\t' := by
  decide

theorem sgfLetter_ne_t : ∀ i : Nat, i < 19 → sgfLetter i ≠ 't' := by
  decide

theorem onBoard_coords {loc : Loc} {n : Nat} (h : onBoard loc n) :
    ∃ x y : Nat, x < n ∧ y < n ∧ loc = Location.getLoc x y n
      ∧ Location.getX loc n = x ∧ Location.getY loc n = y ∧ loc ≠ Board.PASS_LOC
      ∧ loc ≠ Board.NULL_LOC := by
  obtain ⟨x, y, hx, hy, rfl⟩ := h
  have hgt := getLoc_gt_one x y n (by omega) (by omega) (by omega)
  refine ⟨x, y, hx, hy, rfl, getX_getLoc x y n (by omega) (by omega) (by omega),
    getY_getLoc x y n (by omega) (by omega) (by omega), ?_, ?_⟩
  · intro h
    rw [h] at hgt
    exact absurd hgt (by decide)
  · intro h
    rw [h] at hgt
    exact absurd hgt (by decide)

theorem coordText_onBoard {loc : Loc} {n x y : Nat} (hne : loc ≠ Board.PASS_LOC)
    (hx : Location.getX loc n = x) (hy : Location.getY loc n = y) :
    coordText n loc = [sgfLetter x, sgfLetter y] := by
  unfold coordText
  rw [if_neg hne, hx, hy]
  rfl

theorem writeSgfLoc_gameLoc (n : Nat) (loc : Loc) (hn : n < 26)
    (h : loc = Board.PASS_LOC ∨ onBoard loc n) :
    writeSgfLoc loc n = .ok (coordText n loc) := by
  unfold writeSgfLoc
  rw [if_neg (by omega)]
  rcases h with h | h
  · rw [if_pos (Or.inl h)]
    simp [coordText, h]
  · obtain ⟨x, y, hx, hy, _, hgx, hgy, hne, hne2⟩ := onBoard_coords h
    rw [if_neg (by rintro (h | h); exact hne h; exact hne2 h)]
    rw [coordText_onBoard hne hgx hgy]
    simp only [hgx, hgy, sgfCoordChar_letter x (by omega), sgfCoordChar_letter y (by omega)]
    rfl

theorem coordText_plain (n : Nat) (loc : Loc) (hn : n < 26)
    (h : loc = Board.PASS_LOC ∨ onBoard loc n) :
    plainText (coordText n loc) ∧ textValue (coordText n loc) = coordText n loc := by
  rcases h with h | h
  · simp [coordText, h, plainText, textValue]
  · obtain ⟨x, y, hx, hy, _, hgx, hgy, hne, _⟩ := onBoard_coords h
    rw [coordText_onBoard hne hgx hgy]
    have h1 := sgfLetter_plain x (by omega)
    have h2 := sgfLetter_plain y (by omega)
    constructor
    · intro c hc
      simp only [List.mem_cons, List.mem_singleton, List.not_mem_nil, or_false] at hc
      rcases hc with rfl | rfl
      · exact ⟨h1.1, h1.2.1⟩
      · exact ⟨h2.1, h2.2.1⟩
    · simp [textValue, h1.2.2, h2.2.2]

theorem toUInt8_small (x : Nat) (hx : x < 256) : toUInt8 (x : Int) = x := by
  unfold toUInt8
  omega

theorem parseSgfLocOrPass_letters (x y : Nat) (hx : x < 19) (hy : y < 19) :
    parseSgfLocOrPass [sgfLetter x, sgfLetter y] 128 = .ok (Location.getLoc x y 128) := by
  unfold parseSgfLocOrPass parseSgfLoc
  have ht : ¬ (([sgfLetter x, sgfLetter y] : List Char).length = 0
      ∨ [sgfLetter x, sgfLetter y] = ['t', 't']) := by
    rintro (h | h)
    · simp at h
    · simp only [List.cons.injEq, and_true] at h
      exact sgfLetter_ne_t x hx h.1
  rw [if_neg ht]
  simp only [charCode_letter x (by omega), charCode_letter y (by omega)]
  rw [if_neg (by omega)]

theorem moveOfValue_gameLoc (n : Nat) (loc : Loc) (pla : Player) (hn : n ≤ 19)
    (h : loc = Board.PASS_LOC ∨ onBoard loc n) :
    moveOfValue (coordText n loc) pla = .ok (nodeOfMove n ⟨loc, pla⟩).move := by
  rcases h with h | h
  · simp only [coordText, nodeOfMove, h, if_true]
    rfl
  · obtain ⟨x, y, hx, hy, _, hgx, hgy, hne, _⟩ := onBoard_coords h
    rw [coordText_onBoard hne hgx hgy]
    simp only [nodeOfMove, hne, if_false, hgx, hgy, Int.toNat_ofNat]
    have hgt := getLoc_gt_one x y 128 (by omega) (by omega) (by omega)
    have hne128 : Location.getLoc (x : Int) (y : Int) 128 ≠ Board.PASS_LOC := by
      intro h
      rw [h] at hgt
      exact absurd hgt (by decide)
    simp only [moveOfValue, parseSgfLocOrPass_letters x y (by omega) (by omega), bind,
      Except.bind, hne128, if_false,
      getX_getLoc x y 128 (by omega) (by omega) (by omega),
      getY_getLoc x y 128 (by omega) (by omega) (by omega),
      toUInt8_small x (by omega), toUInt8_small y (by omega)]
    rfl

theorem accumMoves_nodeOfMove (n : Nat) (m : Move) (moves : List Move) (hn1 : 1 ≤ n)
    (hn : n ≤ 19) (hm : gameMove n m) :
    (nodeOfMove n m).accumMoves moves n = .ok (moves ++ [m]) := by
  obtain ⟨loc, pla⟩ := m
  obtain ⟨hloc, hpla⟩ := hm
  simp only at hloc hpla
  unfold SgfNode.accumMoves accumOwnMove
  rcases hloc with h | h
  · subst h
    rcases hpla with rfl | rfl <;> rfl
  · obtain ⟨x, y, hx, hy, hxy, hgx, hgy, hne, _⟩ := onBoard_coords h
    have hnode : nodeOfMove n ⟨loc, pla⟩ = { props := [], move := ⟨x, y, pla⟩ } := by
      simp only [nodeOfMove, hne, if_false, hgx, hgy, Int.toNat_ofNat]
    rw [hnode, hxy]
    have h128 : ¬ (x = 128 ∧ y = 128) := by omega
    have hin : ¬ (n ≤ x ∨ n ≤ y) := by omega
    rcases hpla with rfl | rfl <;>
      simp [h128, hin, bind, Except.bind, List.lookup]


theorem nodeOfMove_eta (n : Nat) (m : Move) :
    nodeOfMove n m = { props := [], move := (nodeOfMove n m).move } := by
  unfold nodeOfMove
  split <;> rfl

theorem storeValue_move (n : Nat) (m : Move) (hn : n ≤ 19) (hm : gameMove n m) :
    storeValue {} [if m.pla = .black then 'B' else 'W'] (textValue (coordText n m.loc))
      = .ok (nodeOfMove n m) := by
  obtain ⟨loc, pla⟩ := m
  obtain ⟨hloc, hpla⟩ := hm
  simp only at hloc hpla
  rw [(coordText_plain n loc (by omega) hloc).2, nodeOfMove_eta]
  unfold storeValue
  rcases hpla with rfl | rfl
  · rw [if_pos ⟨rfl, by simp⟩, moveOfValue_gameLoc n loc .black hn hloc]
    rfl
  · rw [if_neg (by simp), if_pos ⟨rfl, by simp⟩, moveOfValue_gameLoc n loc .white hn hloc]
    rfl

theorem endsNode_semicolon (r : List Char) : endsNode (';' :: r) :=
  ⟨';', r, rfl, by decide, by decide, by decide⟩

theorem endsNode_paren (r : List Char) : endsNode (')' :: r) :=
  ⟨')', r, rfl, by decide, by decide, by decide⟩

theorem maybeParseNode_move (n : Nat) (m : Move) (tail : List Char) (hn : n ≤ 19)
    (hm : gameMove n m) (htail : endsNode tail) :
    maybeParseNode (moveText n m ++ tail) = .ok (some (nodeOfMove n m), tail) := by
  obtain ⟨c, r, hcr, hw, ha, hc⟩ := htail
  unfold maybeParseNode moveText
  rw [List.cons_append, nextSgfChar_cons ';' _ (by decide)]
  simp only [bind, Except.bind, ne_eq, not_true_eq_false, if_false]
  obtain ⟨f, hf⟩ : ∃ f, (propText [if m.pla = .black then 'B' else 'W'] (coordText n m.loc)
      ++ tail).length + 1 = f + 1 + 1 := by
    refine ⟨(propText [if m.pla = .black then 'B' else 'W'] (coordText n m.loc)
      ++ tail).length - 1, ?_⟩
    simp [propText]
  rw [hf, parseProperties,
    maybeParseProperty_one {} (nodeOfMove n m) _ (coordText n m.loc) tail c r
      (by
        intro k hk
        simp only [List.mem_singleton] at hk
        subst hk
        split <;> decide)
      (by simp) (coordText_plain n m.loc (by omega) hm.1).1 hcr hw hc
      (storeValue_move n m hn hm)]
  simp only [bind, Except.bind, Bool.not_true, Bool.false_eq_true, if_false]
  rw [parseProperties, maybeParseProperty_none _ _ ⟨c, r, hcr, hw, ha, hc⟩]
  rfl

theorem maybeParseNode_paren (r : List Char) :
    maybeParseNode (')' :: r) = .ok (none, ')' :: r) := by
  unfold maybeParseNode
  rw [nextSgfChar_cons ')' _ (by decide)]
  rfl

theorem movesText_endsNode (n : Nat) (ms : List Move) (rest : List Char) :
    endsNode (ms.flatMap (moveText n) ++ ')' :: rest) := by
  cases ms with
  | nil => exact endsNode_paren rest
  | cons m ms =>
    simp only [List.flatMap_cons, moveText, List.cons_append, List.append_assoc]
    exact endsNode_semicolon _

theorem parseNodes_moves (n : Nat) (ms : List Move) (acc : List SgfNode) (rest : List Char)
    (fuel : Nat) (hn : n ≤ 19) (hms : ∀ m ∈ ms, gameMove n m) (hfuel : ms.length < fuel) :
    parseNodes fuel acc (ms.flatMap (moveText n) ++ ')' :: rest)
      = .ok (acc ++ ms.map (nodeOfMove n), ')' :: rest) := by
  induction ms generalizing acc fuel with
  | nil =>
    obtain ⟨f, rfl⟩ : ∃ f, fuel = f + 1 := ⟨fuel - 1, by simp at hfuel; omega⟩
    rw [parseNodes]
    simp only [List.flatMap_nil, List.nil_append, maybeParseNode_paren, bind, Except.bind,
      List.map_nil, List.append_nil]
    rfl
  | cons m ms ih =>
    obtain ⟨f, rfl⟩ : ∃ f, fuel = f + 1 := ⟨fuel - 1, by simp at hfuel; omega⟩
    rw [parseNodes, List.flatMap_cons, List.append_assoc,
      maybeParseNode_move n m _ hn (hms m (List.mem_cons_self _ _))
        (movesText_endsNode n ms rest)]
    simp only [bind, Except.bind]
    rw [ih _ _ (fun m' h => hms m' (List.mem_cons_of_mem _ h)) (by simp at hfuel; omega)]
    simp

theorem propsText_length (ps : List (List Char × List Char)) :
    ps.length ≤ (propsText ps).length := by
  induction ps with
  | nil => simp
  | cons kv ps ih =>
    rw [propsText_cons]
    simp [propText]
    omega

theorem maybeParseNode_root (ps : List (List Char × List Char)) (tail : List Char)
    (hps : ∀ kv ∈ ps, propName kv.1 ∧ plainText kv.2) (htail : endsNode tail) :
    maybeParseNode (';' :: propsText ps ++ tail)
      = .ok (some { props := storeProps [] ps }, tail) := by
  unfold maybeParseNode
  rw [List.cons_append, nextSgfChar_cons ';' _ (by decide)]
  simp only [bind, Except.bind, ne_eq, not_true_eq_false, if_false]
  rw [parseProperties_list ps {} tail _ hps htail
    (by have := propsText_length ps; simp; omega)]
  rfl

theorem movesText_length (n : Nat) (ms : List Move) :
    ms.length ≤ (ms.flatMap (moveText n)).length := by
  induction ms with
  | nil => simp
  | cons m ms ih =>
    simp only [List.flatMap_cons, List.length_append, List.length_cons, moveText]
    omega

/-- The tree read from the text of a game: one sequence of nodes, the root
node and a node for every move, and no variation. -/
theorem maybeParseSgf_game (n : Nat) (ps : List (List Char × List Char)) (ms : List Move)
    (fuel : Nat) (hn : n ≤ 19) (hps : ∀ kv ∈ ps, propName kv.1 ∧ plainText kv.2)
    (hms : ∀ m ∈ ms, gameMove n m) (hfuel : 3 ≤ fuel) :
    maybeParseSgf fuel ('(' :: ';' :: propsText ps ++ ms.flatMap (moveText n) ++ [')'])
      = .ok (some (Sgf.mk ({ props := storeProps [] ps } :: ms.map (nodeOfMove n)) []), []) := by
  obtain ⟨f, rfl⟩ : ∃ f, fuel = f + 1 + 1 + 1 := ⟨fuel - 3, by omega⟩
  rw [maybeParseSgf]
  rw [if_neg (by simp)]
  simp only [List.cons_append, nextSgfChar_cons '(' _ (by decide), bind, Except.bind, ne_eq,
    not_true_eq_false, if_false, List.append_assoc]
  obtain ⟨g, hg⟩ : ∃ g, (';' :: (propsText ps ++ (ms.flatMap (moveText n) ++ [')']))).length + 1
      = g + 1 ∧ ms.length < g := by
    refine ⟨(';' :: (propsText ps ++ (ms.flatMap (moveText n) ++ [')']))).length, rfl, ?_⟩
    have := movesText_length n ms
    simp only [List.length_cons, List.length_append]
    omega
  rw [hg.1, parseNodes]
  have hroot := maybeParseNode_root ps (ms.flatMap (moveText n) ++ [')']) hps
    (movesText_endsNode n ms [])
  simp only [List.cons_append] at hroot
  rw [hroot]
  simp only [bind, Except.bind]
  rw [parseNodes_moves n ms _ [] g hn hms hg.2]
  simp only [List.nil_append, List.singleton_append]
  rw [parseChildren, maybeParseSgf]
  rw [if_neg (by simp)]
  simp only [nextSgfChar_cons ')' _ (by decide), bind, Except.bind, ne_eq]
  rfl


theorem printGameResult_eq (E : Externals) (hist : BoardHistory) (hw : hist.winner ≠ .wall) :
    WriteSgf.printGameResult E hist = .ok (propsText (resultProps E hist)) := by
  unfold WriteSgf.printGameResult resultProps
  cases hist.isGameFinished with
  | false => rfl
  | true =>
    simp only [if_true]
    have hbody : (if hist.isNoResult = true then Except.ok "Void".toList
        else if hist.isResignation = true ∧ hist.winner = .black then .ok "B+R".toList
        else if hist.isResignation = true ∧ hist.winner = .white then .ok "W+R".toList
        else if hist.winner = .black then
          .ok ("B+".toList ++ E.showFloat (-hist.finalWhiteMinusBlackScore))
        else if hist.winner = .white then
          .ok ("W+".toList ++ E.showFloat hist.finalWhiteMinusBlackScore)
        else if hist.winner = .empty then .ok ['0']
        else .error .assertionFailed : Except SgfError (List Char))
        = .ok (resultBody E hist) := by
      unfold resultBody
      split
      · rfl
      split
      · rfl
      split
      · rfl
      split
      · rfl
      split
      · rfl
      split
      · rfl
      · rename_i h1 h2 h3
        cases hwin : hist.winner with
        | empty => exact absurd hwin h3
        | black => exact absurd hwin h1
        | white => exact absurd hwin h2
        | wall => exact absurd hwin hw
    rw [hbody]
    simp [propsText, propText, bind, Except.bind, pure, Except.pure]

theorem countHandicap_empty (board : Board) (locs : List Loc) (st : Int × Bool)
    (hempty : ∀ loc, board.colors loc = .empty) : countHandicap board locs st = st := by
  induction locs generalizing st with
  | nil => rfl
  | cons loc locs ih =>
    obtain ⟨h, w⟩ := st
    rw [countHandicap, hempty loc]
    exact ih _

theorem writePlacements_empty (board : Board) (bSize : Int) (color : Color) (name : List Char)
    (locs : List Loc) (hasName : Bool) (hempty : ∀ loc, board.colors loc = .empty)
    (hc : color ≠ .empty) : writePlacements board bSize color name locs hasName = .ok [] := by
  induction locs generalizing hasName with
  | nil => rfl
  | cons loc locs ih =>
    rw [writePlacements, hempty loc, if_neg (fun h => hc h.symm)]
    exact ih _

theorem writeMoves_game (F : Formats) (n : Nat) (ms : List Move) (i : Nat) (hn : n < 26)
    (hms : ∀ m ∈ ms, gameMove n m) :
    writeMoves F n none ms i = .ok (ms.flatMap (moveText n)) := by
  induction ms generalizing i with
  | nil => rfl
  | cons m ms ih =>
    have hm := hms m (List.mem_cons_self _ _)
    rw [writeMoves, writeSgfLoc_gameLoc n m.loc hn hm.1,
      ih _ (fun m' h => hms m' (List.mem_cons_of_mem _ h))]
    simp only [bind, Except.bind, pure, Except.pure, List.flatMap_cons, moveText, propText]
    rcases hm.2 with h | h <;> rw [h] <;> simp

theorem writeSgf_game (E : Externals) (F : Formats) (n : Nat) (bName wName : List Char)
    (rules : Rules) (hist : BoardHistory) (hn : n < 26)
    (hx : hist.initialBoard.x_size = n) (hy : hist.initialBoard.y_size = n)
    (hempty : ∀ loc, hist.initialBoard.colors loc = .empty)
    (hms : ∀ m ∈ hist.moveHistory, gameMove n m) (hw : hist.winner ≠ .wall) :
    WriteSgf.writeSgf E F bName wName rules hist none
      = .ok (gameText E n bName wName rules hist) := by
  unfold WriteSgf.writeSgf gameText rootProps
  simp only [hx, hy, ne_eq, not_true_eq_false, if_false,
    countHandicap_empty _ _ _ hempty, printGameResult_eq E hist hw,
    writePlacements_empty _ _ _ _ _ _ hempty (by decide : Color.black ≠ Color.empty),
    writePlacements_empty _ _ _ _ _ _ hempty (by decide : Color.white ≠ Color.empty),
    writeMoves_game F n _ 0 hn hms, bind, Except.bind, pure, Except.pure]
  simp [propsText, propText]


theorem showInt_plain : ∀ n : Nat, n ≤ 19 →
    plainText (showInt n) ∧ textValue (showInt n) = showInt n := by
  intro n hn
  interval_cases n <;> (unfold plainText; decide)

theorem showBool_plain (b : Bool) : plainText (showBool b) := by
  cases b <;> (unfold plainText; decide)

theorem ruValue_plain (E : Externals) (rules : Rules)
    (hko : ∀ ko, plainText (E.writeKoRule ko))
    (hsc : ∀ sc, plainText (E.writeScoringRule sc)) : plainText (ruValue E rules) := by
  unfold ruValue
  refine plainText_append (plainText_append (plainText_append (plainText_append
    (plainText_append ?_ (hko _)) ?_) (hsc _)) ?_) (showBool_plain _)
  all_goals (unfold plainText; decide)

theorem resultBody_plain (E : Externals) (hist : BoardHistory)
    (hfloat : ∀ q, plainText (E.showFloat q)) : plainText (resultBody E hist) := by
  unfold resultBody
  split
  · unfold plainText; decide
  split
  · unfold plainText; decide
  split
  · unfold plainText; decide
  split
  · exact plainText_append (by unfold plainText; decide) (hfloat _)
  split
  · exact plainText_append (by unfold plainText; decide) (hfloat _)
  · unfold plainText; decide

theorem rootProps_ok (E : Externals) (n : Nat) (bName wName : List Char) (rules : Rules)
    (hist : BoardHistory) (hn : n ≤ 19) (hb : plainText bName) (hw : plainText wName)
    (hkm : plainText (E.showFloat rules.komi)) (hru : plainText (ruValue E rules))
    (hre : plainText (resultBody E hist)) :
    ∀ kv ∈ rootProps E n bName wName rules hist, propName kv.1 ∧ plainText kv.2 := by
  intro kv hkv
  unfold rootProps resultProps at hkv
  have hname : ∀ key ∈ ["FF".toList, "GM".toList, "SZ".toList, "PB".toList, "PW".toList,
      "HA".toList, "KM".toList, "RU".toList, "RE".toList], propName key := by
    unfold propName
    decide
  simp only [List.mem_append, List.mem_cons, List.mem_singleton, List.not_mem_nil,
    or_false] at hkv
  rcases hkv with (h | h | h | h | h | h | h | h) | h
  · subst h
    exact ⟨hname _ (by simp), by unfold plainText; decide⟩
  · subst h
    exact ⟨hname _ (by simp), by unfold plainText; decide⟩
  · subst h
    exact ⟨hname _ (by simp), (showInt_plain n hn).1⟩
  · subst h
    exact ⟨hname _ (by simp), hb⟩
  · subst h
    exact ⟨hname _ (by simp), hw⟩
  · subst h
    exact ⟨hname _ (by simp), by unfold plainText; decide⟩
  · subst h
    exact ⟨hname _ (by simp), hkm⟩
  · subst h
    exact ⟨hname _ (by simp), hru⟩
  · split at h
    · simp only [List.mem_singleton] at h
      subst h
      exact ⟨hname _ (by simp), hre⟩
    · cases h

theorem rootProps_lookup (E : Externals) (n : Nat) (bName wName : List Char) (rules : Rules)
    (hist : BoardHistory) :
    (storeProps [] (rootProps E n bName wName rules hist)).lookup "SZ".toList
        = some [textValue (showInt n)]
    ∧ (storeProps [] (rootProps E n bName wName rules hist)).lookup "KM".toList
        = some [textValue (E.showFloat rules.komi)]
    ∧ (storeProps [] (rootProps E n bName wName rules hist)).lookup "AB".toList = none
    ∧ (storeProps [] (rootProps E n bName wName rules hist)).lookup "AW".toList = none
    ∧ (storeProps [] (rootProps E n bName wName rules hist)).lookup "AE".toList = none
    ∧ (storeProps [] (rootProps E n bName wName rules hist)).lookup ['B'] = none
    ∧ (storeProps [] (rootProps E n bName wName rules hist)).lookup ['W'] = none := by
  unfold rootProps resultProps
  cases hist.isGameFinished <;> exact ⟨rfl, rfl, rfl, rfl, rfl, rfl, rfl⟩


theorem nodeOfMove_hasPlacements (n : Nat) (m : Move) :
    (nodeOfMove n m).hasPlacements = false := by
  rw [nodeOfMove_eta]
  rfl

theorem getMovesNodes_moves (n : Nat) (ms : List Move) (i : Nat) (acc : List Move)
    (hn1 : 1 ≤ n) (hn : n ≤ 19) (hms : ∀ m ∈ ms, gameMove n m) :
    getMovesNodes (ms.map (nodeOfMove n)) i acc n = .ok (acc ++ ms) := by
  induction ms generalizing i acc with
  | nil => simp [getMovesNodes]
  | cons m ms ih =>
    rw [List.map_cons, getMovesNodes, nodeOfMove_hasPlacements,
      if_neg (by simp),
      accumMoves_nodeOfMove n m acc hn1 hn (hms m (List.mem_cons_self _ _))]
    simp only [bind, Except.bind]
    rw [ih _ _ (fun m' h => hms m' (List.mem_cons_of_mem _ h))]
    simp

theorem getMoves_game (n : Nat) (root : SgfNode) (ms : List Move) (hn1 : 1 ≤ n) (hn : n ≤ 19)
    (hms : ∀ m ∈ ms, gameMove n m) (hmove : root.move.pla = .empty)
    (hB : root.props.lookup ['B'] = none) (hW : root.props.lookup ['W'] = none) :
    (Sgf.mk (root :: ms.map (nodeOfMove n)) []).getMoves n = .ok ms := by
  unfold Sgf.getMoves Sgf.getMovesHelper
  rw [Sgf.getMovesHelperFuel]
  have hroot : root.accumMoves [] n = .ok [] := by
    unfold SgfNode.accumMoves accumOwnMove
    rw [hB, hW, hmove]
    rfl
  simp only [Sgf.nodes, Sgf.children, checkNonEmpty, List.length_cons, bind, Except.bind,
    getMovesNodes, hroot, maxChildLoop]
  rw [if_neg (by omega), if_neg (by simp)]
  simp only [getMovesNodes_moves n ms _ [] hn1 hn hms, List.nil_append]


theorem parse_gameText (E : Externals) (n : Nat) (bName wName : List Char) (rules : Rules)
    (hist : BoardHistory) (k : Komi) (hn1 : 1 ≤ n) (hn : n ≤ 19) (hmax : (n : Int) ≤ E.MAX_LEN)
    (hms : ∀ m ∈ hist.moveHistory, gameMove n m)
    (hb : plainText bName) (hw : plainText wName)
    (hkm : plainText (E.showFloat rules.komi)) (hru : plainText (ruValue E rules))
    (hre : plainText (resultBody E hist))
    (hint : E.tryStringToInt (showInt n) = some (n : Int))
    (hkomi : E.tryStringToFloat (textValue (E.showFloat rules.komi)) = some k)
    (hhalf : Rules.komiIsIntOrHalfInt k = true) :
    CompactSgf.parse E (gameText E n bName wName rules hist)
      = .ok { rootNode := { props := storeProps [] (rootProps E n bName wName rules hist) },
              placements := [], moves := hist.moveHistory, bSize := n,
              depth := hist.moveHistory.length + 1, komi := k } := by
  have hps := rootProps_ok E n bName wName rules hist hn hb hw hkm hru hre
  obtain ⟨hSZ, hKM, hAB, hAW, hAE, hB, hW⟩ := rootProps_lookup E n bName wName rules hist
  unfold CompactSgf.parse Sgf.parse
  rw [gameText, maybeParseSgf_game n _ _ _ hn hps hms
    (by simp only [List.cons_append, List.length_cons]; omega)]
  simp only [bind, Except.bind, Sgf.nodes, List.length_cons, Nat.add_one_ne_zero, if_false,
    pure, Except.pure]
  unfold CompactSgf.ofSgf
  have hsize : Sgf.getBSize E (Sgf.mk ({ props := storeProps [] (rootProps E n bName wName
      rules hist) } :: hist.moveHistory.map (nodeOfMove n)) []) = .ok (n : Int) := by
    unfold Sgf.getBSize
    simp only [Sgf.nodes, SgfNode.hasProperty, Props.contains, hSZ, Option.isSome_some,
      Bool.not_true, Bool.false_eq_true, if_false, SgfNode.getSingleProperty, bind, Except.bind,
      (showInt_plain n hn).2, hint]
    rw [if_neg (by omega), if_neg (by omega)]
  have hk : Sgf.getKomi E (Sgf.mk ({ props := storeProps [] (rootProps E n bName wName
      rules hist) } :: hist.moveHistory.map (nodeOfMove n)) []) = .ok k := by
    unfold Sgf.getKomi
    simp only [Sgf.nodes, SgfNode.getSingleProperty, hKM, bind, Except.bind, komiOfValue, hkomi,
      hhalf, Bool.not_true, Bool.false_eq_true, if_false]
  have hpl : Sgf.getPlacements (Sgf.mk ({ props := storeProps [] (rootProps E n bName wName
      rules hist) } :: hist.moveHistory.map (nodeOfMove n)) []) n = .ok [] := by
    unfold Sgf.getPlacements SgfNode.accumPlacements
    simp only [Sgf.nodes, hAB, hAW, hAE, bind, Except.bind]
  have hmv := getMoves_game n { props := storeProps [] (rootProps E n bName wName rules hist) }
    hist.moveHistory hn1 hn hms rfl hB hW
  have hdepth : Sgf.depth (Sgf.mk ({ props := storeProps [] (rootProps E n bName wName
      rules hist) } :: hist.moveHistory.map (nodeOfMove n)) [])
      = hist.moveHistory.length + 1 := by
    rw [Sgf.depth, Sgf.depthLoop]
    simp
  simp only [hsize, hk, hpl, hmv, hdepth, bind, Except.bind, Sgf.nodes, pure, Except.pure]

/-- C2, amended. Write/read round trip of a game on a board of size `n` with
`1 ≤ n ≤ 19` (and `n ≤ Board::MAX_LEN`, as for every board): for an empty
initial board, a move history of passes and points of the board played by
Black or White, player names with neither `]` nor a backslash, no game data,
and a winner field that is a colour of the game, `writeSgf` writes a text and
`CompactSgf::parse` applied to it succeeds with `bSize = n`, the move list
equal to the move history and the komi read from the `KM` value. The parts
of the program that are not in `sgf.cpp` enter as follows: the texts written
for the komi, the rules and the result have neither `]` nor a backslash,
`tryStringToInt` reads the numeral of `n` as `n`, and `tryStringToFloat` reads
the text written for the komi as an integer or half-integer `k`. -/
theorem writeSgf_parse_roundtrip (E : Externals) (F : Formats) (n : Nat)
    (bName wName : List Char) (rules : Rules) (hist : BoardHistory) (k : Komi)
    (hn1 : 1 ≤ n) (hn : n ≤ 19) (hmax : (n : Int) ≤ E.MAX_LEN)
    (hx : hist.initialBoard.x_size = n) (hy : hist.initialBoard.y_size = n)
    (hempty : ∀ loc, hist.initialBoard.colors loc = .empty)
    (hms : ∀ m ∈ hist.moveHistory, gameMove n m)
    (hwin : hist.winner ≠ .wall)
    (hb : plainText bName) (hw : plainText wName)
    (hkm : plainText (E.showFloat rules.komi)) (hru : plainText (ruValue E rules))
    (hre : plainText (resultBody E hist))
    (hint : E.tryStringToInt (showInt n) = some (n : Int))
    (hkomi : E.tryStringToFloat (textValue (E.showFloat rules.komi)) = some k)
    (hhalf : Rules.komiIsIntOrHalfInt k = true) :
    ∃ text c, WriteSgf.writeSgf E F bName wName rules hist none = .ok text
      ∧ CompactSgf.parse E text = .ok c
      ∧ c.bSize = n ∧ c.moves = hist.moveHistory ∧ c.komi = k :=
  ⟨gameText E n bName wName rules hist, _,
    writeSgf_game E F n bName wName rules hist (by omega) hx hy hempty hms hwin,
    parse_gameText E n bName wName rules hist k hn1 hn hmax hms hb hw hkm hru hre hint hkomi
      hhalf,
    rfl, rfl, rfl⟩


/-- C2 fails on the board of size 0: for the empty 0x0 board, no move, the
names `b` and `w` and the komi 7.5, `writeSgf` writes `SZ[0]`, and
`CompactSgf::parse` applied to the text throws "Board size in sgf is <= 0"
(the guard of `getBSize`, sgf.cpp 272). -/
theorem writeSgf_parse_size_zero :
    WriteSgf.writeSgf sampleExternals sampleFormats ['b'] ['w'] ⟨.simple, .area, false, 15 / 2⟩
        (sampleHistory 0 []) none
      = .ok "(;FF[4]GM[1]SZ[0]PB[b]PW[w]HA[0]KM[7.5]RU[koSIMPLEscoreAREAsui0])".toList
    ∧ CompactSgf.parse sampleExternals
        "(;FF[4]GM[1]SZ[0]PB[b]PW[w]HA[0]KM[7.5]RU[koSIMPLEscoreAREAsui0])".toList
      = .error .boardSizeNonPositive := by
  constructor
  · with_unfolding_all decide
  · decide

/-- C2, amended, on a 9x9 game of three moves, a pass among them, with the
komi 7.5. -/
theorem writeSgf_parse_roundtrip_witness :
    ∃ text c, WriteSgf.writeSgf sampleExternals sampleFormats ['b'] ['w']
        ⟨.simple, .area, false, 15 / 2⟩
        (sampleHistory 9 [⟨Location.getLoc 2 3 9, .black⟩, ⟨Board.PASS_LOC, .white⟩,
          ⟨Location.getLoc 8 8 9, .black⟩]) none = .ok text
      ∧ CompactSgf.parse sampleExternals text = .ok c
      ∧ c.bSize = (9 : Nat)
      ∧ c.moves = (sampleHistory 9 [⟨Location.getLoc 2 3 9, .black⟩, ⟨Board.PASS_LOC, .white⟩,
          ⟨Location.getLoc 8 8 9, .black⟩]).moveHistory
      ∧ c.komi = 15 / 2 :=
  writeSgf_parse_roundtrip sampleExternals sampleFormats 9 ['b'] ['w']
    ⟨.simple, .area, false, 15 / 2⟩
    (sampleHistory 9 [⟨Location.getLoc 2 3 9, .black⟩, ⟨Board.PASS_LOC, .white⟩,
      ⟨Location.getLoc 8 8 9, .black⟩]) (15 / 2)
    (by decide) (by decide) (by decide) rfl rfl (fun _ => rfl)
    (by
      intro m hm
      simp only [sampleHistory, List.mem_cons, List.mem_singleton, List.not_mem_nil,
        or_false] at hm
      rcases hm with rfl | rfl | rfl
      · exact ⟨Or.inr ⟨2, 3, by decide, by decide, rfl⟩, Or.inl rfl⟩
      · exact ⟨Or.inl rfl, Or.inr rfl⟩
      · exact ⟨Or.inr ⟨8, 8, by decide, by decide, rfl⟩, Or.inl rfl⟩)
    (by decide)
    (by unfold plainText; decide) (by unfold plainText; decide)
    (by unfold plainText; with_unfolding_all decide)
    (by unfold plainText; decide)
    (by unfold plainText; decide)
    (by decide)
    (by with_unfolding_all decide)
    (by with_unfolding_all decide)

/-! ## The recursion bounds of the parser are never reached -/

theorem nextSgfChar_spec (s : List Char) :
    nextSgfChar s ≠ .error .outOfFuel
    ∧ ∀ c r, nextSgfChar s = .ok (c, r) → r.length < s.length := by
  induction s with
  | nil =>
    rw [nextSgfChar]
    exact ⟨by simp, fun c r h => by cases h⟩
  | cons a s ih =>
    rw [nextSgfChar]
    by_cases hw : Global.isWhitespace a = true
    · rw [if_pos hw]
      refine ⟨ih.1, fun c r h => ?_⟩
      have := ih.2 c r h
      simp only [List.length_cons]
      omega
    · rw [if_neg hw]
      refine ⟨by simp, fun c r h => ?_⟩
      cases h
      simp

theorem parseTextValueLoop_spec (st : TextState) (acc s : List Char) :
    parseTextValueLoop st acc s ≠ .error .outOfFuel
    ∧ ∀ v r, parseTextValueLoop st acc s = .ok (v, r) → r.length ≤ s.length := by
  induction s generalizing st acc with
  | nil =>
    rw [parseTextValueLoop]
    exact ⟨by simp, fun v r h => by cases h⟩
  | cons c s ih =>
    rw [parseTextValueLoop]
    have step : ∀ st2 acc2,
        parseTextValueLoop st2 acc2 s ≠ .error .outOfFuel
        ∧ ∀ v r, parseTextValueLoop st2 acc2 s = .ok (v, r) → r.length ≤ (c :: s).length := by
      intro st2 acc2
      refine ⟨(ih st2 acc2).1, fun v r h => ?_⟩
      have := (ih st2 acc2).2 v r h
      simp only [List.length_cons]
      omega
    split
    · exact step _ _
    · simp only
      split
      · refine ⟨by simp, fun v r h => ?_⟩
        cases h
        simp
      · split
        · exact step _ _
        · split
          · exact step _ _
          · split
            · exact step _ _
            · exact step _ _

theorem scanKey_spec (s : List Char) :
    scanKey s ≠ .error .outOfFuel
    ∧ ∀ key r, scanKey s = .ok (key, r) → key.length + r.length = s.length := by
  induction s with
  | nil =>
    rw [scanKey]
    exact ⟨by simp, fun key r h => by cases h⟩
  | cons c s ih =>
    rw [scanKey]
    split
    · constructor
      · intro h
        rcases (bind_error_iff _ _ _).mp h with h1 | ⟨⟨key, r⟩, _, h2⟩
        · exact ih.1 h1
        · cases h2
      · intro key r h
        obtain ⟨⟨key2, r2⟩, h1, h2⟩ := (bind_ok_iff _ _ _).mp h
        have := ih.2 key2 r2 h1
        cases h2
        simp only [List.length_cons]
        omega
    · refine ⟨by simp, fun key r h => ?_⟩
      cases h
      simp

theorem moveOfValue_ne_outOfFuel (txt : List Char) (pla : Player) :
    moveOfValue txt pla ≠ .error .outOfFuel := by
  intro h
  unfold moveOfValue at h
  rcases (bind_error_iff _ _ _).mp h with h1 | ⟨loc, _, h2⟩
  · cases parseSgfLocOrPass_error _ _ _ h1
  · split at h2 <;> cases h2

theorem storeValue_ne_outOfFuel (node : SgfNode) (key txt : List Char) :
    storeValue node key txt ≠ .error .outOfFuel := by
  intro h
  unfold storeValue at h
  split at h
  · rcases (bind_error_iff _ _ _).mp h with h1 | ⟨mv, _, h2⟩
    · exact moveOfValue_ne_outOfFuel _ _ h1
    · cases h2
  · split at h
    · rcases (bind_error_iff _ _ _).mp h with h1 | ⟨mv, _, h2⟩
      · exact moveOfValue_ne_outOfFuel _ _ h1
      · cases h2
    · cases h

theorem parseValues_succ (fuel : Nat) (node : SgfNode) (key : List Char) (p : Bool)
    (s : List Char) :
    parseValues (fuel + 1) node key p s
      = (nextSgfChar s >>= fun cr =>
          if cr.1 ≠ '[' then pure (node, p, cr.1 :: cr.2)
          else parseTextValue cr.2 >>= fun tr =>
            storeValue node key tr.1 >>= fun node2 =>
              nextSgfChar tr.2 >>= fun cr2 =>
                if cr2.1 ≠ ']' then .error .expectedClosingBracket
                else parseValues fuel node2 key true cr2.2) := by
  rw [parseValues]
  cases nextSgfChar s with
  | error e => rfl
  | ok cr =>
    obtain ⟨c, r⟩ := cr
    simp only [bind, Except.bind]
    by_cases hc : c ≠ '['
    · rw [if_pos hc, if_pos hc]
    · rw [if_neg hc, if_neg hc]
      unfold storeValue
      cases parseTextValue r with
      | error e =>
        by_cases hB : node.move.pla = .empty ∧ key = ['B']
        · rw [if_pos hB]
        · rw [if_neg hB]
          by_cases hW : node.move.pla = .empty ∧ key = ['W']
          · rw [if_pos hW]
          · rw [if_neg hW]
      | ok tr =>
        obtain ⟨txt, r2⟩ := tr
        simp only
        by_cases hB : node.move.pla = .empty ∧ key = ['B']
        · rw [if_pos hB, if_pos hB]
          cases moveOfValue txt .black <;> rfl
        · rw [if_neg hB, if_neg hB]
          by_cases hW : node.move.pla = .empty ∧ key = ['W']
          · rw [if_pos hW, if_pos hW]
            cases moveOfValue txt .white <;> rfl
          · rw [if_neg hW, if_neg hW]
            rfl

theorem parseValues_spec (fuel : Nat) (node : SgfNode) (key : List Char) (p : Bool)
    (s : List Char) (hfuel : s.length < fuel) :
    parseValues fuel node key p s ≠ .error .outOfFuel
    ∧ ∀ node2 p2 r, parseValues fuel node key p s = .ok (node2, p2, r) →
        r.length ≤ s.length := by
  induction fuel generalizing node p s with
  | zero => omega
  | succ fuel ih =>
    rw [parseValues_succ]
    constructor
    · intro h
      rcases (bind_error_iff _ _ _).mp h with h1 | ⟨⟨c, r1⟩, h1, h⟩
      · exact (nextSgfChar_spec s).1 h1
      have hr1 := (nextSgfChar_spec s).2 c r1 h1
      simp only at h
      split at h
      · cases h
      rcases (bind_error_iff _ _ _).mp h with h2 | ⟨⟨txt, r2⟩, h2, h⟩
      · exact (parseTextValueLoop_spec _ _ _).1 h2
      have hr2 := (parseTextValueLoop_spec _ _ _).2 txt r2 h2
      rcases (bind_error_iff _ _ _).mp h with h3 | ⟨nd, _, h⟩
      · exact storeValue_ne_outOfFuel _ _ _ h3
      rcases (bind_error_iff _ _ _).mp h with h4 | ⟨⟨c2, r3⟩, h4, h⟩
      · exact (nextSgfChar_spec _).1 h4
      have hr3 := (nextSgfChar_spec _).2 c2 r3 h4
      simp only at h hr3 hr2
      split at h
      · cases h
      · exact (ih nd true r3 (by omega)).1 h
    · intro node2 p2 r h
      obtain ⟨⟨c, r1⟩, h1, h⟩ := (bind_ok_iff _ _ _).mp h
      have hr1 := (nextSgfChar_spec s).2 c r1 h1
      simp only at h
      split at h
      · cases h
        simp only [List.length_cons]
        omega
      obtain ⟨⟨txt, r2⟩, h2, h⟩ := (bind_ok_iff _ _ _).mp h
      have hr2 := (parseTextValueLoop_spec _ _ _).2 txt r2 h2
      obtain ⟨nd, _, h⟩ := (bind_ok_iff _ _ _).mp h
      obtain ⟨⟨c2, r3⟩, h4, h⟩ := (bind_ok_iff _ _ _).mp h
      have hr3 := (nextSgfChar_spec _).2 c2 r3 h4
      simp only at h hr3 hr2
      split at h
      · cases h
      · have := (ih nd true r3 (by omega)).2 node2 p2 r h
        omega

theorem maybeParseProperty_spec (node : SgfNode) (s : List Char) :
    maybeParseProperty node s ≠ .error .outOfFuel
    ∧ ∀ suc node2 r, maybeParseProperty node s = .ok (suc, node2, r) →
        r.length ≤ s.length ∧ (suc = true → r.length < s.length) := by
  unfold maybeParseProperty
  constructor
  · intro h
    rcases (bind_error_iff _ _ _).mp h with h1 | ⟨⟨key, r1⟩, h1, h⟩
    · exact (scanKey_spec s).1 h1
    simp only at h
    split at h
    · cases h
    rcases (bind_error_iff _ _ _).mp h with h2 | ⟨⟨nd, p2, r2⟩, h2, h⟩
    · exact (parseValues_spec _ _ _ _ _ (Nat.lt_succ_self _)).1 h2
    simp only at h
    split at h <;> cases h
  · intro suc node2 r h
    obtain ⟨⟨key, r1⟩, h1, h⟩ := (bind_ok_iff _ _ _).mp h
    have hk := (scanKey_spec s).2 key r1 h1
    simp only at h
    split at h
    · cases h
      exact ⟨by omega, fun h => by cases h⟩
    · rename_i hlen
      obtain ⟨⟨nd, p2, r2⟩, h2, h⟩ := (bind_ok_iff _ _ _).mp h
      have hr2 := (parseValues_spec _ _ _ _ _ (Nat.lt_succ_self _)).2 nd p2 r2 h2
      simp only at h
      split at h
      · cases h
      · cases h
        exact ⟨by omega, fun _ => by omega⟩

theorem parseProperties_spec (fuel : Nat) (node : SgfNode) (s : List Char)
    (hfuel : s.length < fuel) :
    parseProperties fuel node s ≠ .error .outOfFuel
    ∧ ∀ node2 r, parseProperties fuel node s = .ok (node2, r) → r.length ≤ s.length := by
  induction fuel generalizing node s with
  | zero => omega
  | succ fuel ih =>
    rw [parseProperties]
    constructor
    · intro h
      rcases (bind_error_iff _ _ _).mp h with h1 | ⟨⟨suc, nd, r1⟩, h1, h⟩
      · exact (maybeParseProperty_spec node s).1 h1
      have hr1 := (maybeParseProperty_spec node s).2 suc nd r1 h1
      simp only at h
      cases suc with
      | false => cases h
      | true => exact (ih nd r1 (by have := hr1.2 rfl; omega)).1 h
    · intro node2 r h
      obtain ⟨⟨suc, nd, r1⟩, h1, h⟩ := (bind_ok_iff _ _ _).mp h
      have hr1 := (maybeParseProperty_spec node s).2 suc nd r1 h1
      simp only at h
      cases suc with
      | false =>
        cases h
        exact hr1.1
      | true =>
        have := (ih nd r1 (by have := hr1.2 rfl; omega)).2 node2 r h
        omega

theorem maybeParseNode_spec (s : List Char) :
    maybeParseNode s ≠ .error .outOfFuel
    ∧ ∀ node r, maybeParseNode s = .ok (node, r) →
        r.length ≤ s.length ∧ (node ≠ none → r.length < s.length) := by
  unfold maybeParseNode
  constructor
  · intro h
    rcases (bind_error_iff _ _ _).mp h with h1 | ⟨⟨c, r1⟩, h1, h⟩
    · exact (nextSgfChar_spec s).1 h1
    simp only at h
    split at h
    · cases h
    rcases (bind_error_iff _ _ _).mp h with h2 | ⟨⟨nd, r2⟩, h2, h⟩
    · exact (parseProperties_spec _ _ _ (Nat.lt_succ_self _)).1 h2
    · cases h
  · intro node r h
    obtain ⟨⟨c, r1⟩, h1, h⟩ := (bind_ok_iff _ _ _).mp h
    have hr1 := (nextSgfChar_spec s).2 c r1 h1
    simp only at h
    split at h
    · cases h
      exact ⟨by simp only [List.length_cons]; omega, fun h => absurd rfl h⟩
    · obtain ⟨⟨nd, r2⟩, h2, h⟩ := (bind_ok_iff _ _ _).mp h
      have hr2 := (parseProperties_spec _ _ _ (Nat.lt_succ_self _)).2 nd r2 h2
      cases h
      simp only at hr2 ⊢
      exact ⟨by omega, fun _ => by omega⟩

theorem parseNodes_spec (fuel : Nat) (nodes : List SgfNode) (s : List Char)
    (hfuel : s.length < fuel) :
    parseNodes fuel nodes s ≠ .error .outOfFuel
    ∧ ∀ nodes2 r, parseNodes fuel nodes s = .ok (nodes2, r) → r.length ≤ s.length := by
  induction fuel generalizing nodes s with
  | zero => omega
  | succ fuel ih =>
    rw [parseNodes]
    constructor
    · intro h
      rcases (bind_error_iff _ _ _).mp h with h1 | ⟨⟨nd, r1⟩, h1, h⟩
      · exact (maybeParseNode_spec s).1 h1
      have hr1 := (maybeParseNode_spec s).2 nd r1 h1
      simp only at h
      cases nd with
      | none => cases h
      | some nd => exact (ih _ r1 (by have := hr1.2 (by simp); omega)).1 h
    · intro nodes2 r h
      obtain ⟨⟨nd, r1⟩, h1, h⟩ := (bind_ok_iff _ _ _).mp h
      have hr1 := (maybeParseNode_spec s).2 nd r1 h1
      simp only at h
      cases nd with
      | none =>
        cases h
        exact hr1.1
      | some nd =>
        have := (ih _ r1 (by have := hr1.2 (by simp); omega)).2 nodes2 r h
        omega

theorem maybeParseSgf_parseChildren_spec (fuel : Nat) :
    (∀ s : List Char, 2 * s.length < fuel →
      maybeParseSgf fuel s ≠ .error .outOfFuel
      ∧ ∀ t r, maybeParseSgf fuel s = .ok (t, r) →
          r.length ≤ s.length ∧ (t ≠ none → r.length + 2 ≤ s.length))
    ∧ (∀ (children : List Sgf) (s : List Char), 2 * s.length + 1 < fuel →
      parseChildren fuel children s ≠ .error .outOfFuel
      ∧ ∀ children2 r, parseChildren fuel children s = .ok (children2, r) →
          r.length ≤ s.length) := by
  induction fuel with
  | zero => exact ⟨fun s h => by omega, fun c s h => by omega⟩
  | succ fuel ih =>
    constructor
    · intro s hfuel
      rw [maybeParseSgf]
      by_cases hlen : s.length = 0
      · rw [if_pos hlen]
        refine ⟨by simp, fun t r h => ?_⟩
        cases h
        exact ⟨Nat.le_refl _, fun h => absurd rfl h⟩
      rw [if_neg hlen]
      constructor
      · intro h
        rcases (bind_error_iff _ _ _).mp h with h1 | ⟨⟨c, r1⟩, h1, h⟩
        · exact (nextSgfChar_spec s).1 h1
        have hr1 := (nextSgfChar_spec s).2 c r1 h1
        simp only at h
        split at h
        · cases h
        rcases (bind_error_iff _ _ _).mp h with h2 | ⟨⟨nodes, r2⟩, h2, h⟩
        · exact (parseNodes_spec _ _ _ (Nat.lt_succ_self _)).1 h2
        have hr2 := (parseNodes_spec _ _ _ (Nat.lt_succ_self _)).2 nodes r2 h2
        simp only at h hr2
        rcases (bind_error_iff _ _ _).mp h with h3 | ⟨⟨children, r3⟩, h3, h⟩
        · exact (ih.2 [] r2 (by omega)).1 h3
        rcases (bind_error_iff _ _ _).mp h with h4 | ⟨⟨c4, r4⟩, h4, h⟩
        · exact (nextSgfChar_spec _).1 h4
        simp only at h
        split at h <;> cases h
      · intro t r h
        obtain ⟨⟨c, r1⟩, h1, h⟩ := (bind_ok_iff _ _ _).mp h
        have hr1 := (nextSgfChar_spec s).2 c r1 h1
        simp only at h
        split at h
        · cases h
          exact ⟨by simp only [List.length_cons]; omega, fun h => absurd rfl h⟩
        obtain ⟨⟨nodes, r2⟩, h2, h⟩ := (bind_ok_iff _ _ _).mp h
        have hr2 := (parseNodes_spec _ _ _ (Nat.lt_succ_self _)).2 nodes r2 h2
        simp only at h hr2
        obtain ⟨⟨children, r3⟩, h3, h⟩ := (bind_ok_iff _ _ _).mp h
        have hr3 := (ih.2 [] r2 (by omega)).2 children r3 h3
        obtain ⟨⟨c4, r4⟩, h4, h⟩ := (bind_ok_iff _ _ _).mp h
        have hr4 := (nextSgfChar_spec _).2 c4 r4 h4
        simp only at h hr4
        split at h
        · cases h
        · cases h
          exact ⟨by omega, fun _ => by omega⟩
    · intro children s hfuel
      rw [parseChildren]
      constructor
      · intro h
        rcases (bind_error_iff _ _ _).mp h with h1 | ⟨⟨t, r1⟩, h1, h⟩
        · exact (ih.1 s (by omega)).1 h1
        have hr1 := (ih.1 s (by omega)).2 t r1 h1
        simp only at h
        cases t with
        | none => cases h
        | some t => exact (ih.2 _ r1 (by have := hr1.2 (by simp); omega)).1 h
      · intro children2 r h
        obtain ⟨⟨t, r1⟩, h1, h⟩ := (bind_ok_iff _ _ _).mp h
        have hr1 := (ih.1 s (by omega)).2 t r1 h1
        simp only at h
        cases t with
        | none =>
          cases h
          exact hr1.1
        | some t =>
          have := (ih.2 _ r1 (by have := hr1.2 (by simp); omega)).2 children2 r h
          omega

/-- The recursion bounds of the embedding of the parser are never what stops
`Sgf::parse`. -/
theorem parse_fuel (str : List Char) : Sgf.parse str ≠ .error .outOfFuel := by
  intro h
  unfold Sgf.parse at h
  rcases (bind_error_iff _ _ _).mp h with h1 | ⟨⟨t, r⟩, _, h⟩
  · exact ((maybeParseSgf_parseChildren_spec _).1 str (by omega)).1 h1
  · simp only at h
    cases t with
    | none => cases h
    | some t =>
      simp only at h
      split at h <;> cases h

/-! ## Further facts about the claims that the code breaks -/

theorem nextSgfChar_mem (s : List Char) (c : Char) (r : List Char)
    (h : nextSgfChar s = .ok (c, r)) : c ∈ s := by
  induction s with
  | nil =>
    rw [nextSgfChar] at h
    cases h
  | cons a s ih =>
    rw [nextSgfChar] at h
    split at h
    · exact List.mem_cons_of_mem _ (ih h)
    · cases h
      exact List.mem_cons_self _ _

theorem nextSgfChar_error (s : List Char) (e : SgfError) (h : nextSgfChar s = .error e) :
    e = .unexpectedEnd := by
  induction s with
  | nil =>
    rw [nextSgfChar] at h
    cases h
    rfl
  | cons a s ih =>
    rw [nextSgfChar] at h
    split at h
    · exact ih h
    · cases h

/-- A text without an opening parenthesis never makes `Sgf::parse` throw
"Empty sgf": either it is white space only and `nextSgfChar` throws
"Unexpected end of str", or `maybeParseSgf` returns the null pointer and the
hash is written through it. -/
theorem parse_no_paren (str : List Char) (h : ∀ c ∈ str, c ≠ '(') :
    Sgf.parse str = .error .nullDereference ∨ Sgf.parse str = .error .unexpectedEnd := by
  unfold Sgf.parse
  rw [maybeParseSgf]
  by_cases hlen : str.length = 0
  · rw [if_pos hlen]
    exact Or.inl rfl
  · rw [if_neg hlen]
    cases hn : nextSgfChar str with
    | error e =>
      rw [nextSgfChar_error str e hn]
      exact Or.inr rfl
    | ok cr =>
      obtain ⟨c, r⟩ := cr
      have hc := h c (nextSgfChar_mem str c r hn)
      simp only [bind, Except.bind, ne_eq, hc, not_false_eq_true, if_true]
      exact Or.inl rfl

/-- The rule-set names that `getRules` compares correctly are read in any
letter case as C9 states, with the komi of the defaults. -/
theorem getRules_named (node : SgfNode) (defaults : Rules) (v : List Char)
    (h : node.props.lookup "RU".toList = some [v]) :
    (Global.toLower v = "chinese".toList →
      node.getRules defaults = .ok ⟨.simple, .area, false, defaults.komi⟩)
    ∧ (Global.toLower v = "aga".toList →
      node.getRules defaults = .ok ⟨.situational, .area, false, defaults.komi⟩)
    ∧ (Global.toLower v = "nz".toList →
      node.getRules defaults = .ok ⟨.situational, .area, true, defaults.komi⟩)
    ∧ (Global.toLower v = "tromp-taylor".toList ∨ Global.toLower v = "tromp taylor".toList
        ∨ Global.toLower v = "tromptaylor".toList →
      node.getRules defaults = .ok ⟨.positional, .area, true, defaults.komi⟩) := by
  rw [getRules_of_single node defaults v h]
  refine ⟨?_, ?_, ?_, ?_⟩
  · intro hv
    rw [hv]
    rfl
  · intro hv
    rw [hv]
    rfl
  · intro hv
    rw [hv]
    rfl
  · rintro (hv | hv | hv) <;> rw [hv] <;> rfl

/-! ## The size of the board of a game record -/

theorem getBSize_cons (E : Externals) (root : SgfNode) (rest : List SgfNode)
    (children : List Sgf) :
    (Sgf.mk (root :: rest) children).getBSize E =
      match root.props.lookup "SZ".toList with
      | none => .ok 19
      | some [v] =>
        match E.tryStringToInt v with
        | none => .error .couldNotParseBoardSize
        | some bSize =>
          if bSize ≤ 0 then .error .boardSizeNonPositive
          else if bSize > E.MAX_LEN then .error .boardSizeTooLarge
          else .ok bSize
      | some _ => .error .notSingleton := by
  unfold Sgf.getBSize
  simp only [Sgf.nodes, SgfNode.hasProperty, Props.contains, SgfNode.getSingleProperty]
  cases h : root.props.lookup "SZ".toList with
  | none => rfl
  | some prop =>
    match prop with
    | [] => rfl
    | [v] => rfl
    | _ :: _ :: _ => rfl

/-- C11. For a game record with a root node, `Sgf::getBSize` returns 19 when
the root node has no `SZ` property; when it has one, it returns `n` exactly
when `SZ` has a single value, `tryStringToInt` reads that value as `n`, and
`1 ≤ n ≤ MAX_LEN`, and it fails for every other content of `SZ`. Every value
it returns lies between 1 and the greater of 19 and `MAX_LEN`. -/
theorem getBSize_spec (E : Externals) (root : SgfNode) (rest : List SgfNode)
    (children : List Sgf) :
    (root.props.lookup "SZ".toList = none →
        (Sgf.mk (root :: rest) children).getBSize E = .ok 19)
    ∧ (root.props.lookup "SZ".toList ≠ none →
        ∀ n : Int, (Sgf.mk (root :: rest) children).getBSize E = .ok n ↔
          ∃ v, root.props.lookup "SZ".toList = some [v] ∧ E.tryStringToInt v = some n
            ∧ 1 ≤ n ∧ n ≤ E.MAX_LEN)
    ∧ (root.props.lookup "SZ".toList ≠ none →
        (¬ ∃ (n : Int) (v : List Char), root.props.lookup "SZ".toList = some [v]
            ∧ E.tryStringToInt v = some n ∧ 1 ≤ n ∧ n ≤ E.MAX_LEN) →
        failed ((Sgf.mk (root :: rest) children).getBSize E) = true)
    ∧ (∀ n : Int, (Sgf.mk (root :: rest) children).getBSize E = .ok n →
        1 ≤ n ∧ n ≤ max 19 E.MAX_LEN) := by
  have key : root.props.lookup "SZ".toList ≠ none →
      ∀ n : Int, (Sgf.mk (root :: rest) children).getBSize E = .ok n ↔
        ∃ v, root.props.lookup "SZ".toList = some [v] ∧ E.tryStringToInt v = some n
          ∧ 1 ≤ n ∧ n ≤ E.MAX_LEN := by
    intro hsz n
    rw [getBSize_cons]
    cases h : root.props.lookup "SZ".toList with
    | none => exact absurd h hsz
    | some prop =>
      match prop with
      | [] => simp
      | _ :: _ :: _ => simp
      | [v] =>
        simp only [Option.some.injEq, List.cons.injEq, and_true, exists_eq_left']
        cases hi : E.tryStringToInt v with
        | none => simp
        | some b =>
          simp only [Option.some.injEq]
          by_cases h0 : b ≤ 0
          · rw [if_pos h0]
            constructor
            · intro hc
              cases hc
            · rintro ⟨rfl, h1, _⟩
              omega
          · rw [if_neg h0]
            by_cases h1 : b > E.MAX_LEN
            · rw [if_pos h1]
              constructor
              · intro hc
                cases hc
              · rintro ⟨rfl, _, h2⟩
                omega
            · rw [if_neg h1]
              constructor
              · intro hc
                cases hc
                exact ⟨rfl, by omega, by omega⟩
              · rintro ⟨rfl, _, _⟩
                rfl
  refine ⟨?_, key, ?_, ?_⟩
  · intro hsz
    rw [getBSize_cons, hsz]
  · intro hsz hno
    cases hr : (Sgf.mk (root :: rest) children).getBSize E with
    | error e => rfl
    | ok n =>
      obtain ⟨v, h⟩ := (key hsz n).mp hr
      exact absurd ⟨n, v, h⟩ hno
  · intro n hr
    by_cases hsz : root.props.lookup "SZ".toList = none
    · rw [getBSize_cons, hsz] at hr
      cases hr
      exact ⟨by decide, le_max_left _ _⟩
    · obtain ⟨v, _, _, h1, h2⟩ := (key hsz n).mp hr
      exact ⟨h1, le_trans h2 (le_max_right _ _)⟩

/-! ## The GTP engine: the commands known and the commands handled -/

theorem num_in_range_iff (k : Num) (lo hi : ℚ) :
    ¬ (k.isnan = true ∨ k.lt lo = true ∨ k.gt hi = true) ↔ ∃ q, k = .fin q ∧ lo ≤ q ∧ q ≤ hi := by
  cases k with
  | nan => simp [Num.isnan]
  | negInf => simp [Num.isnan, Num.lt]
  | posInf => simp [Num.isnan, Num.lt, Num.gt]
  | fin q => simp [Num.isnan, Num.lt, Num.gt]

theorem updateKomiIfNew_unhackedKomi {B H : Type} (L : GtpLib B H) (bot : Bot B H)
    (cfg : GtpConfig) (st : GtpState B H) :
    (updateKomiIfNew L bot cfg st).unhackedKomi = st.unhackedKomi := by
  unfold updateKomiIfNew
  simp only [GtpState.call]
  split <;> rfl

theorem updateKomiIfNew_calls {B H : Type} (L : GtpLib B H) (bot : Bot B H)
    (cfg : GtpConfig) (st : GtpState B H) :
    (updateKomiIfNew L bot cfg st).calls = st.calls ++ [.setKomiIfNew (st.unhackedKomi
      + numHandicapStones L (bot.getRootHist st.calls) * cfg.whiteBonusPerHandicapStone)] := by
  unfold updateKomiIfNew
  simp only [GtpState.call]
  split <;> rfl

theorem cmdKomi_single {B H : Type} (L : GtpLib B H) (bot : Bot B H) (cfg : GtpConfig)
    (st : GtpState B H) (p : List Char) (q : ℚ) (hf : L.tryStringToFloat p = some (.fin q))
    (hlo : -100 ≤ q) (hhi : q ≤ 100) (hint : ∃ n : ℤ, 2 * q = n) :
    cmdKomi L bot cfg st [p] =
      { Handled.ok (updateKomiIfNew L bot cfg { st with unhackedKomi := q }) [] with
          maybeStartPondering := decide (L.numMoves (bot.getRootHist
            (updateKomiIfNew L bot cfg { st with unhackedKomi := q }).calls) > 0) } := by
  have hr : ¬ ((Num.fin q).isnan = true ∨ (Num.fin q).lt (-100) = true
      ∨ (Num.fin q).gt 100 = true) :=
    (num_in_range_iff _ _ _).mpr ⟨q, rfl, hlo, hhi⟩
  have hk : Rules.komiIsIntOrHalfInt q = true := (komiIsIntOrHalfInt_iff q).mpr hint
  unfold cmdKomi
  simp only [hf, if_neg hr, Num.toRat, hk, Bool.not_true, Bool.false_eq_true, if_false]

/-- C14. The command `komi` answers without error exactly when it has a single
argument that `tryStringToFloat` reads as a finite number `k` (no NaN, no
infinity) with `-100 ≤ k ≤ 100` and `2k` an integer; then the base komi
`unhackedKomi` is `k` afterwards and the bot is told the komi `k` plus the
handicap bonus. When it answers with an error the state is as before and no
call is made on the bot. -/
theorem komi_accepts_iff {B H : Type} (L : GtpLib B H) (bot : Bot B H) (cfg : GtpConfig)
    (st : GtpState B H) (pieces : List (List Char)) :
    ((cmdKomi L bot cfg st pieces).responseIsError = false ↔
      ∃ p q, pieces = [p] ∧ L.tryStringToFloat p = some (.fin q) ∧ -100 ≤ q ∧ q ≤ 100
        ∧ ∃ n : ℤ, 2 * q = n)
    ∧ (∀ p q, pieces = [p] → L.tryStringToFloat p = some (.fin q) → -100 ≤ q → q ≤ 100 →
        (∃ n : ℤ, 2 * q = n) →
        (cmdKomi L bot cfg st pieces).st.unhackedKomi = q
        ∧ (cmdKomi L bot cfg st pieces).st.calls = st.calls ++ [.setKomiIfNew
            (q + numHandicapStones L (bot.getRootHist st.calls)
              * cfg.whiteBonusPerHandicapStone)])
    ∧ ((cmdKomi L bot cfg st pieces).responseIsError = true →
        (cmdKomi L bot cfg st pieces).st = st) := by
  have hacc : ∀ p q, pieces = [p] → L.tryStringToFloat p = some (.fin q) → -100 ≤ q →
      q ≤ 100 → (∃ n : ℤ, 2 * q = n) →
      cmdKomi L bot cfg st pieces =
        { Handled.ok (updateKomiIfNew L bot cfg { st with unhackedKomi := q }) [] with
            maybeStartPondering := decide (L.numMoves (bot.getRootHist
              (updateKomiIfNew L bot cfg { st with unhackedKomi := q }).calls) > 0) } := by
    intro p q hp hf hlo hhi hint
    rw [hp]
    exact cmdKomi_single L bot cfg st p q hf hlo hhi hint
  have hrej : (¬ ∃ p q, pieces = [p] ∧ L.tryStringToFloat p = some (.fin q) ∧ -100 ≤ q
      ∧ q ≤ 100 ∧ ∃ n : ℤ, 2 * q = n) →
      (cmdKomi L bot cfg st pieces).responseIsError = true
      ∧ (cmdKomi L bot cfg st pieces).st = st := by
    intro hno
    match pieces with
    | [] => exact ⟨rfl, rfl⟩
    | _ :: _ :: _ => exact ⟨rfl, rfl⟩
    | [p] =>
      cases hf : L.tryStringToFloat p with
      | none =>
        simp only [cmdKomi, hf]
        exact ⟨rfl, rfl⟩
      | some k =>
        by_cases hr : k.isnan = true ∨ k.lt (-100) = true ∨ k.gt 100 = true
        · simp only [cmdKomi, hf, if_pos hr]
          exact ⟨rfl, rfl⟩
        · obtain ⟨q, hq, hlo, hhi⟩ := (num_in_range_iff _ _ _).mp hr
          have hk : Rules.komiIsIntOrHalfInt k.toRat = false := by
            cases hkk : Rules.komiIsIntOrHalfInt k.toRat with
            | false => rfl
            | true =>
              rw [hq] at hf hkk
              exact absurd ⟨p, q, rfl, hf, hlo, hhi, (komiIsIntOrHalfInt_iff q).mp hkk⟩ hno
          simp only [cmdKomi, hf, if_neg hr, hk, Bool.not_false, if_true]
          exact ⟨rfl, rfl⟩
  refine ⟨?_, ?_, ?_⟩
  · constructor
    · intro he
      by_contra hno
      rw [(hrej hno).1] at he
      cases he
    · rintro ⟨p, q, hp, hf, hlo, hhi, hint⟩
      rw [hacc p q hp hf hlo hhi hint]
      rfl
  · intro p q hp hf hlo hhi hint
    rw [hacc p q hp hf hlo hhi hint]
    refine ⟨?_, ?_⟩
    · exact updateKomiIfNew_unhackedKomi L bot cfg _
    · exact updateKomiIfNew_calls L bot cfg _
  · intro he
    by_cases hyes : ∃ p q, pieces = [p] ∧ L.tryStringToFloat p = some (.fin q) ∧ -100 ≤ q
        ∧ q ≤ 100 ∧ ∃ n : ℤ, 2 * q = n
    · obtain ⟨p, q, hp, hf, hlo, hhi, hint⟩ := hyes
      rw [hacc p q hp hf hlo hhi hint] at he
      cases he
    · exact (hrej hyes).2

/-! ## The GTP engine: `boardsize` -/

theorem setEmptyPosition_calls {B H : Type} (L : GtpLib B H) (bot : Bot B H)
    (cfg : GtpConfig) (st : GtpState B H) (n : Int) :
    (setEmptyPosition L bot cfg st n).calls =
      st.calls ++ [.setPosition .black (L.ops.newBoard n n)
          (L.ops.newHistory (L.ops.newBoard n n) .black (L.rules (bot.getRootHist st.calls))),
        .setKomiIfNew (st.unhackedKomi
          + numHandicapStones L (bot.getRootHist (st.calls ++ [.setPosition .black
              (L.ops.newBoard n n) (L.ops.newHistory (L.ops.newBoard n n) .black
                (L.rules (bot.getRootHist st.calls)))]))
            * cfg.whiteBonusPerHandicapStone)] := by
  unfold setEmptyPosition
  simp only [updateKomiIfNew_calls, GtpState.call, List.append_assoc, List.singleton_append]

theorem cmdBoardsize_single {B H : Type} (L : GtpLib B H) (bot : Bot B H) (cfg : GtpConfig)
    (st : GtpState B H) (p : List Char) (n : Int) (hi : L.tryStringToInt p = some n)
    (hlo : 2 ≤ n) (hhi : n ≤ L.MAX_LEN) :
    cmdBoardsize L bot cfg st [p] =
      Handled.ok (setEmptyPosition L bot cfg (maybeInitializeNNEvalAndAsyncBot bot st n) n)
        [] := by
  have h1 : ¬ (n < 2 ∨ n > L.MAX_LEN) := by omega
  have h2 : ¬ (n > L.MAX_LEN) := by omega
  simp only [cmdBoardsize, hi, if_neg h1, if_neg h2]

/-- C15. The command `boardsize` answers without error exactly when it has a
single argument that `tryStringToInt` reads as an integer `n` with
`2 ≤ n ≤ MAX_LEN`. Then, after the evaluator and the bot were replaced when
they were made for another size, the bot is given the board `Board(n,n)` with
Black to move and a new history of that board with the rules it had, then
the komi, and the record of recent win-loss values is empty. When it answers
with an error the state is as before: no call is made on the bot or the
evaluator and the record is as it was. -/
theorem boardsize_accepts_iff {B H : Type} (L : GtpLib B H) (bot : Bot B H)
    (cfg : GtpConfig) (st : GtpState B H) (pieces : List (List Char)) :
    ((cmdBoardsize L bot cfg st pieces).responseIsError = false ↔
      ∃ p n, pieces = [p] ∧ L.tryStringToInt p = some n ∧ 2 ≤ n ∧ n ≤ L.MAX_LEN)
    ∧ (∀ p n, pieces = [p] → L.tryStringToInt p = some n → 2 ≤ n → n ≤ L.MAX_LEN →
        (cmdBoardsize L bot cfg st pieces).st.calls =
          (maybeInitializeNNEvalAndAsyncBot bot st n).calls
            ++ [.setPosition .black (L.ops.newBoard n n)
                (L.ops.newHistory (L.ops.newBoard n n) .black
                  (L.rules (bot.getRootHist (maybeInitializeNNEvalAndAsyncBot bot st n).calls))),
              .setKomiIfNew (st.unhackedKomi
                + numHandicapStones L (bot.getRootHist
                    ((maybeInitializeNNEvalAndAsyncBot bot st n).calls
                      ++ [.setPosition .black (L.ops.newBoard n n)
                        (L.ops.newHistory (L.ops.newBoard n n) .black (L.rules (bot.getRootHist
                          (maybeInitializeNNEvalAndAsyncBot bot st n).calls)))]))
                  * cfg.whiteBonusPerHandicapStone)]
        ∧ (cmdBoardsize L bot cfg st pieces).st.recentWinLossValues = []
        ∧ (maybeInitializeNNEvalAndAsyncBot bot st n).calls =
            if n = bot.getPosLen st.calls then st.calls
            else st.calls ++ [.stopAndWait, .newBot n])
    ∧ ((cmdBoardsize L bot cfg st pieces).responseIsError = true →
        (cmdBoardsize L bot cfg st pieces).st = st) := by
  have hrej : (¬ ∃ p n, pieces = [p] ∧ L.tryStringToInt p = some n ∧ 2 ≤ n ∧ n ≤ L.MAX_LEN) →
      (cmdBoardsize L bot cfg st pieces).responseIsError = true
      ∧ (cmdBoardsize L bot cfg st pieces).st = st := by
    intro hno
    match pieces with
    | [] => exact ⟨rfl, rfl⟩
    | _ :: _ :: _ => exact ⟨rfl, rfl⟩
    | [p] =>
      cases hi : L.tryStringToInt p with
      | none =>
        simp only [cmdBoardsize, hi]
        exact ⟨rfl, rfl⟩
      | some n =>
        by_cases h1 : n < 2 ∨ n > L.MAX_LEN
        · simp only [cmdBoardsize, hi, if_pos h1]
          exact ⟨rfl, rfl⟩
        · exact absurd ⟨p, n, rfl, hi, by omega, by omega⟩ hno
  have hun : ∀ n, (maybeInitializeNNEvalAndAsyncBot bot st n).unhackedKomi = st.unhackedKomi := by
    intro n
    unfold maybeInitializeNNEvalAndAsyncBot
    split <;> rfl
  refine ⟨?_, ?_, ?_⟩
  · constructor
    · intro he
      by_contra hno
      rw [(hrej hno).1] at he
      cases he
    · rintro ⟨p, n, hp, hi, hlo, hhi⟩
      rw [hp, cmdBoardsize_single L bot cfg st p n hi hlo hhi]
      rfl
  · intro p n hp hi hlo hhi
    rw [hp, cmdBoardsize_single L bot cfg st p n hi hlo hhi]
    refine ⟨?_, rfl, ?_⟩
    · simp only [Handled.ok, setEmptyPosition_calls, hun]
    · unfold maybeInitializeNNEvalAndAsyncBot
      split
      · rfl
      · simp only [GtpState.call, List.append_assoc, List.singleton_append]
  · intro he
    by_cases hyes : ∃ p n, pieces = [p] ∧ L.tryStringToInt p = some n ∧ 2 ≤ n ∧ n ≤ L.MAX_LEN
    · obtain ⟨p, n, hp, hi, hlo, hhi⟩ := hyes
      rw [hp, cmdBoardsize_single L bot cfg st p n hi hlo hhi] at he
      cases he
    · exact (hrej hyes).2

/-! ## The GTP engine: `time_settings` -/

theorem cmdTimeSettings_valid {B H : Type} (L : GtpLib B H) (st : GtpState B H)
    (p0 p1 p2 : List Char) (m b : ℚ) (s : Int)
    (hm : L.tryStringToDouble p0 = some (.fin m)) (hb : L.tryStringToDouble p1 = some (.fin b))
    (hs : L.tryStringToInt p2 = some s) (hm0 : 0 ≤ m) (hm1 : m ≤ double1e50) (hb0 : 0 ≤ b)
    (hb1 : b ≤ double1e50) (hs0 : 0 ≤ s) (hs1 : s ≤ 100000) :
    cmdTimeSettings L st [p0, p1, p2] =
      Handled.ok
        { st with
            bTimeControls := timeSettingsControls L.defaultTimeControls m b s
            wTimeControls := timeSettingsControls L.defaultTimeControls m b s } [] := by
  have h1 : ¬ ((Num.fin m).isnan = true ∨ (Num.fin m).lt 0 = true
      ∨ (Num.fin m).gt double1e50 = true) :=
    (num_in_range_iff _ _ _).mpr ⟨m, rfl, hm0, hm1⟩
  have h2 : ¬ ((Num.fin b).isnan = true ∨ (Num.fin b).lt 0 = true
      ∨ (Num.fin b).gt double1e50 = true) :=
    (num_in_range_iff _ _ _).mpr ⟨b, rfl, hb0, hb1⟩
  have h3 : ¬ (s < 0 ∨ s > 100000) := by omega
  simp only [cmdTimeSettings, hm, hb, hs, if_neg h1, if_neg h2, if_neg h3, Num.toRat]

theorem cmdTimeSettings_invalid {B H : Type} (L : GtpLib B H) (st : GtpState B H)
    (pieces : List (List Char))
    (hno : ¬ ∃ p0 p1 p2 m b s, pieces = [p0, p1, p2]
      ∧ L.tryStringToDouble p0 = some (.fin m) ∧ L.tryStringToDouble p1 = some (.fin b)
      ∧ L.tryStringToInt p2 = some s ∧ 0 ≤ m ∧ m ≤ double1e50 ∧ 0 ≤ b ∧ b ≤ double1e50
      ∧ 0 ≤ s ∧ s ≤ 100000) :
    (cmdTimeSettings L st pieces).responseIsError = true
    ∧ (cmdTimeSettings L st pieces).st = st := by
  match pieces with
  | [] => exact ⟨rfl, rfl⟩
  | [_] => exact ⟨rfl, rfl⟩
  | [_, _] => exact ⟨rfl, rfl⟩
  | _ :: _ :: _ :: _ :: _ => exact ⟨rfl, rfl⟩
  | [p0, p1, p2] =>
    cases hm : L.tryStringToDouble p0 with
    | none =>
      simp only [cmdTimeSettings, hm]
      exact ⟨rfl, rfl⟩
    | some mainTime =>
      cases hb : L.tryStringToDouble p1 with
      | none =>
        simp only [cmdTimeSettings, hm, hb]
        exact ⟨rfl, rfl⟩
      | some byoYomiTime =>
        cases hs : L.tryStringToInt p2 with
        | none =>
          simp only [cmdTimeSettings, hm, hb, hs]
          exact ⟨rfl, rfl⟩
        | some s =>
          by_cases h1 : mainTime.isnan = true ∨ mainTime.lt 0 = true
              ∨ mainTime.gt double1e50 = true
          · simp only [cmdTimeSettings, hm, hb, hs, if_pos h1]
            exact ⟨rfl, rfl⟩
          · by_cases h2 : byoYomiTime.isnan = true ∨ byoYomiTime.lt 0 = true
                ∨ byoYomiTime.gt double1e50 = true
            · simp only [cmdTimeSettings, hm, hb, hs, if_neg h1, if_pos h2]
              exact ⟨rfl, rfl⟩
            · by_cases h3 : s < 0 ∨ s > 100000
              · simp only [cmdTimeSettings, hm, hb, hs, if_neg h1, if_neg h2, if_pos h3]
                exact ⟨rfl, rfl⟩
              · obtain ⟨m, hmq, hm0, hm1⟩ := (num_in_range_iff _ _ _).mp h1
                obtain ⟨b, hbq, hb0, hb1⟩ := (num_in_range_iff _ _ _).mp h2
                rw [hmq] at hm
                rw [hbq] at hb
                exact absurd ⟨p0, p1, p2, m, b, s, rfl, hm, hb, hs, hm0, hm1, hb0, hb1,
                  by omega, by omega⟩ hno

/-- C19. For a `time_settings` with three arguments that are read as the
finite numbers `m`, `b` and the integer `s` with `0 ≤ m, b ≤ 1e50` (the value
`double1e50` of that literal) and
`0 ≤ s ≤ 100000`, the command answers without error and both players have
the same time controls afterwards: the default ones when `s = 0` and `b > 0`;
absolute time `m` with no period when `s = 0` and `b = 0`; and otherwise main
time `m` and one period of `s` stones in `b` seconds, not in overtime. Every
other `time_settings` answers with an error and leaves the state, hence the
time controls of both players, as before. -/
theorem time_settings_spec {B H : Type} (L : GtpLib B H) (st : GtpState B H)
    (pieces : List (List Char)) :
    (∀ p0 p1 p2 m b s, pieces = [p0, p1, p2] → L.tryStringToDouble p0 = some (.fin m) →
        L.tryStringToDouble p1 = some (.fin b) → L.tryStringToInt p2 = some s →
        0 ≤ m → m ≤ double1e50 → 0 ≤ b → b ≤ double1e50 → 0 ≤ s → s ≤ 100000 →
        (cmdTimeSettings L st pieces).responseIsError = false
        ∧ (cmdTimeSettings L st pieces).st.bTimeControls
            = (cmdTimeSettings L st pieces).st.wTimeControls
        ∧ (s = 0 → 0 < b →
            (cmdTimeSettings L st pieces).st.bTimeControls = L.defaultTimeControls)
        ∧ (s = 0 → b = 0 →
            (cmdTimeSettings L st pieces).st.bTimeControls =
              { originalMainTime := m, increment := 0, originalNumPeriods := 0,
                numStonesPerPeriod := 0, perPeriodTime := 0, mainTimeLeft := m,
                inOvertime := false, numPeriodsLeftIncludingCurrent := 0,
                numStonesLeftInPeriod := 0, timeLeftInPeriod := 0 })
        ∧ (s ≠ 0 →
            (cmdTimeSettings L st pieces).st.bTimeControls =
              { originalMainTime := m, increment := 0, originalNumPeriods := 1,
                numStonesPerPeriod := s, perPeriodTime := b, mainTimeLeft := m,
                inOvertime := false, numPeriodsLeftIncludingCurrent := 1,
                numStonesLeftInPeriod := 0, timeLeftInPeriod := 0 }))
    ∧ ((¬ ∃ p0 p1 p2 m b s, pieces = [p0, p1, p2]
          ∧ L.tryStringToDouble p0 = some (.fin m) ∧ L.tryStringToDouble p1 = some (.fin b)
          ∧ L.tryStringToInt p2 = some s ∧ 0 ≤ m ∧ m ≤ double1e50 ∧ 0 ≤ b ∧ b ≤ double1e50
          ∧ 0 ≤ s ∧ s ≤ 100000) →
        (cmdTimeSettings L st pieces).responseIsError = true)
    ∧ ((cmdTimeSettings L st pieces).responseIsError = true →
        (cmdTimeSettings L st pieces).st = st) := by
  refine ⟨?_, ?_, ?_⟩
  · intro p0 p1 p2 m b s hp hm hb hs hm0 hm1 hb0 hb1 hs0 hs1
    rw [hp, cmdTimeSettings_valid L st p0 p1 p2 m b s hm hb hs hm0 hm1 hb0 hb1 hs0 hs1]
    refine ⟨rfl, rfl, ?_, ?_, ?_⟩
    · intro h0 hpos
      simp only [Handled.ok, timeSettingsControls]
      rw [if_pos ⟨h0, hpos⟩]
    · intro h0 hz
      simp only [Handled.ok, timeSettingsControls]
      rw [if_neg (by rintro ⟨_, h⟩; rw [hz] at h; exact lt_irrefl _ h), if_pos h0]
    · intro hne
      simp only [Handled.ok, timeSettingsControls]
      rw [if_neg (by rintro ⟨h, _⟩; exact hne h), if_neg hne]
  · intro hno
    exact (cmdTimeSettings_invalid L st pieces hno).1
  · intro he
    by_cases hyes : ∃ p0 p1 p2 m b s, pieces = [p0, p1, p2]
        ∧ L.tryStringToDouble p0 = some (.fin m) ∧ L.tryStringToDouble p1 = some (.fin b)
        ∧ L.tryStringToInt p2 = some s ∧ 0 ≤ m ∧ m ≤ double1e50 ∧ 0 ≤ b ∧ b ≤ double1e50
        ∧ 0 ≤ s ∧ s ≤ 100000
    · obtain ⟨p0, p1, p2, m, b, s, hp, hm, hb, hs, hm0, hm1, hb0, hb1, hs0, hs1⟩ := hyes
      rw [hp, cmdTimeSettings_valid L st p0 p1 p2 m b s hm hb hs hm0 hm1 hb0 hb1 hs0 hs1] at he
      cases he
    · exact (cmdTimeSettings_invalid L st pieces hyes).2

/-! ## The GTP engine: `play` -/

theorem cmdPlay_illegal {B H : Type} (L : GtpLib B H) (bot : Bot B H) (st : GtpState B H)
    (p0 p1 : List Char) (pla : Player) (loc : Loc) (hp : tryParsePlayer p0 = some pla)
    (hl : L.tryOfString p1 (bot.getRootBoard st.calls) = some loc)
    (hm : bot.makeMove st.calls loc pla = false) :
    cmdPlay L bot st [p0, p1] =
      { Handled.err (st.call (.makeMove loc pla)) "illegal move".toList with
          maybeStartPondering := true } := by
  simp only [cmdPlay, hp, hl, hm, Bool.not_false, if_true]

theorem handleCommand_play {B H : Type} (L : GtpLib B H) (bot : Bot B H) (cfg : GtpConfig)
    (st : GtpState B H) (pieces : List (List Char)) :
    handleCommand L bot cfg st "play".toList pieces = cmdPlay L bot st pieces := by
  have hb : branchOf "play".toList = .play := by decide
  unfold handleCommand
  rw [hb]

/-- C12, as the program has it. When `bot->makeMove` returns false for a
`play` command, the response is the error `illegal move`, the variables of
the driver are left as they were, and the only call the command makes on the
bot is that `makeMove`; afterwards pondering is started exactly when
`ponderingEnabled` is set. The position is unchanged: for a bot that keeps
its position over `stopAndWait`, over a `makeMove` that returns false (the
contract stated at its declaration, search.h 165-167) and over `ponder`, the
board, the history and the player to move are after the command, and after
the pondering it may start, what they were before. -/
theorem play_illegal_move {B H : Type} (L : GtpLib B H) (bot : Bot B H) (cfg : GtpConfig)
    (run : GtpRun B H) (hasId : Bool) (id : Int) (p0 p1 : List Char) (pla : Player)
    (loc : Loc) (hp : tryParsePlayer p0 = some pla)
    (hl : L.tryOfString p1 (bot.getRootBoard (stopAnalysis run.st).calls) = some loc)
    (hm : bot.makeMove (stopAnalysis run.st).calls loc pla = false) :
    (handleCommand L bot cfg (stopAnalysis run.st) "play".toList [p0, p1]).responseIsError
        = true
    ∧ (handleCommand L bot cfg (stopAnalysis run.st) "play".toList [p0, p1]).response
        = "illegal move".toList
    ∧ (runCommand L bot cfg run hasId id "play".toList [p0, p1]).st.calls =
        (stopAnalysis run.st).calls ++ [.makeMove loc pla]
          ++ (if cfg.ponderingEnabled then [.ponder run.st.lastSearchFactor] else [])
    ∧ (runCommand L bot cfg run hasId id "play".toList [p0, p1]).st =
        { run.st with
            calls := (runCommand L bot cfg run hasId id "play".toList [p0, p1]).st.calls }
    ∧ ((∀ calls, bot.position (calls ++ [.stopAndWait]) = bot.position calls) →
        (∀ calls l p, bot.makeMove calls l p = false →
          bot.position (calls ++ [.makeMove l p]) = bot.position calls) →
        (∀ calls f, bot.position (calls ++ [.ponder f]) = bot.position calls) →
        bot.position (handleCommand L bot cfg (stopAnalysis run.st) "play".toList
            [p0, p1]).st.calls = bot.position run.st.calls
        ∧ bot.position (runCommand L bot cfg run hasId id "play".toList [p0, p1]).st.calls
            = bot.position run.st.calls) := by
  have hls : (stopAnalysis run.st).lastSearchFactor = run.st.lastSearchFactor := by
    unfold stopAnalysis
    split <;> rfl
  have hcalls : (runCommand L bot cfg run hasId id "play".toList [p0, p1]).st.calls =
      (stopAnalysis run.st).calls ++ [.makeMove loc pla]
        ++ (if cfg.ponderingEnabled then [.ponder run.st.lastSearchFactor] else []) := by
    unfold runCommand
    simp only [handleCommand_play, cmdPlay_illegal L bot _ p0 p1 pla loc hp hl hm, Handled.err,
      Bool.false_eq_true, if_false, Bool.true_and, GtpState.call, hls]
    cases cfg.ponderingEnabled with
    | true => simp
    | false => simp
  have hst : (runCommand L bot cfg run hasId id "play".toList [p0, p1]).st =
      { run.st with
          calls := (runCommand L bot cfg run hasId id "play".toList [p0, p1]).st.calls } := by
    unfold runCommand
    simp only [handleCommand_play, cmdPlay_illegal L bot _ p0 p1 pla loc hp hl hm, Handled.err,
      Bool.false_eq_true, if_false, Bool.true_and, GtpState.call]
    unfold stopAnalysis
    cases cfg.ponderingEnabled <;> cases hca : run.st.currentlyAnalyzing <;>
      simp only [Bool.false_eq_true, if_false, if_true, GtpState.call, hca]
  refine ⟨?_, ?_, hcalls, hst, ?_⟩
  · rw [handleCommand_play, cmdPlay_illegal L bot _ p0 p1 pla loc hp hl hm]
    rfl
  · rw [handleCommand_play, cmdPlay_illegal L bot _ p0 p1 pla loc hp hl hm]
    rfl
  · intro hstop hkeep hponder
    have h0 : bot.position (stopAnalysis run.st).calls = bot.position run.st.calls := by
      unfold stopAnalysis
      split
      · exact hstop _
      · rfl
    have h1 : bot.position ((stopAnalysis run.st).calls ++ [.makeMove loc pla])
        = bot.position run.st.calls := by
      rw [hkeep _ loc pla hm, h0]
    constructor
    · rw [handleCommand_play, cmdPlay_illegal L bot _ p0 p1 pla loc hp hl hm]
      exact h1
    · rw [hcalls]
      cases cfg.ponderingEnabled with
      | true =>
        simp only [if_true]
        rw [hponder, h1]
      | false =>
        simp only [Bool.false_eq_true, if_false, List.append_nil]
        exact h1

theorem makeMove_fst_of_false {B H : Type} (S : SearchLib B H) (s : Search B H) (moveLoc : Loc)
    (movePla : Player) (h : (Search.makeMove S s moveLoc movePla).2 = false) :
    (Search.makeMove S s moveLoc movePla).1 = s := by
  cases hl : S.isLegal s.rootPla s.rootBoard s.rootHistory moveLoc movePla with
  | false =>
    unfold Search.makeMove
    simp only [hl, Bool.not_false, if_true]
  | true =>
    unfold Search.makeMove at h
    simp only [hl, Bool.not_true, Bool.false_eq_true, if_false] at h
    cases h

theorem searchAfter_append (calls : List (BotCall SampleBoard SampleHist))
    (c : BotCall SampleBoard SampleHist) :
    searchAfter (calls ++ [c]) = searchStep (searchAfter calls) c := by
  unfold searchAfter
  rw [List.foldl_append]
  rfl

theorem searchBot_position (calls : List (BotCall SampleBoard SampleHist))
    (c : BotCall SampleBoard SampleHist) (hc : searchStep (searchAfter calls) c = searchAfter calls) :
    searchBot.position (calls ++ [c]) = searchBot.position calls := by
  simp only [Bot.position, searchBot, searchAfter_append, hc]

theorem play_illegal_move_witness :
    (handleCommand sampleLib searchBot (sampleConfig true)
        (stopAnalysis (stonesState searchBot)) "play".toList
        ["w".toList, "C3".toList]).responseIsError = true
    ∧ (handleCommand sampleLib searchBot (sampleConfig true)
        (stopAnalysis (stonesState searchBot)) "play".toList
        ["w".toList, "C3".toList]).response = "illegal move".toList
    ∧ (runCommand sampleLib searchBot (sampleConfig true)
        { st := stonesState searchBot, out := [], quit := false } true 5 "play".toList
        ["w".toList, "C3".toList]).st.calls =
        (stopAnalysis (stonesState searchBot)).calls ++ [.makeMove 63 .white]
          ++ (if (sampleConfig true).ponderingEnabled then
                [.ponder (stonesState searchBot).lastSearchFactor]
              else [])
    ∧ searchBot.position
        (runCommand sampleLib searchBot (sampleConfig true)
          { st := stonesState searchBot, out := [], quit := false } true 5 "play".toList
          ["w".toList, "C3".toList]).st.calls
        = searchBot.position (stonesState searchBot).calls :=
  ⟨(play_illegal_move sampleLib searchBot (sampleConfig true)
      { st := stonesState searchBot, out := [], quit := false } true 5 "w".toList "C3".toList
      .white 63 (by decide) (by decide) (by decide)).1,
    (play_illegal_move sampleLib searchBot (sampleConfig true)
      { st := stonesState searchBot, out := [], quit := false } true 5 "w".toList "C3".toList
      .white 63 (by decide) (by decide) (by decide)).2.1,
    (play_illegal_move sampleLib searchBot (sampleConfig true)
      { st := stonesState searchBot, out := [], quit := false } true 5 "w".toList "C3".toList
      .white 63 (by decide) (by decide) (by decide)).2.2.1,
    ((play_illegal_move sampleLib searchBot (sampleConfig true)
      { st := stonesState searchBot, out := [], quit := false } true 5 "w".toList "C3".toList
      .white 63 (by decide) (by decide) (by decide)).2.2.2.2
      (fun calls => searchBot_position calls .stopAndWait rfl)
      (fun calls l p h => searchBot_position calls (.makeMove l p)
        (makeMove_fst_of_false sampleSearchLib (searchAfter calls) l p h))
      (fun calls f => searchBot_position calls (.ponder f) rfl)).2⟩

/-- The bot of the sample that keeps a search does move: after `play b E5`
on the position with stones at `D4` and `C3` its board holds a third stone,
and after `play w C3`, which `makeMove` rejects, it holds the two it had. -/
theorem play_sample_positions :
    (searchBot.getRootBoard (processLine sampleLib searchBot (sampleConfig true)
        { st := stonesState searchBot, out := [], quit := false }
        "play b E5".toList).st.calls).stones = [(84, .black), (63, .white), (105, .black)]
    ∧ (searchBot.getRootBoard (processLine sampleLib searchBot (sampleConfig true)
        { st := stonesState searchBot, out := [], quit := false }
        "play w C3".toList).st.calls).stones = [(84, .black), (63, .white)]
    ∧ (processLine sampleLib searchBot (sampleConfig true)
        { st := stonesState searchBot, out := [], quit := false }
        "play w C3".toList).out = "? illegal move\n\n".toList := by
  refine ⟨by decide, by decide, by decide⟩

/-- C12 fails as stated: with `ponderingEnabled` set, the line `play b D4` for
a move that `bot->makeMove` rejects is answered `? illegal move`, and then
`bot->ponder` is called. -/
theorem play_illegal_move_ponders :
    (sampleBot false 0 0).makeMove (sampleRun (sampleBot false 0 0)).st.calls 84 .black = false
    ∧ (processLine sampleLib (sampleBot false 0 0) (sampleConfig true)
        (sampleRun (sampleBot false 0 0)) "play b D4".toList).out = "? illegal move\n\n".toList
    ∧ (processLine sampleLib (sampleBot false 0 0) (sampleConfig true)
        (sampleRun (sampleBot false 0 0)) "play b D4".toList).st.calls
        = (sampleRun (sampleBot false 0 0)).st.calls ++ [.makeMove 84 .black, .ponder 1] := by
  refine ⟨rfl, by decide, rfl⟩

/-! ## The GTP engine: `set_free_handicap` -/

theorem handicapLocs_error_mono {B H : Type} (L : GtpLib B H) (board : B)
    (pieces : List (List Char)) :
    ∀ (response : List Char) (locs : List Loc),
      ∃ response2, (handicapLocs L board pieces (true, response, locs)).1 = true
        ∧ (handicapLocs L board pieces (true, response, locs)).2.1 = response2 := by
  induction pieces with
  | nil =>
    intro response locs
    exact ⟨response, rfl, rfl⟩
  | cons p rest ih =>
    intro response locs
    unfold handicapLocs
    cases hp : L.tryOfString p board with
    | none => exact ih _ _
    | some loc =>
      simp only
      split
      · exact ih _ _
      · exact ih _ _

theorem handicapLocs_error {B H : Type} (L : GtpLib B H) (board : B)
    (pieces : List (List Char))
    (hbad : ∃ p ∈ pieces, L.tryOfString p board = none
      ∨ L.tryOfString p board = some Board.PASS_LOC) :
    ∀ (acc : Bool × List Char × List Loc), (handicapLocs L board pieces acc).1 = true := by
  induction pieces with
  | nil =>
    obtain ⟨p, hp, _⟩ := hbad
    exact absurd hp (List.not_mem_nil p)
  | cons p rest ih =>
    rintro ⟨e, response, locs⟩
    unfold handicapLocs
    cases hp : L.tryOfString p board with
    | none =>
      obtain ⟨r2, h1, _⟩ := handicapLocs_error_mono L board rest
        ("Invalid handicap location: ".toList ++ p) (locs ++ [L.unassignedLoc])
      exact h1
    | some loc =>
      simp only
      by_cases hpass : loc = Board.PASS_LOC
      · rw [if_pos hpass]
        obtain ⟨r2, h1, _⟩ := handicapLocs_error_mono L board rest
          ("Invalid handicap location: ".toList ++ p) (locs ++ [loc])
        exact h1
      · rw [if_neg hpass]
        apply ih
        obtain ⟨q, hq, hqbad⟩ := hbad
        rcases List.mem_cons.mp hq with hqp | hqr
        · rw [hqp, hp] at hqbad
          rcases hqbad with h | h
          · cases h
          · exact absurd (Option.some.inj h) hpass
        · exact ⟨q, hqr, hqbad⟩

/-- C13 fails in the program: when the board is empty and `set_free_handicap`
is given a vertex that cannot be read or that is `pass`, the command answers
with an error, and yet it calls `bot->setPosition` with the board on which
it has set a stone for every argument, and tells the bot the komi. Only for
a board that is not empty is the state left as it was. -/
theorem set_free_handicap_error_sets_position {B H : Type} (L : GtpLib B H) (bot : Bot B H)
    (cfg : GtpConfig) (st : GtpState B H) (pieces : List (List Char))
    (hempty : L.isEmpty (bot.getRootBoard st.calls) = true)
    (hbad : ∃ p ∈ pieces,
      L.tryOfString p (L.ops.newBoard (L.x_size (bot.getRootBoard st.calls))
          (L.y_size (bot.getRootBoard st.calls))) = none
      ∨ L.tryOfString p (L.ops.newBoard (L.x_size (bot.getRootBoard st.calls))
          (L.y_size (bot.getRootBoard st.calls))) = some Board.PASS_LOC) :
    (cmdSetFreeHandicap L bot cfg st pieces).responseIsError = true
    ∧ ∃ komi, (cmdSetFreeHandicap L bot cfg st pieces).st.calls =
        st.calls ++ [.setPosition .black
          ((handicapLocs L (L.ops.newBoard (L.x_size (bot.getRootBoard st.calls))
              (L.y_size (bot.getRootBoard st.calls))) pieces (false, [], [])).2.2.foldl
            (fun b loc => L.ops.setStone b loc .black)
            (L.ops.newBoard (L.x_size (bot.getRootBoard st.calls))
              (L.y_size (bot.getRootBoard st.calls))))
          (L.ops.newHistory
            ((handicapLocs L (L.ops.newBoard (L.x_size (bot.getRootBoard st.calls))
                (L.y_size (bot.getRootBoard st.calls))) pieces (false, [], [])).2.2.foldl
              (fun b loc => L.ops.setStone b loc .black)
              (L.ops.newBoard (L.x_size (bot.getRootBoard st.calls))
                (L.y_size (bot.getRootBoard st.calls))))
            .black (L.rules (bot.getRootHist st.calls))),
          .setKomiIfNew komi] := by
  unfold cmdSetFreeHandicap
  simp only [hempty, Bool.not_true, Bool.false_eq_true, if_false]
  refine ⟨handicapLocs_error L _ pieces hbad _, ?_⟩
  rw [updateKomiIfNew_calls]
  simp only [GtpState.call, List.append_assoc, List.singleton_append]
  exact ⟨_, rfl⟩

theorem set_free_handicap_error_sets_position_witness :
    (cmdSetFreeHandicap sampleLib (sampleBot true 0 0) (sampleConfig false)
        (sampleRun (sampleBot true 0 0)).st ["D4".toList, "pass".toList]).responseIsError = true
    ∧ ∃ komi, (cmdSetFreeHandicap sampleLib (sampleBot true 0 0) (sampleConfig false)
        (sampleRun (sampleBot true 0 0)).st ["D4".toList, "pass".toList]).st.calls =
        (sampleRun (sampleBot true 0 0)).st.calls ++ [.setPosition .black
          ((handicapLocs sampleLib (sampleLib.ops.newBoard
              (sampleLib.x_size ((sampleBot true 0 0).getRootBoard
                (sampleRun (sampleBot true 0 0)).st.calls))
              (sampleLib.y_size ((sampleBot true 0 0).getRootBoard
                (sampleRun (sampleBot true 0 0)).st.calls)))
              ["D4".toList, "pass".toList] (false, [], [])).2.2.foldl
            (fun b loc => sampleLib.ops.setStone b loc .black)
            (sampleLib.ops.newBoard
              (sampleLib.x_size ((sampleBot true 0 0).getRootBoard
                (sampleRun (sampleBot true 0 0)).st.calls))
              (sampleLib.y_size ((sampleBot true 0 0).getRootBoard
                (sampleRun (sampleBot true 0 0)).st.calls))))
          (sampleLib.ops.newHistory
            ((handicapLocs sampleLib (sampleLib.ops.newBoard
                (sampleLib.x_size ((sampleBot true 0 0).getRootBoard
                  (sampleRun (sampleBot true 0 0)).st.calls))
                (sampleLib.y_size ((sampleBot true 0 0).getRootBoard
                  (sampleRun (sampleBot true 0 0)).st.calls)))
                ["D4".toList, "pass".toList] (false, [], [])).2.2.foldl
              (fun b loc => sampleLib.ops.setStone b loc .black)
              (sampleLib.ops.newBoard
                (sampleLib.x_size ((sampleBot true 0 0).getRootBoard
                  (sampleRun (sampleBot true 0 0)).st.calls))
                (sampleLib.y_size ((sampleBot true 0 0).getRootBoard
                  (sampleRun (sampleBot true 0 0)).st.calls))))
            .black (sampleLib.rules ((sampleBot true 0 0).getRootHist
              (sampleRun (sampleBot true 0 0)).st.calls))),
          .setKomiIfNew komi] :=
  set_free_handicap_error_sets_position sampleLib (sampleBot true 0 0) (sampleConfig false)
    (sampleRun (sampleBot true 0 0)).st ["D4".toList, "pass".toList] (by decide)
    ⟨"pass".toList, by decide, Or.inr (by decide)⟩

/-- The line `set_free_handicap D4 pass` on the empty board of the sample is
answered with the error `Invalid handicap location: pass`, and the bot is
given a board with the stones of both arguments. -/
theorem set_free_handicap_sample :
    (processLine sampleLib (sampleBot true 0 0) (sampleConfig false)
        (sampleRun (sampleBot true 0 0)) "set_free_handicap D4 pass".toList).out
      = "? Invalid handicap location: pass\n\n".toList
    ∧ (processLine sampleLib (sampleBot true 0 0) (sampleConfig false)
        (sampleRun (sampleBot true 0 0)) "set_free_handicap D4 pass".toList).st.calls
      = (sampleRun (sampleBot true 0 0)).st.calls ++
          [.setPosition .black
            { x_size := 19, y_size := 19, stones := [(84, .black), (0, .black)] }
            { initialBoard :=
                { x_size := 19, y_size := 19, stones := [(84, .black), (0, .black)] }
              initialPla := .black, rules := sampleRules, numMoves := 0 },
           .setKomiIfNew (15 / 2)] := by
  refine ⟨by with_unfolding_all decide, by with_unfolding_all decide⟩

theorem trim_eq (s : List Char) :
    Global.trim s = (s.dropWhile Global.isWhitespace).rdropWhile Global.isWhitespace := rfl

theorem trim_trim (s : List Char) : Global.trim (Global.trim s) = Global.trim s := by
  rw [trim_eq (Global.trim s), trim_eq s]
  have h1 : ((s.dropWhile Global.isWhitespace).rdropWhile Global.isWhitespace).dropWhile
      Global.isWhitespace = (s.dropWhile Global.isWhitespace).rdropWhile Global.isWhitespace := by
    obtain ⟨r, hr⟩ := List.rdropWhile_prefix Global.isWhitespace
      (l := s.dropWhile Global.isWhitespace)
    generalize (s.dropWhile Global.isWhitespace).rdropWhile Global.isWhitespace = t at hr ⊢
    cases t with
    | nil => rfl
    | cons a t2 =>
      have hu : (s.dropWhile Global.isWhitespace).dropWhile Global.isWhitespace
          = s.dropWhile Global.isWhitespace := List.dropWhile_idempotent _ _
      rw [← hr] at hu
      have hna : ¬ Global.isWhitespace a = true := by
        have := (List.dropWhile_eq_self_iff (p := Global.isWhitespace)).mp hu (by simp)
        simpa using this
      simp [List.dropWhile, hna]
  rw [h1, List.rdropWhile_idempotent]


/-! ## The GTP engine: the flag `currentlyAnalyzing` -/

theorem ite_analyzing {B H : Type} (c : Prop) [Decidable c] (a b : Handled B H) (x : Bool)
    (ha : a.st.currentlyAnalyzing = x) (hb : b.st.currentlyAnalyzing = x) :
    (if c then a else b).st.currentlyAnalyzing = x := by
  split
  · exact ha
  · exact hb

theorem updateKomiIfNew_analyzing {B H : Type} (L : GtpLib B H) (bot : Bot B H)
    (cfg : GtpConfig) (st : GtpState B H) :
    (updateKomiIfNew L bot cfg st).currentlyAnalyzing = st.currentlyAnalyzing := by
  unfold updateKomiIfNew
  simp only [GtpState.call]
  split <;> rfl

theorem setEmptyPosition_analyzing {B H : Type} (L : GtpLib B H) (bot : Bot B H)
    (cfg : GtpConfig) (st : GtpState B H) (n : Int) :
    (setEmptyPosition L bot cfg st n).currentlyAnalyzing = st.currentlyAnalyzing := by
  unfold setEmptyPosition
  simp only [updateKomiIfNew_analyzing, GtpState.call]

theorem maybeInitialize_analyzing {B H : Type} (bot : Bot B H) (st : GtpState B H) (n : Int) :
    (maybeInitializeNNEvalAndAsyncBot bot st n).currentlyAnalyzing = st.currentlyAnalyzing := by
  unfold maybeInitializeNNEvalAndAsyncBot
  split <;> rfl

theorem cmdBoardsize_analyzing {B H : Type} (L : GtpLib B H) (bot : Bot B H)
    (cfg : GtpConfig) (st : GtpState B H) (pieces : List (List Char)) :
    (cmdBoardsize L bot cfg st pieces).st.currentlyAnalyzing = st.currentlyAnalyzing := by
  unfold cmdBoardsize
  repeat' split
  all_goals simp only [Handled.err, Handled.ok, setEmptyPosition_analyzing,
    maybeInitialize_analyzing]

theorem cmdKomi_analyzing {B H : Type} (L : GtpLib B H) (bot : Bot B H)
    (cfg : GtpConfig) (st : GtpState B H) (pieces : List (List Char)) :
    (cmdKomi L bot cfg st pieces).st.currentlyAnalyzing = st.currentlyAnalyzing := by
  unfold cmdKomi
  repeat' split
  all_goals simp only [Handled.err, Handled.ok, updateKomiIfNew_analyzing]

theorem cmdTimeSettings_analyzing {B H : Type} (L : GtpLib B H) (st : GtpState B H)
    (pieces : List (List Char)) :
    (cmdTimeSettings L st pieces).st.currentlyAnalyzing = st.currentlyAnalyzing := by
  unfold cmdTimeSettings
  repeat' split
  all_goals simp only [Handled.err, Handled.ok]

theorem cmdTimeLeft_analyzing {B H : Type} (L : GtpLib B H) (st : GtpState B H)
    (pieces : List (List Char)) :
    (cmdTimeLeft L st pieces).st.currentlyAnalyzing = st.currentlyAnalyzing := by
  unfold cmdTimeLeft
  repeat' split
  all_goals simp only [Handled.err, Handled.ok]

theorem cmdPlay_analyzing {B H : Type} (L : GtpLib B H) (bot : Bot B H) (st : GtpState B H)
    (pieces : List (List Char)) :
    (cmdPlay L bot st pieces).st.currentlyAnalyzing = st.currentlyAnalyzing := by
  unfold cmdPlay
  split
  · split
    · rfl
    · split
      · rfl
      · exact ite_analyzing _ _ _ _ rfl rfl
  · rfl

theorem cmdGenmove_analyzing {B H : Type} (L : GtpLib B H) (bot : Bot B H)
    (cfg : GtpConfig) (st : GtpState B H) (pieces : List (List Char)) :
    (cmdGenmove L bot cfg st pieces).st.currentlyAnalyzing = st.currentlyAnalyzing := by
  unfold cmdGenmove
  split
  · split
    · rfl
    · exact ite_analyzing _ _ _ _ rfl rfl
  · rfl

theorem cmdPlaceFreeHandicap_analyzing {B H : Type} (L : GtpLib B H) (bot : Bot B H)
    (cfg : GtpConfig) (st : GtpState B H) (pieces : List (List Char)) :
    (cmdPlaceFreeHandicap L bot cfg st pieces).st.currentlyAnalyzing
      = st.currentlyAnalyzing := by
  unfold cmdPlaceFreeHandicap
  repeat' split
  all_goals simp only [Handled.err, Handled.ok, updateKomiIfNew_analyzing, GtpState.call]

theorem cmdSetFreeHandicap_analyzing {B H : Type} (L : GtpLib B H) (bot : Bot B H)
    (cfg : GtpConfig) (st : GtpState B H) (pieces : List (List Char)) :
    (cmdSetFreeHandicap L bot cfg st pieces).st.currentlyAnalyzing
      = st.currentlyAnalyzing := by
  unfold cmdSetFreeHandicap
  split
  · rfl
  · simp only [updateKomiIfNew_analyzing, GtpState.call]

theorem cmdFinalScore_analyzing {B H : Type} (L : GtpLib B H) (bot : Bot B H)
    (st : GtpState B H) :
    (cmdFinalScore L bot st).st.currentlyAnalyzing = st.currentlyAnalyzing := by
  unfold cmdFinalScore
  simp only
  split <;> rfl

theorem cmdFinalStatusList_analyzing {B H : Type} (L : GtpLib B H) (bot : Bot B H)
    (st : GtpState B H) (pieces : List (List Char)) :
    (cmdFinalStatusList L bot st pieces).st.currentlyAnalyzing = st.currentlyAnalyzing := by
  unfold cmdFinalStatusList
  split
  · exact ite_analyzing _ _ _ _ rfl rfl
  · rfl

theorem cmdAnalyze_analyzing {B H : Type} (L : GtpLib B H) (bot : Bot B H)
    (st : GtpState B H) (command : List Char) (pieces : List (List Char))
    (h : st.currentlyAnalyzing = true) :
    (cmdAnalyze L bot st command pieces).st.currentlyAnalyzing = true := by
  unfold cmdAnalyze
  simp only
  split
  · exact h
  · rfl

/-- No command sets the flag `currentlyAnalyzing` back: after a command it is
set when it was set before. -/
theorem handleCommand_analyzing {B H : Type} (L : GtpLib B H) (bot : Bot B H)
    (cfg : GtpConfig) (st : GtpState B H) (command : List Char) (pieces : List (List Char))
    (h : st.currentlyAnalyzing = true) :
    (handleCommand L bot cfg st command pieces).st.currentlyAnalyzing = true := by
  unfold handleCommand
  split
  · exact h
  · unfold cmdName
    split <;> exact h
  · unfold cmdVersion
    split <;> exact h
  · unfold cmdKnownCommand
    repeat' split
    all_goals exact h
  · exact h
  · exact h
  · rw [cmdBoardsize_analyzing, h]
  · unfold cmdClearBoard
    simp only [Handled.ok, setEmptyPosition_analyzing, h]
  · rw [cmdKomi_analyzing, h]
  · rw [cmdTimeSettings_analyzing, h]
  · rw [cmdTimeLeft_analyzing, h]
  · rw [cmdPlay_analyzing, h]
  · rw [cmdGenmove_analyzing, h]
  · exact h
  · rw [cmdPlaceFreeHandicap_analyzing, h]
  · rw [cmdSetFreeHandicap_analyzing, h]
  · rw [cmdFinalScore_analyzing, h]
  · rw [cmdFinalStatusList_analyzing, h]
  · exact cmdAnalyze_analyzing L bot st command pieces h
  · exact h
  · exact h


/-! ## The GTP engine: the framing of a response -/

theorem commandOf_command (hasId : Bool) (id : Int) (line : List Char) :
    ∃ command pieces, commandOf hasId id line = .command hasId id command pieces := by
  unfold commandOf
  split
  · exact ⟨_, _, rfl⟩
  · exact ⟨_, _, rfl⟩

theorem length_pos_of_ne_nil {α : Type} (l : List α) (h : l ≠ []) : ¬ l.length = 0 := by
  intro h0
  exact h (List.length_eq_zero.mp h0)

theorem parseLine_with_id {B H : Type} (L : GtpLib B H) (line : List Char) (N : Int)
    (hd : idDigits line ≠ []) (hp : L.parseDigits (idDigits line) = .ok N) :
    parseLine L line =
      if (afterId line).length ≤ 0 then .emptyCommand else commandOf true N (afterId line) := by
  have hc : ¬ (cleanLine line).length = 0 := by
    intro h0
    apply hd
    unfold idDigits
    rw [List.length_eq_zero.mp h0]
    rfl
  have hdl : (List.takeWhile Global.isDigit (cleanLine line)).length > 0 :=
    Nat.pos_of_ne_zero (length_pos_of_ne_nil _ hd)
  unfold parseLine
  simp only [if_neg hc, if_pos hdl]
  unfold idDigits at hp
  rw [hp]
  rfl

theorem parseLine_bad_id {B H : Type} (L : GtpLib B H) (line : List Char)
    (message : List Char) (hd : idDigits line ≠ [])
    (hp : L.parseDigits (idDigits line) = .error message) :
    parseLine L line = .badId message := by
  have hc : ¬ (cleanLine line).length = 0 := by
    intro h0
    apply hd
    unfold idDigits
    rw [List.length_eq_zero.mp h0]
    rfl
  have hdl : (List.takeWhile Global.isDigit (cleanLine line)).length > 0 :=
    Nat.pos_of_ne_zero (length_pos_of_ne_nil _ hd)
  unfold parseLine
  simp only [if_neg hc, if_pos hdl]
  unfold idDigits at hp
  rw [hp]

theorem cleanLine_trimmed (line : List Char) : Global.trim (cleanLine line) = cleanLine line := by
  unfold cleanLine
  exact trim_trim _

theorem parseLine_without_id {B H : Type} (L : GtpLib B H) (line : List Char)
    (hc : cleanLine line ≠ []) (hd : idDigits line = []) :
    parseLine L line = commandOf false 0 (cleanLine line) := by
  have hdl : ¬ (List.takeWhile Global.isDigit (cleanLine line)).length > 0 := by
    unfold idDigits at hd
    rw [hd]
    exact Nat.lt_irrefl 0
  have hl : ¬ (cleanLine line).length ≤ 0 := by
    have := length_pos_of_ne_nil _ hc
    omega
  unfold parseLine
  simp only [if_neg (length_pos_of_ne_nil _ hc), if_neg hdl, cleanLine_trimmed, if_neg hl]

theorem runCommand_out {B H : Type} (L : GtpLib B H) (bot : Bot B H) (cfg : GtpConfig)
    (run : GtpRun B H) (hasId : Bool) (id : Int) (command : List Char)
    (pieces : List (List Char)) :
    (runCommand L bot cfg run hasId id command pieces).out =
      outBefore run
        ++ frameResponse hasId id
            (handleCommand L bot cfg (stopAnalysis run.st) command pieces).responseIsError
            (handleCommand L bot cfg (stopAnalysis run.st) command pieces).response
        ++ "\n".toList
        ++ (if (handleCommand L bot cfg (stopAnalysis run.st) command pieces).st.currentlyAnalyzing
            then [] else "\n".toList) := by
  unfold runCommand outBefore
  simp only
  cases (handleCommand L bot cfg (stopAnalysis run.st) command pieces).st.currentlyAnalyzing
  · simp only [Bool.not_false, if_true, Bool.false_eq_true, if_false]
    split
    · rfl
    · split <;> rfl
  · simp only [Bool.not_true, Bool.false_eq_true, if_false, if_true, List.append_nil]
    split
    · rfl
    · split <;> rfl

theorem frameResponse_eq (hasId : Bool) (id : Int) (e : Bool) (response : List Char) :
    frameResponse hasId id e response =
      (if e then '?' else '=')
        :: ((if hasId then showInt id else []) ++ ' ' :: response) := by
  cases e <;> cases hasId <;> simp [frameResponse]

/-- C16 fails in the program on the two kinds of line it names. For a line
that begins, after cleaning, with digits that `parseDigits` reads as the id
`N` and that has a command after them, what is written is `=` when the
command succeeded and `?` when it failed, then `N`, a blank, the response and
the line feeds; for a line that is not blank and does not begin with a digit
it is `=` or `?` in the same way, a blank, the response and the line feeds.
But a line that has only the id `N` is answered `? empty command` and a line
whose id `parseDigits` rejects is answered `? GTP id '0' could not be
parsed: ` and the message: both without the id of the line and with a single
line feed, and without the line feed that ends a running analysis. -/
theorem response_framing {B H : Type} (L : GtpLib B H) (bot : Bot B H) (cfg : GtpConfig)
    (run : GtpRun B H) (line : List Char) :
    (∀ N : Int, idDigits line ≠ [] → L.parseDigits (idDigits line) = .ok N →
        afterId line ≠ [] →
        ∃ command pieces, parseLine L line = .command true N command pieces
          ∧ (processLine L bot cfg run line).out
              = outBefore run
                ++ (if (handleCommand L bot cfg (stopAnalysis run.st) command
                        pieces).responseIsError then '?' else '=')
                  :: (showInt N ++ ' '
                    :: (handleCommand L bot cfg (stopAnalysis run.st) command pieces).response)
                ++ "\n".toList
                ++ (if (handleCommand L bot cfg (stopAnalysis run.st) command
                        pieces).st.currentlyAnalyzing then [] else "\n".toList))
    ∧ (cleanLine line ≠ [] → idDigits line = [] →
        ∃ command pieces, parseLine L line = .command false 0 command pieces
          ∧ (processLine L bot cfg run line).out
              = outBefore run
                ++ (if (handleCommand L bot cfg (stopAnalysis run.st) command
                        pieces).responseIsError then '?' else '=')
                  :: ' '
                    :: (handleCommand L bot cfg (stopAnalysis run.st) command pieces).response
                ++ "\n".toList
                ++ (if (handleCommand L bot cfg (stopAnalysis run.st) command
                        pieces).st.currentlyAnalyzing then [] else "\n".toList))
    ∧ (∀ N : Int, idDigits line ≠ [] → L.parseDigits (idDigits line) = .ok N →
        afterId line = [] →
        (processLine L bot cfg run line).out = run.out ++ "? empty command\n".toList)
    ∧ (∀ message : List Char, idDigits line ≠ [] →
        L.parseDigits (idDigits line) = .error message →
        (processLine L bot cfg run line).out
          = run.out ++ "? GTP id '0' could not be parsed: ".toList ++ message
              ++ "\n".toList) := by
  refine ⟨?_, ?_, ?_, ?_⟩
  · intro N hd hp hrest
    have hl : ¬ (afterId line).length ≤ 0 := by
      have := length_pos_of_ne_nil _ hrest
      omega
    obtain ⟨command, pieces, hc⟩ := commandOf_command true N (afterId line)
    have hpl : parseLine L line = .command true N command pieces := by
      rw [parseLine_with_id L line N hd hp, if_neg hl, hc]
    refine ⟨command, pieces, hpl, ?_⟩
    unfold processLine
    rw [hpl]
    simp only
    rw [runCommand_out, frameResponse_eq]
    simp only [if_true, List.append_assoc, List.cons_append]
  · intro hc hd
    obtain ⟨command, pieces, hco⟩ := commandOf_command false 0 (cleanLine line)
    have hpl : parseLine L line = .command false 0 command pieces := by
      rw [parseLine_without_id L line hc hd, hco]
    refine ⟨command, pieces, hpl, ?_⟩
    unfold processLine
    rw [hpl]
    simp only
    rw [runCommand_out, frameResponse_eq]
    simp only [Bool.false_eq_true, if_false, List.nil_append, List.append_assoc,
      List.cons_append]
  · intro N hd hp hrest
    have hl : (afterId line).length ≤ 0 := by
      rw [hrest]
      exact Nat.le_refl 0
    unfold processLine
    rw [parseLine_with_id L line N hd hp, if_pos hl]
    simp only [List.append_assoc]
    rfl
  · intro message hd hp
    unfold processLine
    rw [parseLine_bad_id L line message hd hp]
    simp only [List.append_assoc]
    rfl

theorem response_framing_witness :
    (processLine sampleLib (sampleBot true 0 0) (sampleConfig false)
        (sampleRun (sampleBot true 0 0)) "7".toList).out
      = (sampleRun (sampleBot true 0 0)).out ++ "? empty command\n".toList :=
  (response_framing sampleLib (sampleBot true 0 0) (sampleConfig false)
    (sampleRun (sampleBot true 0 0)) "7".toList).2.2.1 7 (by decide) (by decide) (by decide)

/-- On the sample the line `7`, an id with no command, is answered
`? empty command`, and the line `99999999999 name`, whose id the reader of
the sample rejects, is answered `? GTP id '0' could not be parsed: overflow`;
neither response holds the id of its line or is followed by an empty line,
while the line `7 name` is answered `=7 KataGo` and an empty line, and the
line `7 nonsense` is answered `?7 unknown command` and an empty line. -/
theorem response_framing_without_id :
    (processLine sampleLib (sampleBot true 0 0) (sampleConfig false)
        (sampleRun (sampleBot true 0 0)) "7".toList).out = "? empty command\n".toList
    ∧ (processLine sampleLib (sampleBot true 0 0) (sampleConfig false)
        (sampleRun (sampleBot true 0 0)) "99999999999 name".toList).out
        = "? GTP id '0' could not be parsed: overflow\n".toList
    ∧ (processLine sampleLib (sampleBot true 0 0) (sampleConfig false)
        (sampleRun (sampleBot true 0 0)) "7 name".toList).out = "=7 KataGo\n\n".toList
    ∧ (processLine sampleLib (sampleBot true 0 0) (sampleConfig false)
        (sampleRun (sampleBot true 0 0)) "7 nonsense".toList).out
        = "?7 unknown command\n\n".toList := by
  refine ⟨by decide, by decide, by decide, by decide⟩

/-! ## The GTP engine: the empty line after a response -/

theorem stopAnalysis_analyzing {B H : Type} (st : GtpState B H) :
    (stopAnalysis st).currentlyAnalyzing = st.currentlyAnalyzing := by
  unfold stopAnalysis
  split <;> rfl

theorem runCommand_analyzing {B H : Type} (L : GtpLib B H) (bot : Bot B H) (cfg : GtpConfig)
    (run : GtpRun B H) (hasId : Bool) (id : Int) (command : List Char)
    (pieces : List (List Char)) (h : run.st.currentlyAnalyzing = true) :
    (runCommand L bot cfg run hasId id command pieces).st.currentlyAnalyzing = true := by
  have hh := handleCommand_analyzing L bot cfg (stopAnalysis run.st) command pieces
    (by rw [stopAnalysis_analyzing, h])
  unfold runCommand
  simp only
  split
  · exact hh
  · split
    · exact hh
    · exact hh

theorem processLine_analyzing {B H : Type} (L : GtpLib B H) (bot : Bot B H) (cfg : GtpConfig)
    (run : GtpRun B H) (line : List Char) (h : run.st.currentlyAnalyzing = true) :
    (processLine L bot cfg run line).st.currentlyAnalyzing = true := by
  unfold processLine
  split
  · exact h
  · exact h
  · exact h
  · exact runCommand_analyzing L bot cfg run _ _ _ _ h

theorem runLines_analyzing {B H : Type} (L : GtpLib B H) (bot : Bot B H) (cfg : GtpConfig)
    (lines : List (List Char)) :
    ∀ run : GtpRun B H, run.st.currentlyAnalyzing = true →
      (runLines L bot cfg run lines).st.currentlyAnalyzing = true := by
  induction lines with
  | nil =>
    intro run h
    exact h
  | cons line rest ih =>
    intro run h
    unfold runLines
    split
    · exact h
    · exact ih _ (processLine_analyzing L bot cfg run line h)

/-- C17 fails in the program: the flag `currentlyAnalyzing` is set by an
analyze command and no statement sets it back. Once it is set it stays set
over every sequence of lines, and every command that follows writes a line
feed first and then its response with a single line feed: the response is
not followed by an empty line, whether or not an analysis is running. -/
theorem analyzing_never_reset {B H : Type} (L : GtpLib B H) (bot : Bot B H)
    (cfg : GtpConfig) (run : GtpRun B H) (h : run.st.currentlyAnalyzing = true) :
    (∀ lines : List (List Char), (runLines L bot cfg run lines).st.currentlyAnalyzing = true)
    ∧ (∀ (hasId : Bool) (id : Int) (command : List Char) (pieces : List (List Char)),
        (runCommand L bot cfg run hasId id command pieces).out =
          run.out ++ "\n".toList
            ++ frameResponse hasId id
                (handleCommand L bot cfg (stopAnalysis run.st) command pieces).responseIsError
                (handleCommand L bot cfg (stopAnalysis run.st) command pieces).response
            ++ "\n".toList) := by
  refine ⟨fun lines => runLines_analyzing L bot cfg lines run h, ?_⟩
  intro hasId id command pieces
  have hh := handleCommand_analyzing L bot cfg (stopAnalysis run.st) command pieces
    (by rw [stopAnalysis_analyzing, h])
  rw [runCommand_out, hh]
  unfold outBefore
  rw [h]
  simp only [if_true, List.append_nil]

theorem analyzing_never_reset_witness :
    (∀ lines : List (List Char),
      (runLines sampleLib (sampleBot true 0 0) (sampleConfig false)
        (processLine sampleLib (sampleBot true 0 0) (sampleConfig false)
          (sampleRun (sampleBot true 0 0)) "kata-analyze".toList)
        lines).st.currentlyAnalyzing = true)
    ∧ (∀ (hasId : Bool) (id : Int) (command : List Char) (pieces : List (List Char)),
        (runCommand sampleLib (sampleBot true 0 0) (sampleConfig false)
          (processLine sampleLib (sampleBot true 0 0) (sampleConfig false)
            (sampleRun (sampleBot true 0 0)) "kata-analyze".toList)
          hasId id command pieces).out =
          (processLine sampleLib (sampleBot true 0 0) (sampleConfig false)
            (sampleRun (sampleBot true 0 0)) "kata-analyze".toList).out ++ "\n".toList
            ++ frameResponse hasId id
                (handleCommand sampleLib (sampleBot true 0 0) (sampleConfig false)
                  (stopAnalysis (processLine sampleLib (sampleBot true 0 0) (sampleConfig false)
                    (sampleRun (sampleBot true 0 0)) "kata-analyze".toList).st)
                  command pieces).responseIsError
                (handleCommand sampleLib (sampleBot true 0 0) (sampleConfig false)
                  (stopAnalysis (processLine sampleLib (sampleBot true 0 0) (sampleConfig false)
                    (sampleRun (sampleBot true 0 0)) "kata-analyze".toList).st)
                  command pieces).response
            ++ "\n".toList) :=
  analyzing_never_reset sampleLib (sampleBot true 0 0) (sampleConfig false)
    (processLine sampleLib (sampleBot true 0 0) (sampleConfig false)
      (sampleRun (sampleBot true 0 0)) "kata-analyze".toList) (by decide)

/-- The lines `kata-analyze`, `name`, `name` on the sample: the response to
each `name` is written after a line feed and is not followed by an empty
line, and the flag is still set at the end, after the analysis was stopped
twice. -/
theorem analyze_then_name :
    (runLines sampleLib (sampleBot true 0 0) (sampleConfig false)
        (sampleRun (sampleBot true 0 0))
        ["kata-analyze".toList, "name".toList, "name".toList]).out
      = "= \n\n= KataGo\n\n= KataGo\n".toList
    ∧ (runLines sampleLib (sampleBot true 0 0) (sampleConfig false)
        (sampleRun (sampleBot true 0 0))
        ["kata-analyze".toList, "name".toList, "name".toList]).st.currentlyAnalyzing = true
    ∧ (runLines sampleLib (sampleBot true 0 0) (sampleConfig false)
        (sampleRun (sampleBot true 0 0))
        ["kata-analyze".toList, "name".toList, "name".toList]).st.calls.drop 3
      = [.stopAndWait, .stopAndWait]
    ∧ (runLines sampleLib (sampleBot true 0 0) (sampleConfig false)
        (sampleRun (sampleBot true 0 0)) ["name".toList, "name".toList]).out
      = "= KataGo\n\n= KataGo\n\n".toList := by
  refine ⟨by decide, by decide, by decide, by decide⟩

/-! ## The GTP engine: resignation -/

set_option maxRecDepth 20000

theorem tryParsePlayer_some (s : List Char) (pla : Player) (h : tryParsePlayer s = some pla) :
    pla = .black ∨ pla = .white := by
  unfold tryParsePlayer at h
  simp only at h
  split at h
  · exact Or.inl (Option.some.inj h).symm
  · split at h
    · exact Or.inr (Option.some.inj h).symm
    · cases h

theorem genmoveResigned_only_if {B H : Type} (L : GtpLib B H) (cfg : GtpConfig) (hist : H)
    (pla : Player) (winLossValue expectedScore : ℚ) (hpla : pla = .black ∨ pla = .white)
    (h : genmoveResigned L cfg hist pla winLossValue expectedScore = true) :
    cfg.allowResignation = true
    ∧ beyondThreshold cfg.resignThreshold pla winLossValue = true := by
  unfold genmoveResigned at h
  cases ha : cfg.allowResignation with
  | false =>
    rw [ha] at h
    simp only [Bool.false_eq_true, if_false] at h
  | true =>
    refine ⟨rfl, ?_⟩
    rw [ha] at h
    simp only [if_true, decide_eq_true_eq] at h
    have hpl := h.1
    clear h
    by_cases hw : winLossValue < cfg.resignThreshold
    · rw [if_pos hw] at hpl
      subst hpl
      simp [beyondThreshold, hw]
    · rw [if_neg hw] at hpl
      by_cases hb : winLossValue > -cfg.resignThreshold
      · rw [if_pos hb] at hpl
        subst hpl
        simp [beyondThreshold, hb]
      · rw [if_neg hb] at hpl
        subst hpl
        rcases hpla with h1 | h1 <;> cases h1

theorem ite_response {B H : Type} (c : Prop) [Decidable c] (a b : Handled B H)
    (x : List Char) (ha : a.response = x) (hb : b.response = x) :
    (if c then a else b).response = x := by
  split
  · exact ha
  · exact hb

theorem readConfig_congr (cfg1 cfg2 : ConfigParser) (overrideVersion : List Char)
    (h : ∀ key : List Char, key ≠ "resignConsecTurns".toList →
      cfg1.contains key = cfg2.contains key ∧ cfg1.getBool key = cfg2.getBool key
      ∧ cfg1.getDouble key = cfg2.getDouble key ∧ cfg1.getInt key = cfg2.getInt key) :
    readConfig cfg1 overrideVersion = readConfig cfg2 overrideVersion := by
  have h1 := h "ponderingEnabled".toList (by decide)
  have h2 := h "cleanupBeforePass".toList (by decide)
  have h3 := h "allowResignation".toList (by decide)
  have h4 := h "resignThreshold".toList (by decide)
  have h5 := h "whiteBonusPerHandicapStone".toList (by decide)
  have h6 := h "searchFactorWhenWinning".toList (by decide)
  have h7 := h "searchFactorWhenWinningThreshold".toList (by decide)
  unfold readConfig
  rw [h1.2.1, h2.1, h2.2.1, h3.1, h3.2.1, h4.2.2.1, h5.1, h5.2.2.2, h6.1, h6.2.2.1, h7.1,
    h7.2.2.1]

/-- C20, as the program has it. When `genmove` is given a player, its
response is `resign` when the resignation block sets `resigned` and the name
of the move otherwise; the block sets `resigned` only if `allowResignation`
is set and the root win-loss value of this turn is beyond `resignThreshold`
against the player to move (below it for White, above its negative for
Black). The record of the values of earlier turns does not enter the block,
and the settings the engine reads do not depend on a key
`resignConsecTurns`. -/
theorem genmove_resign_current_turn {B H : Type} (L : GtpLib B H) (bot : Bot B H)
    (cfg : GtpConfig) (st : GtpState B H) (p0 : List Char) (pla : Player)
    (hp : tryParsePlayer p0 = some pla) :
    (∃ calls moveLoc,
      calls = st.calls ++ [.clearStats]
        ++ [.genMoveSynchronous pla (if pla = .black then st.bTimeControls else st.wTimeControls)
          (L.getSearchFactor cfg.searchFactorWhenWinningThreshold cfg.searchFactorWhenWinning
            st.recentWinLossValues pla)]
      ∧ (cmdGenmove L bot cfg st [p0]).response =
          (if genmoveResigned L cfg (bot.getRootHist calls) pla (bot.getRootValues calls).1
              (bot.getRootValues calls).2 = true then "resign".toList
            else L.locToString moveLoc (bot.getRootBoard calls))
      ∧ (genmoveResigned L cfg (bot.getRootHist calls) pla (bot.getRootValues calls).1
            (bot.getRootValues calls).2 = true →
          cfg.allowResignation = true
          ∧ beyondThreshold cfg.resignThreshold pla (bot.getRootValues calls).1 = true))
    ∧ (∀ (cfg1 cfg2 : ConfigParser) (overrideVersion : List Char),
        (∀ key : List Char, key ≠ "resignConsecTurns".toList →
          cfg1.contains key = cfg2.contains key ∧ cfg1.getBool key = cfg2.getBool key
          ∧ cfg1.getDouble key = cfg2.getDouble key ∧ cfg1.getInt key = cfg2.getInt key) →
        readConfig cfg1 overrideVersion = readConfig cfg2 overrideVersion) := by
  refine ⟨⟨_, cleanupMove L bot cfg (st.calls ++ [.clearStats]
      ++ [.genMoveSynchronous pla (if pla = .black then st.bTimeControls else st.wTimeControls)
        (L.getSearchFactor cfg.searchFactorWhenWinningThreshold cfg.searchFactorWhenWinning
          st.recentWinLossValues pla)]) pla
      (bot.genMoveSynchronous (st.calls ++ [.clearStats]) pla
        (if pla = .black then st.bTimeControls else st.wTimeControls)
        (L.getSearchFactor cfg.searchFactorWhenWinningThreshold cfg.searchFactorWhenWinning
          st.recentWinLossValues pla)), rfl, ?_, ?_⟩, readConfig_congr⟩
  · unfold cmdGenmove
    simp only [hp]
    exact ite_response _ _ _ _ rfl rfl
  · intro h
    exact genmoveResigned_only_if L cfg _ pla _ _ (tryParsePlayer_some p0 pla hp) h

theorem genmove_resign_current_turn_witness :
    (∃ calls moveLoc,
      calls = (sampleRun (sampleBot true 84 (-19 / 20))).st.calls ++ [.clearStats]
        ++ [.genMoveSynchronous .white
          (if Color.white = .black then (sampleRun (sampleBot true 84 (-19 / 20))).st.bTimeControls
            else (sampleRun (sampleBot true 84 (-19 / 20))).st.wTimeControls)
          (sampleLib.getSearchFactor (sampleConfig false).searchFactorWhenWinningThreshold
            (sampleConfig false).searchFactorWhenWinning
            (sampleRun (sampleBot true 84 (-19 / 20))).st.recentWinLossValues .white)]
      ∧ (cmdGenmove sampleLib (sampleBot true 84 (-19 / 20)) (sampleConfig false)
            (sampleRun (sampleBot true 84 (-19 / 20))).st ["w".toList]).response =
          (if genmoveResigned sampleLib (sampleConfig false)
              ((sampleBot true 84 (-19 / 20)).getRootHist calls) .white
              ((sampleBot true 84 (-19 / 20)).getRootValues calls).1
              ((sampleBot true 84 (-19 / 20)).getRootValues calls).2 = true then "resign".toList
            else sampleLib.locToString moveLoc ((sampleBot true 84 (-19 / 20)).getRootBoard calls))
      ∧ (genmoveResigned sampleLib (sampleConfig false)
            ((sampleBot true 84 (-19 / 20)).getRootHist calls) .white
            ((sampleBot true 84 (-19 / 20)).getRootValues calls).1
            ((sampleBot true 84 (-19 / 20)).getRootValues calls).2 = true →
          (sampleConfig false).allowResignation = true
          ∧ beyondThreshold (sampleConfig false).resignThreshold .white
              ((sampleBot true 84 (-19 / 20)).getRootValues calls).1 = true))
    ∧ (∀ (cfg1 cfg2 : ConfigParser) (overrideVersion : List Char),
        (∀ key : List Char, key ≠ "resignConsecTurns".toList →
          cfg1.contains key = cfg2.contains key ∧ cfg1.getBool key = cfg2.getBool key
          ∧ cfg1.getDouble key = cfg2.getDouble key ∧ cfg1.getInt key = cfg2.getInt key) →
        readConfig cfg1 overrideVersion = readConfig cfg2 overrideVersion) :=
  genmove_resign_current_turn sampleLib (sampleBot true 84 (-19 / 20)) (sampleConfig false)
    (sampleRun (sampleBot true 84 (-19 / 20))).st "w".toList .white (by decide)

/-- C20 fails as stated: on the sample the root win-loss value is 0 at the
first `genmove` and `-19/20`, below the threshold `-9/10`, at the second; the
second `genmove` answers `resign` although the value was beyond the
threshold on the current turn only, not on two turns in a row. -/
theorem genmove_resigns_after_one_turn :
    (runLines sampleLib turningBot (sampleConfig false) (sampleRun turningBot)
        ["genmove b".toList, "genmove w".toList]).out = "= 84\n\n= resign\n\n".toList
    ∧ (runLines sampleLib turningBot (sampleConfig false) (sampleRun turningBot)
        ["genmove b".toList, "genmove w".toList]).st.recentWinLossValues = [0, -19 / 20]
    ∧ beyondThreshold (sampleConfig false).resignThreshold .white 0 = false
    ∧ beyondThresholdOnLast (sampleConfig false).resignThreshold .white
        (runLines sampleLib turningBot (sampleConfig false) (sampleRun turningBot)
          ["genmove b".toList, "genmove w".toList]).st.recentWinLossValues 2 = false := by
  refine ⟨by with_unfolding_all decide, by with_unfolding_all decide,
    by with_unfolding_all decide, by with_unfolding_all decide⟩

/-! ## The claims on a sample -/

theorem getBSize_spec_witness :
    (Sgf.mk [{ props := [("SZ".toList, ["9".toList])] }] []).getBSize sampleExternals = .ok 9 :=
  ((getBSize_spec sampleExternals { props := [("SZ".toList, ["9".toList])] } [] []).2.1
    (by decide) 9).mpr ⟨"9".toList, by decide, by decide, by decide, by decide⟩

theorem komi_accepts_iff_witness :
    (cmdKomi sampleLib (sampleBot true 0 0) (sampleConfig false)
        (sampleRun (sampleBot true 0 0)).st ["6.5".toList]).st.unhackedKomi = 13 / 2
    ∧ (cmdKomi sampleLib (sampleBot true 0 0) (sampleConfig false)
        (sampleRun (sampleBot true 0 0)).st ["6.5".toList]).st.calls =
        (sampleRun (sampleBot true 0 0)).st.calls ++ [.setKomiIfNew
          (13 / 2 + numHandicapStones sampleLib ((sampleBot true 0 0).getRootHist
              (sampleRun (sampleBot true 0 0)).st.calls)
            * (sampleConfig false).whiteBonusPerHandicapStone)] :=
  (komi_accepts_iff sampleLib (sampleBot true 0 0) (sampleConfig false)
    (sampleRun (sampleBot true 0 0)).st ["6.5".toList]).2.1 "6.5".toList (13 / 2) rfl
    (by with_unfolding_all decide) (by norm_num) (by norm_num) ⟨13, by norm_num⟩

theorem boardsize_accepts_iff_witness :
    (cmdBoardsize sampleLib (sampleBot true 0 0) (sampleConfig false)
        (sampleRun (sampleBot true 0 0)).st ["9".toList]).responseIsError = false :=
  (boardsize_accepts_iff sampleLib (sampleBot true 0 0) (sampleConfig false)
    (sampleRun (sampleBot true 0 0)).st ["9".toList]).1.mpr
    ⟨"9".toList, 9, rfl, by decide, by decide, by decide⟩

theorem time_settings_spec_witness :
    (cmdTimeSettings sampleLib (sampleRun (sampleBot true 0 0)).st
        ["600".toList, "30".toList, "5".toList]).st.bTimeControls =
      { originalMainTime := 600, increment := 0, originalNumPeriods := 1,
        numStonesPerPeriod := 5, perPeriodTime := 30, mainTimeLeft := 600,
        inOvertime := false, numPeriodsLeftIncludingCurrent := 1,
        numStonesLeftInPeriod := 0, timeLeftInPeriod := 0 } :=
  ((time_settings_spec sampleLib (sampleRun (sampleBot true 0 0)).st
    ["600".toList, "30".toList, "5".toList]).1 "600".toList "30".toList "5".toList 600 30 5 rfl
    (by with_unfolding_all decide) (by with_unfolding_all decide) (by decide)
    (by norm_num) (by norm_num [double1e50]) (by norm_num) (by norm_num [double1e50])
    (by decide) (by decide)).2.2.2.2
    (by decide)

/-- The state of `genmove` for `pla` after the search and the root values
were read. -/
theorem cmdGenmove_eq {B H : Type} (L : GtpLib B H) (bot : Bot B H) (cfg : GtpConfig)
    (st : GtpState B H) (p0 : List Char) (pla : Player) (hp : tryParsePlayer p0 = some pla) :
    cmdGenmove L bot cfg st [p0] =
      if !genmoveResigns L bot cfg st pla ∧ genmoveFinal L bot cfg st pla ≠ Board.NULL_LOC
          ∧ bot.isLegal (genmoveCalls L cfg st pla) (genmoveChosen L bot cfg st pla) pla = true
      then
        { st :=
            { st with
                calls := genmoveCalls L cfg st pla
                  ++ [.makeMove (genmoveFinal L bot cfg st pla) pla]
                lastSearchFactor := genmoveSearchFactor L cfg st pla
                recentWinLossValues := st.recentWinLossValues
                  ++ [(bot.getRootValues (genmoveCalls L cfg st pla)).1] }
          responseIsError := decide (genmoveChosen L bot cfg st pla = Board.NULL_LOC)
            || !bot.isLegal (genmoveCalls L cfg st pla) (genmoveChosen L bot cfg st pla) pla
          shouldQuitAfterResponse := false
          maybeStartPondering := true
          response :=
            if genmoveResigns L bot cfg st pla then "resign".toList
            else L.locToString (genmoveFinal L bot cfg st pla)
              (bot.getRootBoard (genmoveCalls L cfg st pla)) }
      else
        { st :=
            { st with
                calls := genmoveCalls L cfg st pla
                lastSearchFactor := genmoveSearchFactor L cfg st pla
                recentWinLossValues := st.recentWinLossValues
                  ++ [(bot.getRootValues (genmoveCalls L cfg st pla)).1] }
          responseIsError := decide (genmoveChosen L bot cfg st pla = Board.NULL_LOC)
            || !bot.isLegal (genmoveCalls L cfg st pla) (genmoveChosen L bot cfg st pla) pla
          shouldQuitAfterResponse := false
          maybeStartPondering := false
          response :=
            if genmoveResigns L bot cfg st pla then "resign".toList
            else L.locToString (genmoveFinal L bot cfg st pla)
              (bot.getRootBoard (genmoveCalls L cfg st pla)) } := by
  unfold cmdGenmove
  simp only [hp]
  rfl

theorem mem_gtpBoardLocs (x_size y_size : Int) (loc : Loc)
    (h : loc ∈ gtpBoardLocs x_size y_size) :
    ∃ x y : Nat, x < x_size.toNat ∧ y < y_size.toNat ∧ loc = Location.getLoc x y x_size := by
  unfold gtpBoardLocs at h
  obtain ⟨y, hy, hrow⟩ := List.mem_flatMap.mp h
  obtain ⟨x, hx, hloc⟩ := List.mem_map.mp hrow
  have hx2 : ∃ a : Nat, (a : Int) < x_size ∧ x = (a : Int) := by
    simpa using hx
  obtain ⟨a, ha, hax⟩ := hx2
  rw [hax] at hloc
  exact ⟨a, y, by omega, List.mem_range.mp hy, hloc.symm⟩

theorem stopAnalysis_lastSearchFactor {B H : Type} (st : GtpState B H) :
    (stopAnalysis st).lastSearchFactor = st.lastSearchFactor := by
  unfold stopAnalysis
  split <;> rfl

theorem cleanupMove_null {B H : Type} (L : GtpLib B H) (bot : Bot B H) (cfg : GtpConfig)
    (calls : List (BotCall B H)) (pla : Player) :
    cleanupMove L bot cfg calls pla Board.NULL_LOC = Board.NULL_LOC := by
  unfold cleanupMove
  rw [if_neg]
  rintro ⟨_, h⟩
  exact absurd h (by decide)

/-- C22 fails in the program: when `genMoveSynchronous` returns the null
location or a move that is not legal, `genmove` sets `responseIsError` and no
move is committed, but the text `genmove returned null location or illegal
move` it has put in `response` is overwritten afterwards: the response is
`resign` when the resignation block sets `resigned`, and the name of the
move otherwise. -/
theorem genmove_null_response {B H : Type} (L : GtpLib B H) (bot : Bot B H)
    (cfg : GtpConfig) (st : GtpState B H) (p0 : List Char) (pla : Player)
    (hp : tryParsePlayer p0 = some pla)
    (hbad : genmoveChosen L bot cfg st pla = Board.NULL_LOC
      ∨ bot.isLegal (genmoveCalls L cfg st pla) (genmoveChosen L bot cfg st pla) pla = false) :
    (cmdGenmove L bot cfg st [p0]).responseIsError = true
    ∧ (cmdGenmove L bot cfg st [p0]).response =
        (if genmoveResigns L bot cfg st pla then "resign".toList
          else L.locToString (genmoveFinal L bot cfg st pla)
            (bot.getRootBoard (genmoveCalls L cfg st pla)))
    ∧ (cmdGenmove L bot cfg st [p0]).st.calls = genmoveCalls L cfg st pla
    ∧ (cmdGenmove L bot cfg st [p0]).maybeStartPondering = false := by
  have hc : ¬ ((!genmoveResigns L bot cfg st pla) = true
      ∧ genmoveFinal L bot cfg st pla ≠ Board.NULL_LOC
      ∧ bot.isLegal (genmoveCalls L cfg st pla) (genmoveChosen L bot cfg st pla) pla = true) := by
    rintro ⟨_, hf, hl⟩
    rcases hbad with h | h
    · apply hf
      unfold genmoveFinal
      rw [h]
      exact cleanupMove_null L bot cfg _ pla
    · rw [h] at hl
      cases hl
  rw [cmdGenmove_eq L bot cfg st p0 pla hp, if_neg hc]
  refine ⟨?_, rfl, rfl, rfl⟩
  rcases hbad with h | h
  · simp only [h, decide_True, Bool.true_or]
  · simp only [h, Bool.not_false, Bool.or_true]

theorem genmove_null_response_witness :
    (cmdGenmove sampleLib (sampleBot false 1 0) (sampleConfig false)
        (sampleRun (sampleBot false 1 0)).st ["b".toList]).responseIsError = true
    ∧ (cmdGenmove sampleLib (sampleBot false 1 0) (sampleConfig false)
        (sampleRun (sampleBot false 1 0)).st ["b".toList]).response =
        (if genmoveResigns sampleLib (sampleBot false 1 0) (sampleConfig false)
            (sampleRun (sampleBot false 1 0)).st .black then "resign".toList
          else sampleLib.locToString
            (genmoveFinal sampleLib (sampleBot false 1 0) (sampleConfig false)
              (sampleRun (sampleBot false 1 0)).st .black)
            ((sampleBot false 1 0).getRootBoard (genmoveCalls sampleLib (sampleConfig false)
              (sampleRun (sampleBot false 1 0)).st .black)))
    ∧ (cmdGenmove sampleLib (sampleBot false 1 0) (sampleConfig false)
        (sampleRun (sampleBot false 1 0)).st ["b".toList]).st.calls
        = genmoveCalls sampleLib (sampleConfig false) (sampleRun (sampleBot false 1 0)).st .black
    ∧ (cmdGenmove sampleLib (sampleBot false 1 0) (sampleConfig false)
        (sampleRun (sampleBot false 1 0)).st ["b".toList]).maybeStartPondering = false :=
  genmove_null_response sampleLib (sampleBot false 1 0) (sampleConfig false)
    (sampleRun (sampleBot false 1 0)).st "b".toList .black (by decide) (Or.inl (by decide))

/-- The line `genmove b` on the sample, when the search returns the null
location: what is written is `?` and the name of the null location (`1` on
the sample), not the text `genmove returned null location or illegal
move`. -/
theorem genmove_null_sample :
    (sampleBot false 1 0).genMoveSynchronous
        ((sampleRun (sampleBot false 1 0)).st.calls ++ [.clearStats]) .black
        sampleTimeControls 1 = Board.NULL_LOC
    ∧ (processLine sampleLib (sampleBot false 1 0) (sampleConfig false)
        (sampleRun (sampleBot false 1 0)) "genmove b".toList).out = "? 1\n\n".toList
    ∧ (processLine sampleLib (sampleBot false 1 0) (sampleConfig false)
        (sampleRun (sampleBot false 1 0)) "genmove b".toList).out
      ≠ "? genmove returned null location or illegal move\n\n".toList := by
  refine ⟨rfl, by with_unfolding_all decide, by with_unfolding_all decide⟩

/-! ## The GTP engine: the win-rate of an analysis -/

/-- C23 fails in the program for Black: the callbacks compute
`0.5 * (1 + v)` and negate it when the player is Black. For White the
reported value is `(1+v)/2`, in `[0,1]` for `v` in `[-1,1]`; for Black it is
`-(1+v)/2`, which is never `(1-v)/2` and is negative for every `v > -1`. For
`v = 0` Black is reported `-0.5` by `kata-analyze` and `-5000` by
`lz-analyze`. -/
theorem analysis_winrate :
    (∀ v : ℚ, analysisWinrate .white v = (1 + v) / 2)
    ∧ (∀ v : ℚ, -1 ≤ v → v ≤ 1 →
        0 ≤ analysisWinrate .white v ∧ analysisWinrate .white v ≤ 1)
    ∧ (∀ v : ℚ, analysisWinrate .black v = -((1 + v) / 2))
    ∧ (∀ v : ℚ, analysisWinrate .black v ≠ (1 - v) / 2)
    ∧ (∀ v : ℚ, -1 < v → analysisWinrate .black v < 0)
    ∧ analysisWinrate .black 0 = -1 / 2
    ∧ cRound (analysisWinrate .black 0 * 10000) = -5000 := by
  have hw : ∀ v : ℚ, analysisWinrate .white v = (1 + v) / 2 := by
    intro v
    unfold analysisWinrate
    simp only
    rw [if_neg (by decide)]
    ring
  have hb : ∀ v : ℚ, analysisWinrate .black v = -((1 + v) / 2) := by
    intro v
    unfold analysisWinrate
    simp only [if_true]
    ring
  refine ⟨hw, ?_, hb, ?_, ?_, ?_, ?_⟩
  · intro v h1 h2
    rw [hw]
    constructor <;> linarith
  · intro v h
    rw [hb] at h
    linarith
  · intro v h
    rw [hb]
    linarith
  · rw [hb]
    norm_num
  · rw [hb]
    unfold cRound
    norm_num

/-- The text the callbacks write for a move holds the value of
`analysisWinrate` for the player of the callback: as it is for
`kata-analyze`, times 10000 and rounded for `lz-analyze`. -/
theorem analyze_info_winrate {B H : Type} (L : GtpLib B H) (showDouble : ℚ → List Char)
    (pla : Player) (board : B) (data : AnalysisData) :
    (∃ before after, kataAnalyzeInfo L showDouble pla board data
        = before ++ " winrate ".toList
          ++ showDouble (analysisWinrate pla data.winLossValue) ++ after)
    ∧ (∃ before after, lzAnalyzeInfo L showDouble pla board data
        = before ++ " winrate ".toList
          ++ showDouble (cRound (analysisWinrate pla data.winLossValue * 10000)) ++ after) := by
  refine ⟨⟨"info".toList ++ " move ".toList ++ L.locToString data.move board
      ++ " visits ".toList ++ showInt data.numVisits
      ++ " utility ".toList ++ showDouble data.utility,
    " scoreMean ".toList ++ showDouble data.scoreMean
      ++ " scoreStdev ".toList ++ showDouble data.scoreStdev
      ++ " prior ".toList ++ showDouble data.policyPrior
      ++ " order ".toList ++ showInt data.order
      ++ " pv".toList ++ pvText L board data.pv, ?_⟩,
    ⟨"info".toList ++ " move ".toList ++ L.locToString data.move board
      ++ " visits ".toList ++ showInt data.numVisits,
    " prior ".toList ++ showDouble (cRound (data.policyPrior * 10000))
      ++ " order ".toList ++ showInt data.order
      ++ " pv".toList ++ pvText L board data.pv, ?_⟩⟩
  · unfold kataAnalyzeInfo
    simp only [List.append_assoc]
  · unfold lzAnalyzeInfo
    simp only [List.append_assoc]

/-! ## The GTP engine: `final_status_list` -/

theorem flatMap_single {α β : Type} (f : α → β) (l : List α) :
    (l.flatMap fun a => [f a]) = l.map f := by
  induction l with
  | nil => rfl
  | cons a l ih => simp [List.flatMap_cons, ih]

theorem gtpBoardLocs_eq (x_size y_size : Int) :
    gtpBoardLocs x_size y_size =
      (List.range y_size.toNat).flatMap fun y =>
        (List.range x_size.toNat).map fun x : Nat => Location.getLoc (x : Int) (y : Int) x_size := by
  unfold gtpBoardLocs
  congr 1
  funext y
  simp only [List.map_flatMap, Function.comp_def, List.bind_eq_flatMap, List.pure_def,
    List.map_cons, List.map_nil]
  exact flatMap_single _ _

theorem gtpBoardLocs_nodup (x_size y_size : Int) : (gtpBoardLocs x_size y_size).Nodup := by
  rw [gtpBoardLocs_eq, List.nodup_flatMap]
  constructor
  · intro y _
    apply List.Nodup.map_on _ (List.nodup_range _)
    intro a ha b hb hab
    unfold Location.getLoc at hab
    have : (a : Int) = (b : Int) := by linarith
    exact_mod_cast this
  · apply List.Pairwise.imp_of_mem _ (List.nodup_range _)
    intro y1 y2 h1 h2 hne
    simp only [Function.onFun, List.disjoint_left]
    intro loc hl1 hl2
    obtain ⟨a, ha, hla⟩ := List.mem_map.mp hl1
    obtain ⟨b, hb, hlb⟩ := List.mem_map.mp hl2
    have ha2 := List.mem_range.mp ha
    have hb2 := List.mem_range.mp hb
    apply hne
    rw [← hlb] at hla
    unfold Location.getLoc at hla
    have hs : (0 : Int) ≤ x_size := by omega
    have hax : (a : Int) < x_size := by omega
    have hbx : (b : Int) < x_size := by omega
    by_contra hy
    rcases Nat.lt_or_gt_of_ne hy with hlt | hgt
    · have : ((y1 : Int) + 1) * (x_size + 1) + (x_size + 1) ≤ ((y2 : Int) + 1) * (x_size + 1) := by
        have : (y1 : Int) + 1 + 1 ≤ (y2 : Int) + 1 := by omega
        nlinarith
      have hb0 : (0 : Int) ≤ (b : Int) := Int.ofNat_nonneg b
      linarith
    · have : ((y2 : Int) + 1) * (x_size + 1) + (x_size + 1) ≤ ((y1 : Int) + 1) * (x_size + 1) := by
        have : (y2 : Int) + 1 + 1 ≤ (y1 : Int) + 1 := by omega
        nlinarith
      have ha0 : (0 : Int) ≤ (a : Int) := Int.ofNat_nonneg a
      linarith


/-- Every point of a board is visited by the nested loops over the board. -/
theorem getLoc_mem_gtpBoardLocs (x_size y_size x y : Int) (hx0 : 0 ≤ x) (hx : x < x_size)
    (hy0 : 0 ≤ y) (hy : y < y_size) :
    Location.getLoc x y x_size ∈ gtpBoardLocs x_size y_size := by
  rw [gtpBoardLocs_eq]
  refine List.mem_flatMap.mpr ⟨y.toNat, List.mem_range.mpr ?_, ?_⟩
  · omega
  · refine List.mem_map.mpr ⟨x.toNat, List.mem_range.mpr ?_, ?_⟩
    · omega
    · rw [Int.toNat_of_nonneg hx0, Int.toNat_of_nonneg hy0]

/-- The locations the nested loops over a board visit are the points of the
board. -/
theorem mem_gtpBoardLocs_iff (x_size y_size : Int) (loc : Loc) :
    loc ∈ gtpBoardLocs x_size y_size ↔
      ∃ x y : Int, 0 ≤ x ∧ x < x_size ∧ 0 ≤ y ∧ y < y_size
        ∧ loc = Location.getLoc x y x_size := by
  constructor
  · intro h
    obtain ⟨x, y, hx, hy, hloc⟩ := mem_gtpBoardLocs x_size y_size loc h
    exact ⟨x, y, Int.ofNat_nonneg x, by omega, Int.ofNat_nonneg y, by omega, hloc⟩
  · rintro ⟨x, y, hx0, hx, hy0, hy, rfl⟩
    exact getLoc_mem_gtpBoardLocs x_size y_size x y hx0 hx hy0 hy

theorem handleCommand_final_status_list {B H : Type} (L : GtpLib B H) (bot : Bot B H)
    (cfg : GtpConfig) (st : GtpState B H) (pieces : List (List Char)) :
    handleCommand L bot cfg st "final_status_list".toList pieces
      = cmdFinalStatusList L bot st pieces := by
  have hb : branchOf "final_status_list".toList = .final_status_list := by decide
  unfold handleCommand
  rw [hb]

theorem locsToReport_seki {B H : Type} (L : GtpLib B H) (board : B) (hist : H) :
    locsToReport L board hist 1 = [] := by
  unfold locsToReport
  split
  · rfl
  · simp

theorem mem_locsToReport_alive {B H : Type} (L : GtpLib B H) (board : B) (hist : H)
    (loc : Loc) :
    loc ∈ locsToReport L board hist 0 ↔
      loc ∈ gtpBoardLocs (L.x_size board) (L.y_size board) ∧ L.colors board loc ≠ .empty
        ∧ ((L.isGameFinished hist = true ∧ L.isNoResult hist = true)
          ∨ L.colors board loc = L.scoreArea hist board loc) := by
  unfold locsToReport
  split
  · rename_i h
    simp [List.mem_filter, h]
  · rename_i h
    simp only [List.mem_filter, true_and, h, false_or]
    by_cases hc : L.colors board loc = .empty
    · simp [hc]
    · by_cases ha : L.colors board loc = L.scoreArea hist board loc
      · simp [hc, ha]
      · simp [hc, ha]

theorem mem_locsToReport_dead {B H : Type} (L : GtpLib B H) (board : B) (hist : H)
    (loc : Loc) :
    loc ∈ locsToReport L board hist 2 ↔
      loc ∈ gtpBoardLocs (L.x_size board) (L.y_size board) ∧ L.colors board loc ≠ .empty
        ∧ ¬ (L.isGameFinished hist = true ∧ L.isNoResult hist = true)
        ∧ L.colors board loc ≠ L.scoreArea hist board loc := by
  unfold locsToReport
  split
  · rename_i h
    simp [h]
  · rename_i h
    simp only [List.mem_filter, h, not_false_eq_true, true_and]
    by_cases hc : L.colors board loc = .empty
    · simp [hc]
    · by_cases ha : L.colors board loc = L.scoreArea hist board loc
      · simp [hc, ha]
      · simp [hc, ha]

theorem locsToReport_nodup {B H : Type} (L : GtpLib B H) (board : B) (hist : H)
    (statusMode : Nat) : (locsToReport L board hist statusMode).Nodup := by
  unfold locsToReport
  split
  · split
    · exact (gtpBoardLocs_nodup _ _).filter _
    · exact List.nodup_nil
  · exact (gtpBoardLocs_nodup _ _).filter _


/-- C24. `final_status_list alive`, `seki` and `dead` answer with the names of
the locations `locsToReport` gives for the modes 0, 1 and 2, and every other
argument list is an error that leaves the state as it was. For every board
and history: mode 1 reports nothing; every location reported is a point
`(x, y)` of the board that holds a stone; every point `(x, y)` of the board
that holds a stone is reported by exactly one of the modes 0 and 2, once;
unless the game has ended with no result a stone is reported alive exactly
when its colour is the colour of the scored area at its point and dead
exactly when it is not; and when the game has ended with no result every
stone is reported alive and none dead. -/
theorem final_status_list_partition {B H : Type} (L : GtpLib B H) (bot : Bot B H)
    (st : GtpState B H) :
    cmdFinalStatusList L bot st ["alive".toList] =
        Handled.ok st (Global.concat
          ((locsToReport L (bot.getRootBoard st.calls) (bot.getRootHist st.calls) 0).map
            fun loc => L.locToString loc (bot.getRootBoard st.calls)) " ".toList)
    ∧ cmdFinalStatusList L bot st ["seki".toList] = Handled.ok st []
    ∧ cmdFinalStatusList L bot st ["dead".toList] =
        Handled.ok st (Global.concat
          ((locsToReport L (bot.getRootBoard st.calls) (bot.getRootHist st.calls) 2).map
            fun loc => L.locToString loc (bot.getRootBoard st.calls)) " ".toList)
    ∧ (∀ p0 : List Char, p0 ≠ "alive".toList → p0 ≠ "seki".toList → p0 ≠ "dead".toList →
        cmdFinalStatusList L bot st [p0] = Handled.err st
          "Argument to final_status_list must be 'alive' or 'seki' or 'dead'".toList)
    ∧ (∀ pieces : List (List Char), pieces.length ≠ 1 →
        (cmdFinalStatusList L bot st pieces).responseIsError = true
        ∧ (cmdFinalStatusList L bot st pieces).st = st)
    ∧ (∀ (board : B) (hist : H),
        locsToReport L board hist 1 = []
        ∧ (∀ loc : Loc, loc ∈ locsToReport L board hist 0 ∨ loc ∈ locsToReport L board hist 2 →
            (∃ x y : Int, 0 ≤ x ∧ x < L.x_size board ∧ 0 ≤ y ∧ y < L.y_size board
              ∧ loc = Location.getLoc x y (L.x_size board))
            ∧ L.colors board loc ≠ .empty)
        ∧ (∀ x y : Int, 0 ≤ x → x < L.x_size board → 0 ≤ y → y < L.y_size board →
            L.colors board (Location.getLoc x y (L.x_size board)) ≠ .empty →
            ((Location.getLoc x y (L.x_size board) ∈ locsToReport L board hist 0
                ∧ Location.getLoc x y (L.x_size board) ∉ locsToReport L board hist 2)
              ∨ (Location.getLoc x y (L.x_size board) ∉ locsToReport L board hist 0
                ∧ Location.getLoc x y (L.x_size board) ∈ locsToReport L board hist 2))
            ∧ (locsToReport L board hist 0).count (Location.getLoc x y (L.x_size board))
                + (locsToReport L board hist 2).count (Location.getLoc x y (L.x_size board))
                = 1
            ∧ (¬ (L.isGameFinished hist = true ∧ L.isNoResult hist = true) →
                (Location.getLoc x y (L.x_size board) ∈ locsToReport L board hist 0 ↔
                  L.colors board (Location.getLoc x y (L.x_size board))
                    = L.scoreArea hist board (Location.getLoc x y (L.x_size board)))
                ∧ (Location.getLoc x y (L.x_size board) ∈ locsToReport L board hist 2 ↔
                  L.colors board (Location.getLoc x y (L.x_size board))
                    ≠ L.scoreArea hist board (Location.getLoc x y (L.x_size board))))
            ∧ (L.isGameFinished hist = true ∧ L.isNoResult hist = true →
                Location.getLoc x y (L.x_size board) ∈ locsToReport L board hist 0
                ∧ Location.getLoc x y (L.x_size board) ∉ locsToReport L board hist 2))) := by
  refine ⟨?_, ?_, ?_, ?_, ?_, ?_⟩
  · rfl
  · have h : cmdFinalStatusList L bot st ["seki".toList] =
        Handled.ok st (Global.concat
          ((locsToReport L (bot.getRootBoard st.calls) (bot.getRootHist st.calls) 1).map
            fun loc => L.locToString loc (bot.getRootBoard st.calls)) " ".toList) := rfl
    rw [h, locsToReport_seki]
    rfl
  · rfl
  · intro p0 h1 h2 h3
    unfold cmdFinalStatusList
    simp only [if_neg h1, if_neg h2, if_neg h3, Nat.lt_irrefl, if_false]
  · intro pieces hlen
    match pieces with
    | [] => exact ⟨rfl, rfl⟩
    | [_] => exact absurd rfl hlen
    | _ :: _ :: _ => exact ⟨rfl, rfl⟩
  · intro board hist
    refine ⟨locsToReport_seki L board hist, ?_, ?_⟩
    · rintro loc (h | h)
      · have := (mem_locsToReport_alive L board hist loc).mp h
        exact ⟨(mem_gtpBoardLocs_iff _ _ loc).mp this.1, this.2.1⟩
      · have := (mem_locsToReport_dead L board hist loc).mp h
        exact ⟨(mem_gtpBoardLocs_iff _ _ loc).mp this.1, this.2.1⟩
    · intro x y hx0 hx hy0 hy hstone
      have hmem := getLoc_mem_gtpBoardLocs (L.x_size board) (L.y_size board) x y hx0 hx hy0 hy
      generalize Location.getLoc x y (L.x_size board) = loc at hmem hstone ⊢
      have halive := mem_locsToReport_alive L board hist loc
      have hdead := mem_locsToReport_dead L board hist loc
      have hexcl : (loc ∈ locsToReport L board hist 0 ∧ loc ∉ locsToReport L board hist 2)
          ∨ (loc ∉ locsToReport L board hist 0 ∧ loc ∈ locsToReport L board hist 2) := by
        by_cases hn : L.isGameFinished hist = true ∧ L.isNoResult hist = true
        · left
          exact ⟨halive.mpr ⟨hmem, hstone, Or.inl hn⟩, fun hd => (hdead.mp hd).2.2.1 hn⟩
        · by_cases ha : L.colors board loc = L.scoreArea hist board loc
          · left
            exact ⟨halive.mpr ⟨hmem, hstone, Or.inr ha⟩, fun hd => (hdead.mp hd).2.2.2 ha⟩
          · right
            refine ⟨fun hal => ?_, hdead.mpr ⟨hmem, hstone, hn, ha⟩⟩
            rcases (halive.mp hal).2.2 with h | h
            · exact hn h
            · exact ha h
      refine ⟨hexcl, ?_, ?_, ?_⟩
      · rcases hexcl with ⟨h0, h2⟩ | ⟨h0, h2⟩
        · rw [List.count_eq_one_of_mem (locsToReport_nodup L board hist 0) h0,
            List.count_eq_zero_of_not_mem h2]
        · rw [List.count_eq_zero_of_not_mem h0,
            List.count_eq_one_of_mem (locsToReport_nodup L board hist 2) h2]
      · intro hn
        constructor
        · rw [halive]
          constructor
          · rintro ⟨_, _, h | h⟩
            · exact absurd h hn
            · exact h
          · intro h
            exact ⟨hmem, hstone, Or.inr h⟩
        · rw [hdead]
          constructor
          · rintro ⟨_, _, _, h⟩
            exact h
          · intro h
            exact ⟨hmem, hstone, hn, h⟩
      · intro hn
        exact ⟨halive.mpr ⟨hmem, hstone, Or.inl hn⟩, fun hd => (hdead.mp hd).2.2.1 hn⟩

theorem final_status_list_partition_witness :
    (Location.getLoc 3 3 19 ∈ locsToReport areaLib stonesBoard stonesHist 0
      ∧ Location.getLoc 3 3 19 ∉ locsToReport areaLib stonesBoard stonesHist 2)
    ∧ (Location.getLoc 2 2 19 ∉ locsToReport areaLib stonesBoard stonesHist 0
      ∧ Location.getLoc 2 2 19 ∈ locsToReport areaLib stonesBoard stonesHist 2) :=
  ⟨(((final_status_list_partition areaLib (sampleBot true 0 0)
        (stonesState (sampleBot true 0 0))).2.2.2.2.2 stonesBoard stonesHist).2.2 3 3
        (by decide) (by decide) (by decide) (by decide) (by decide)).1.resolve_right
      (fun h => absurd h.1 (by decide)),
    (((final_status_list_partition areaLib (sampleBot true 0 0)
        (stonesState (sampleBot true 0 0))).2.2.2.2.2 stonesBoard stonesHist).2.2 2 2
        (by decide) (by decide) (by decide) (by decide) (by decide)).1.resolve_left
      (fun h => absurd h.2 (by decide))⟩

/-- On the sample with a black stone at `D4`, which the scoring gives to
Black, and a white stone at `C3`, which it gives to nobody,
`final_status_list alive` answers the name of `D4`, `final_status_list dead`
the name of `C3` and `final_status_list seki` nothing. -/
theorem final_status_list_sample :
    (handleCommand areaLib (sampleBot true 0 0) (sampleConfig false)
      (stonesState (sampleBot true 0 0)) "final_status_list".toList
      ["alive".toList]).response = "84".toList
    ∧ (handleCommand areaLib (sampleBot true 0 0) (sampleConfig false)
      (stonesState (sampleBot true 0 0)) "final_status_list".toList
      ["dead".toList]).response = "63".toList
    ∧ (handleCommand areaLib (sampleBot true 0 0) (sampleConfig false)
      (stonesState (sampleBot true 0 0)) "final_status_list".toList
      ["seki".toList]).response = [] := by
  decide

/-! ## The GTP engine: the komi of the bot -/

theorem updateKomiIfNew_recent {B H : Type} (L : GtpLib B H) (bot : Bot B H)
    (cfg : GtpConfig) (st : GtpState B H) :
    (updateKomiIfNew L bot cfg st).recentWinLossValues =
      if st.unhackedKomi
          + numHandicapStones L (bot.getRootHist st.calls) * cfg.whiteBonusPerHandicapStone
          = (L.rules (bot.getRootHist st.calls)).komi
      then st.recentWinLossValues else [] := by
  unfold updateKomiIfNew
  simp only [GtpState.call, ne_eq, ite_not]
  split <;> rfl

theorem numHandicapStones_eq {B H : Type} (L : GtpLib B H) (hist : H) :
    numHandicapStones L hist =
      if ∀ loc ∈ gtpBoardLocs (L.x_size (L.initialBoard hist)) (L.y_size (L.initialBoard hist)),
          L.colors (L.initialBoard hist) loc ≠ .white
      then (((gtpBoardLocs (L.x_size (L.initialBoard hist))
          (L.y_size (L.initialBoard hist))).filter
            fun loc => L.colors (L.initialBoard hist) loc = .black).length : Int)
      else 0 := by
  unfold numHandicapStones
  simp only [List.length_eq_zero, List.filter_eq_nil_iff, decide_eq_true_eq]

/-- C25. `updateKomiIfNew` calls `bot->setKomiIfNew` with `unhackedKomi` plus
`whiteBonusPerHandicapStone` times `numHandicapStones` of the root history,
which is the number of black stones of the initial board when no location of
it holds a white stone and 0 otherwise. The record of recent win-loss values
is emptied exactly when that value differs from the komi of the root
history; when the two are equal all variables of the driver are as before,
and `Search::setKomiIfNew`, for the komi that is already set, leaves the
search as it is: the komi and the tree. -/
theorem updateKomiIfNew_spec {B H : Type} (L : GtpLib B H) (bot : Bot B H)
    (cfg : GtpConfig) (st : GtpState B H) :
    (updateKomiIfNew L bot cfg st).calls = st.calls ++ [.setKomiIfNew (st.unhackedKomi
        + numHandicapStones L (bot.getRootHist st.calls) * cfg.whiteBonusPerHandicapStone)]
    ∧ (numHandicapStones L (bot.getRootHist st.calls) =
        if ∀ loc ∈ gtpBoardLocs (L.x_size (L.initialBoard (bot.getRootHist st.calls)))
            (L.y_size (L.initialBoard (bot.getRootHist st.calls))),
            L.colors (L.initialBoard (bot.getRootHist st.calls)) loc ≠ .white
        then (((gtpBoardLocs (L.x_size (L.initialBoard (bot.getRootHist st.calls)))
            (L.y_size (L.initialBoard (bot.getRootHist st.calls)))).filter
              fun loc => L.colors (L.initialBoard (bot.getRootHist st.calls)) loc
                = .black).length : Int)
        else 0)
    ∧ (st.unhackedKomi
          + numHandicapStones L (bot.getRootHist st.calls) * cfg.whiteBonusPerHandicapStone
          = (L.rules (bot.getRootHist st.calls)).komi →
        updateKomiIfNew L bot cfg st
          = st.call (.setKomiIfNew (L.rules (bot.getRootHist st.calls)).komi))
    ∧ (st.unhackedKomi
          + numHandicapStones L (bot.getRootHist st.calls) * cfg.whiteBonusPerHandicapStone
          ≠ (L.rules (bot.getRootHist st.calls)).komi →
        (updateKomiIfNew L bot cfg st).recentWinLossValues = [])
    ∧ ((updateKomiIfNew L bot cfg st).recentWinLossValues ≠ st.recentWinLossValues →
        st.unhackedKomi
          + numHandicapStones L (bot.getRootHist st.calls) * cfg.whiteBonusPerHandicapStone
          ≠ (L.rules (bot.getRootHist st.calls)).komi)
    ∧ (∀ (S : SearchLib B H) (s : Search B H),
        Search.setKomiIfNew S s (S.komi s.rootHistory) = s)
    ∧ (∀ (S : SearchLib B H) (s : Search B H) (newKomi : Komi),
        S.komi s.rootHistory ≠ newKomi →
        (Search.setKomiIfNew S s newKomi).rootNode = none
        ∧ (Search.setKomiIfNew S s newKomi).rootHistory = S.setKomi s.rootHistory newKomi) := by
  refine ⟨updateKomiIfNew_calls L bot cfg st, numHandicapStones_eq L _, ?_, ?_, ?_, ?_, ?_⟩
  · intro heq
    unfold updateKomiIfNew
    simp only [heq, ne_eq, not_true_eq_false, if_false]
  · intro hne
    rw [updateKomiIfNew_recent, if_neg hne]
  · intro hchg heq
    apply hchg
    rw [updateKomiIfNew_recent, if_pos heq]
  · intro S s
    unfold Search.setKomiIfNew
    rw [if_neg (fun h => h rfl)]
  · intro S s newKomi hne
    unfold Search.setKomiIfNew
    rw [if_pos hne]
    exact ⟨rfl, rfl⟩

theorem updateKomiIfNew_spec_witness :
    updateKomiIfNew sampleLib (sampleBot true 0 0) (sampleConfig false)
        (sampleRun (sampleBot true 0 0)).st
      = (sampleRun (sampleBot true 0 0)).st.call (.setKomiIfNew
          (sampleLib.rules ((sampleBot true 0 0).getRootHist
            (sampleRun (sampleBot true 0 0)).st.calls)).komi) :=
  (updateKomiIfNew_spec sampleLib (sampleBot true 0 0) (sampleConfig false)
    (sampleRun (sampleBot true 0 0)).st).2.2.1 (by with_unfolding_all decide)

/-! ## The search: `makeMove` -/

/-- C26. `Search::makeMove`, as the spec and its declaration describe it:
when the move is not legal for the player it returns false and the search is
as before (root player, board, history and tree); otherwise it returns
true. -/
theorem makeMove_illegal {B H : Type} (S : SearchLib B H) (s : Search B H) (moveLoc : Loc)
    (movePla : Player) :
    (S.isLegal s.rootPla s.rootBoard s.rootHistory moveLoc movePla = false →
      Search.makeMove S s moveLoc movePla = (s, false))
    ∧ (S.isLegal s.rootPla s.rootBoard s.rootHistory moveLoc movePla = true →
      (Search.makeMove S s moveLoc movePla).2 = true)
    ∧ ((Search.makeMove S s moveLoc movePla).2 = false →
      (Search.makeMove S s moveLoc movePla).1 = s) := by
  refine ⟨?_, ?_, ?_⟩
  · intro h
    unfold Search.makeMove
    simp only [h, Bool.not_false, if_true]
  · intro h
    unfold Search.makeMove
    simp only [h, Bool.not_true, Bool.false_eq_true, if_false]
  · intro h
    cases hl : S.isLegal s.rootPla s.rootBoard s.rootHistory moveLoc movePla with
    | false =>
      unfold Search.makeMove
      simp only [hl, Bool.not_false, if_true]
    | true =>
      unfold Search.makeMove at h
      simp only [hl, Bool.not_true, Bool.false_eq_true, if_false] at h
      cases h

theorem makeMove_illegal_witness :
    Search.makeMove sampleSearchLib sampleSearch 63 .black = (sampleSearch, false)
    ∧ (Search.makeMove sampleSearchLib sampleSearch 84 .black).2 = true :=
  ⟨(makeMove_illegal sampleSearchLib sampleSearch 63 .black).1 (by decide),
    (makeMove_illegal sampleSearchLib sampleSearch 84 .black).2.1 (by decide)⟩

/-! ## The GTP engine: the arguments of an analysis -/

theorem intervalOk_iff (x : Num) :
    intervalOk x = true ↔ ∃ q, x = .fin q ∧ 0 ≤ q ∧ q < 10 ^ 20 := by
  cases x with
  | nan => simp [intervalOk, Num.isnan]
  | negInf => simp [intervalOk, Num.isnan, Num.ge]
  | posInf => simp [intervalOk, Num.isnan, Num.ge, Num.lt]
  | fin q => simp [intervalOk, Num.isnan, Num.ge, Num.lt]

theorem validInterval_some_iff {B H : Type} (L : GtpLib B H) (v : List Char) (q : ℚ) :
    validInterval L v = some q ↔
      L.tryStringToDouble v = some (.fin q) ∧ 0 ≤ q ∧ q < 10 ^ 20 := by
  unfold validInterval
  cases h : L.tryStringToDouble v with
  | none => simp
  | some x =>
    cases x with
    | nan => simp
    | negInf => simp
    | posInf => simp
    | fin p =>
      simp only [Option.some.injEq, Num.fin.injEq]
      by_cases hr : 0 ≤ p ∧ p < 10 ^ 20
      · rw [if_pos hr]
        constructor
        · intro hpq
          cases hpq
          exact ⟨rfl, hr⟩
        · rintro ⟨rfl, _⟩
          rfl
      · rw [if_neg hr]
        constructor
        · intro hc
          cases hc
        · rintro ⟨rfl, h2⟩
          exact absurd h2 hr

theorem validInterval_of_ok {B H : Type} (L : GtpLib B H) (v : List Char) (x : Num)
    (hd : L.tryStringToDouble v = some x) (hok : intervalOk x = true) :
    validInterval L v = some x.toRat := by
  obtain ⟨q, rfl, h0, h1⟩ := (intervalOk_iff x).mp hok
  exact (validInterval_some_iff L v q).mpr ⟨hd, h0, h1⟩

theorem validMinMoves_some_iff {B H : Type} (L : GtpLib B H) (n : List Char) (m : Int) :
    validMinMoves L n = some m ↔ L.tryStringToInt n = some m ∧ 0 ≤ m ∧ m < 1000000000 := by
  unfold validMinMoves
  cases h : L.tryStringToInt n with
  | none => simp
  | some k =>
    simp only [Option.some.injEq]
    by_cases hr : 0 ≤ k ∧ k < 1000000000
    · rw [if_pos hr]
      constructor
      · intro hkm
        cases hkm
        exact ⟨rfl, hr⟩
      · rintro ⟨rfl, _⟩
        rfl
    · rw [if_neg hr]
      constructor
      · intro hc
        cases hc
      · rintro ⟨rfl, h2⟩
        exact absurd h2 hr

theorem parse_cons {B H : Type} (L : GtpLib B H) (key : List Char) (rest : List (List Char))
    (interval : Num) (minMoves : Int) :
    parseAnalyzeKeywords L (key :: rest) interval minMoves =
      if key = "interval".toList then
        match rest with
        | [] => none
        | v :: rest2 =>
          match L.tryStringToDouble v with
          | none => none
          | some x => if intervalOk x then parseAnalyzeKeywords L rest2 x minMoves else none
      else if key = "avoid".toList ∨ key = "allow".toList then
        match rest with
        | _ :: _ :: _ :: rest2 => parseAnalyzeKeywords L rest2 interval minMoves
        | _ => none
      else if key = "minmoves".toList then
        match rest with
        | [] => none
        | v :: rest2 =>
          match L.tryStringToInt v with
          | none => none
          | some m =>
            if m ≥ 0 ∧ m < 1000000000 then parseAnalyzeKeywords L rest2 interval m else none
      else none := by
  match rest with
  | [] => rfl
  | [_] => rfl
  | [_, _] => rfl
  | _ :: _ :: _ :: _ => rfl

theorem parse_interval {B H : Type} (L : GtpLib B H) (v : List Char) (rest : List (List Char))
    (i : Num) (m : Int) (q : ℚ) (hq : validInterval L v = some q) :
    parseAnalyzeKeywords L ("interval".toList :: v :: rest) i m
      = parseAnalyzeKeywords L rest (.fin q) m := by
  obtain ⟨hd, h0, h1⟩ := (validInterval_some_iff L v q).mp hq
  have hok : intervalOk (.fin q) = true := (intervalOk_iff _).mpr ⟨q, rfl, h0, h1⟩
  rw [parse_cons, if_pos rfl]
  simp only [hd, hok, if_true]

theorem parse_exclude {B H : Type} (L : GtpLib B H) (key a b c : List Char)
    (rest : List (List Char)) (i : Num) (m : Int)
    (hk : key = "avoid".toList ∨ key = "allow".toList) :
    parseAnalyzeKeywords L (key :: a :: b :: c :: rest) i m
      = parseAnalyzeKeywords L rest i m := by
  have hne : key ≠ "interval".toList := by
    rcases hk with h | h <;> rw [h] <;> decide
  rw [parse_cons, if_neg hne, if_pos hk]

theorem parse_minmoves {B H : Type} (L : GtpLib B H) (n : List Char)
    (rest : List (List Char)) (i : Num) (m k : Int) (hk : validMinMoves L n = some k) :
    parseAnalyzeKeywords L ("minmoves".toList :: n :: rest) i m
      = parseAnalyzeKeywords L rest i k := by
  obtain ⟨hd, h0, h1⟩ := (validMinMoves_some_iff L n k).mp hk
  have h1 : ¬ ("minmoves".toList = "interval".toList) := by decide
  have h2 : ¬ ("minmoves".toList = "avoid".toList ∨ "minmoves".toList = "allow".toList) := by
    decide
  have hr : k ≥ 0 ∧ k < 1000000000 := ⟨h0, by assumption⟩
  rw [parse_cons, if_neg h1, if_neg h2, if_pos rfl]
  simp only [hd, if_pos hr]

/-- The loop accepts the tokens of well-formed keyword arguments and ends with
their last interval and their last `minmoves`. -/
theorem parse_of_items {B H : Type} (L : GtpLib B H) (items : List AnalyzeItem)
    (hv : ∀ it ∈ items, it.valid L = true) :
    ∀ (i : Num) (m : Int), ∃ r : Num,
      parseAnalyzeKeywords L (items.flatMap AnalyzeItem.tokens) i m
        = some (r, lastMinMoves L items m)
      ∧ r.toRat = lastInterval L items i.toRat := by
  induction items with
  | nil =>
    intro i m
    exact ⟨i, rfl, rfl⟩
  | cons it rest ih =>
    intro i m
    have hrest : ∀ it2 ∈ rest, it2.valid L = true :=
      fun it2 h2 => hv it2 (List.mem_cons_of_mem _ h2)
    have hit := hv it (List.mem_cons_self _ _)
    cases it with
    | interval v =>
      simp only [AnalyzeItem.valid, Option.isSome_iff_exists] at hit
      obtain ⟨q, hq⟩ := hit
      obtain ⟨r, hr1, hr2⟩ := ih hrest (.fin q) m
      refine ⟨r, ?_, ?_⟩
      · simp only [List.flatMap_cons, AnalyzeItem.tokens, List.cons_append, List.nil_append]
        rw [parse_interval L v _ i m q hq, hr1]
        rfl
      · rw [hr2]
        simp only [lastInterval, hq, Option.getD_some, Num.toRat]
    | exclude key a b c =>
      simp only [AnalyzeItem.valid, decide_eq_true_eq] at hit
      obtain ⟨r, hr1, hr2⟩ := ih hrest i m
      refine ⟨r, ?_, ?_⟩
      · simp only [List.flatMap_cons, AnalyzeItem.tokens, List.cons_append, List.nil_append]
        rw [parse_exclude L key a b c _ i m hit, hr1]
        rfl
      · rw [hr2]
        rfl
    | minmoves n =>
      simp only [AnalyzeItem.valid, Option.isSome_iff_exists] at hit
      obtain ⟨k, hk⟩ := hit
      obtain ⟨r, hr1, hr2⟩ := ih hrest i k
      refine ⟨r, ?_, ?_⟩
      · simp only [List.flatMap_cons, AnalyzeItem.tokens, List.cons_append, List.nil_append]
        rw [parse_minmoves L n _ i m k hk, hr1]
        simp only [lastMinMoves, hk, Option.getD_some]
      · rw [hr2]
        rfl


/-- What the loop accepts are the tokens of well-formed keyword arguments. -/
theorem items_of_parse {B H : Type} (L : GtpLib B H) :
    ∀ (n : Nat) (ps : List (List Char)), ps.length ≤ n →
      ∀ (i : Num) (m : Int) (r : Num × Int), parseAnalyzeKeywords L ps i m = some r →
        ∃ items : List AnalyzeItem, (∀ it ∈ items, it.valid L = true)
          ∧ items.flatMap AnalyzeItem.tokens = ps
          ∧ r.1.toRat = lastInterval L items i.toRat
          ∧ r.2 = lastMinMoves L items m := by
  intro n
  induction n with
  | zero =>
    intro ps hlen i m r h
    have hnil : ps = [] := List.length_eq_zero.mp (Nat.le_zero.mp hlen)
    rw [hnil] at h
    cases h
    exact ⟨[], fun it hit => absurd hit (List.not_mem_nil it), hnil.symm, rfl, rfl⟩
  | succ n ih =>
    intro ps hlen i m r h
    match ps with
    | [] =>
      cases h
      exact ⟨[], fun it hit => absurd hit (List.not_mem_nil it), rfl, rfl, rfl⟩
    | key :: rest =>
      rw [parse_cons] at h
      by_cases h1 : key = "interval".toList
      · rw [if_pos h1] at h
        match rest with
        | [] => cases h
        | v :: rest2 =>
          simp only at h
          cases hd : L.tryStringToDouble v with
          | none =>
            rw [hd] at h
            cases h
          | some x =>
            rw [hd] at h
            simp only at h
            by_cases hok : intervalOk x = true
            · rw [if_pos hok] at h
              have hl : rest2.length ≤ n := by
                simp only [List.length_cons] at hlen
                omega
              obtain ⟨items, hv, htok, hr1, hr2⟩ := ih rest2 hl x m r h
              have hvi := validInterval_of_ok L v x hd hok
              refine ⟨.interval v :: items, ?_, ?_, ?_, ?_⟩
              · intro it hit
                rcases List.mem_cons.mp hit with hit | hit
                · rw [hit]
                  simp only [AnalyzeItem.valid, hvi, Option.isSome_some]
                · exact hv it hit
              · simp only [List.flatMap_cons, AnalyzeItem.tokens, List.cons_append,
                  List.nil_append, htok, h1]
              · rw [hr1]
                simp only [lastInterval, hvi, Option.getD_some]
              · rw [hr2]
                rfl
            · rw [if_neg hok] at h
              cases h
      · rw [if_neg h1] at h
        by_cases h2 : key = "avoid".toList ∨ key = "allow".toList
        · rw [if_pos h2] at h
          match rest with
          | [] => cases h
          | [_] => cases h
          | [_, _] => cases h
          | a :: b :: c :: rest2 =>
            simp only at h
            have hl : rest2.length ≤ n := by
              simp only [List.length_cons] at hlen
              omega
            obtain ⟨items, hv, htok, hr1, hr2⟩ := ih rest2 hl i m r h
            refine ⟨.exclude key a b c :: items, ?_, ?_, ?_, ?_⟩
            · intro it hit
              rcases List.mem_cons.mp hit with hit | hit
              · rw [hit]
                simp only [AnalyzeItem.valid, decide_eq_true_eq]
                exact h2
              · exact hv it hit
            · simp only [List.flatMap_cons, AnalyzeItem.tokens, List.cons_append,
                List.nil_append, htok]
            · rw [hr1]
              rfl
            · rw [hr2]
              rfl
        · rw [if_neg h2] at h
          by_cases h3 : key = "minmoves".toList
          · rw [if_pos h3] at h
            match rest with
            | [] => cases h
            | v :: rest2 =>
              simp only at h
              cases hd : L.tryStringToInt v with
              | none =>
                rw [hd] at h
                cases h
              | some k =>
                rw [hd] at h
                simp only at h
                by_cases hr : k ≥ 0 ∧ k < 1000000000
                · rw [if_pos hr] at h
                  have hl : rest2.length ≤ n := by
                    simp only [List.length_cons] at hlen
                    omega
                  obtain ⟨items, hv, htok, hr1, hr2⟩ := ih rest2 hl i k r h
                  have hvm : validMinMoves L v = some k :=
                    (validMinMoves_some_iff L v k).mpr ⟨hd, hr.1, hr.2⟩
                  refine ⟨.minmoves v :: items, ?_, ?_, ?_, ?_⟩
                  · intro it hit
                    rcases List.mem_cons.mp hit with hit | hit
                    · rw [hit]
                      simp only [AnalyzeItem.valid, hvm, Option.isSome_some]
                    · exact hv it hit
                  · simp only [List.flatMap_cons, AnalyzeItem.tokens, List.cons_append,
                      List.nil_append, htok, h3]
                  · rw [hr1]
                    rfl
                  · rw [hr2]
                    simp only [lastMinMoves, hvm, Option.getD_some]
                · rw [if_neg hr] at h
                  cases h
          · rw [if_neg h3] at h
            cases h

theorem cmdAnalyze_none {B H : Type} (L : GtpLib B H) (bot : Bot B H) (st : GtpState B H)
    (command : List Char) (pieces : List (List Char))
    (h : parseAnalyzeKeywords L
        (analyzeInterval L (analyzePlayer (bot.getRootPla st.calls) pieces).2).2
        (analyzeInterval L (analyzePlayer (bot.getRootPla st.calls) pieces).2).1 0 = none) :
    cmdAnalyze L bot st command pieces =
      Handled.err st
        ("Could not parse lz-analyze arguments or arguments out of range: '".toList
          ++ Global.concat pieces " ".toList ++ "'".toList) := by
  unfold analyzeInterval analyzePlayer at h
  unfold cmdAnalyze
  simp only
  rw [h]

theorem cmdAnalyze_some {B H : Type} (L : GtpLib B H) (bot : Bot B H) (st : GtpState B H)
    (command : List Char) (pieces : List (List Char)) (r : Num × Int)
    (h : parseAnalyzeKeywords L
        (analyzeInterval L (analyzePlayer (bot.getRootPla st.calls) pieces).2).2
        (analyzeInterval L (analyzePlayer (bot.getRootPla st.calls) pieces).2).1 0 = some r) :
    cmdAnalyze L bot st command pieces =
      Handled.ok
        { st.call
            (.analyze (analyzePlayer (bot.getRootPla st.calls) pieces).1 double1e40
              (r.1.toRat * (1 / 100)) (decide (command ≠ "lz-analyze".toList)) r.2) with
          currentlyAnalyzing := true } [] := by
  unfold analyzeInterval analyzePlayer at h
  unfold cmdAnalyze analyzePlayer
  simp only
  rw [h]

theorem handleCommand_analyze {B H : Type} (L : GtpLib B H) (bot : Bot B H) (cfg : GtpConfig)
    (st : GtpState B H) (command : List Char) (pieces : List (List Char))
    (hc : command = "lz-analyze".toList ∨ command = "kata-analyze".toList) :
    handleCommand L bot cfg st command pieces = cmdAnalyze L bot st command pieces := by
  have hb : branchOf command = .analyze := by
    rcases hc with rfl | rfl <;> decide
  unfold handleCommand
  rw [hb]

theorem keyword_not_player (key : List Char)
    (hk : key = "interval".toList ∨ key = "avoid".toList ∨ key = "allow".toList
      ∨ key = "minmoves".toList) :
    tryParsePlayer key = none := by
  rcases hk with rfl | rfl | rfl | rfl <;> decide

/-- The tokens of well-formed keyword arguments start with a keyword. -/
theorem items_tokens_head {B H : Type} (L : GtpLib B H) (items : List AnalyzeItem)
    (hv : ∀ it ∈ items, it.valid L = true) :
    items.flatMap AnalyzeItem.tokens = [] ∨
      ∃ key rest, items.flatMap AnalyzeItem.tokens = key :: rest
        ∧ (key = "interval".toList ∨ key = "avoid".toList ∨ key = "allow".toList
          ∨ key = "minmoves".toList) := by
  match items with
  | [] => exact Or.inl rfl
  | .interval v :: rest =>
    refine Or.inr ⟨"interval".toList, v :: rest.flatMap AnalyzeItem.tokens, ?_, Or.inl rfl⟩
    simp only [List.flatMap_cons, AnalyzeItem.tokens, List.cons_append, List.nil_append]
  | .exclude key a b c :: rest =>
    have hk := hv _ (List.mem_cons_self _ _)
    simp only [AnalyzeItem.valid, decide_eq_true_eq] at hk
    refine Or.inr ⟨key, a :: b :: c :: rest.flatMap AnalyzeItem.tokens, ?_, ?_⟩
    · simp only [List.flatMap_cons, AnalyzeItem.tokens, List.cons_append, List.nil_append]
    · rcases hk with hk | hk
      · exact Or.inr (Or.inl hk)
      · exact Or.inr (Or.inr (Or.inl hk))
  | .minmoves n :: rest =>
    refine Or.inr ⟨"minmoves".toList, n :: rest.flatMap AnalyzeItem.tokens, ?_,
      Or.inr (Or.inr (Or.inr rfl))⟩
    simp only [List.flatMap_cons, AnalyzeItem.tokens, List.cons_append, List.nil_append]

theorem valid_parts {B H : Type} (L : GtpLib B H) (a : AnalyzeArgs) (hv : a.valid L = true) :
    (∀ p, a.player = some p → ∃ pla, tryParsePlayer p = some pla)
    ∧ (∀ v, a.interval = some v → ∃ q, validInterval L v = some q)
    ∧ (∀ it ∈ a.items, it.valid L = true) := by
  unfold AnalyzeArgs.valid at hv
  simp only [Bool.and_eq_true, List.all_eq_true] at hv
  obtain ⟨⟨hp, hi⟩, hitems⟩ := hv
  refine ⟨?_, ?_, hitems⟩
  · intro p hpe
    rw [hpe] at hp
    simp only [Option.all_some] at hp
    exact Option.isSome_iff_exists.mp hp
  · intro v hve
    rw [hve] at hi
    simp only [Option.all_some] at hi
    exact Option.isSome_iff_exists.mp hi

/-- What the optional player leaves of an argument list of the stated form. -/
theorem analyzePlayer_args {B H : Type} (L : GtpLib B H) (rootPla : Player) (a : AnalyzeArgs)
    (hv : a.valid L = true)
    (h2 : ∀ s, tryParsePlayer s ≠ none → L.tryStringToDouble s = none) :
    analyzePlayer rootPla a.tokens
      = (a.pla rootPla, a.interval.toList ++ a.items.flatMap AnalyzeItem.tokens) := by
  obtain ⟨hp, hi, hitems⟩ := valid_parts L a hv
  obtain ⟨player, interval, items⟩ := a
  simp only at hp hi hitems
  simp only [AnalyzeArgs.tokens, AnalyzeArgs.pla]
  match player with
  | some p =>
    obtain ⟨pla, hpla⟩ := hp p rfl
    simp only [Option.toList_some, List.singleton_append, List.cons_append, List.nil_append,
      analyzePlayer, hpla, Option.getD_some]
  | none =>
    simp only [Option.toList_none, List.nil_append]
    match interval with
    | some v =>
      obtain ⟨q, hq⟩ := hi v rfl
      have hd := ((validInterval_some_iff L v q).mp hq).1
      have hnp : tryParsePlayer v = none := by
        by_contra hne
        rw [h2 v hne] at hd
        cases hd
      simp only [Option.toList_some, List.singleton_append, List.cons_append, List.nil_append,
        analyzePlayer, hnp]
    | none =>
      simp only [Option.toList_none, List.nil_append]
      rcases items_tokens_head L items hitems with h0 | ⟨key, rest, hkr, hk⟩
      · rw [h0]
        rfl
      · rw [hkr]
        simp only [analyzePlayer, keyword_not_player key hk]

/-- What the optional interval leaves of an argument list of the stated
form. -/
theorem analyzeInterval_args {B H : Type} (L : GtpLib B H) (a : AnalyzeArgs)
    (hv : a.valid L = true)
    (h1 : ∀ k, k = "interval".toList ∨ k = "avoid".toList ∨ k = "allow".toList
      ∨ k = "minmoves".toList → L.tryStringToDouble k = none) :
    ∃ x : Num,
      analyzeInterval L (a.interval.toList ++ a.items.flatMap AnalyzeItem.tokens)
        = (x, a.items.flatMap AnalyzeItem.tokens)
      ∧ lastInterval L a.items x.toRat = a.lastInterval L := by
  obtain ⟨_, hi, hitems⟩ := valid_parts L a hv
  obtain ⟨player, interval, items⟩ := a
  simp only at hi hitems
  simp only [AnalyzeArgs.lastInterval]
  match interval with
  | some v =>
    obtain ⟨q, hq⟩ := hi v rfl
    obtain ⟨hd, h0, hlt⟩ := (validInterval_some_iff L v q).mp hq
    have hok : intervalOk (.fin q) = true := (intervalOk_iff _).mpr ⟨q, rfl, h0, hlt⟩
    refine ⟨.fin q, ?_, ?_⟩
    · simp only [Option.toList_some, List.singleton_append, List.cons_append, List.nil_append,
        analyzeInterval, hd, hok, if_true]
    · simp only [hq, Option.getD_some, Num.toRat]
  | none =>
    refine ⟨.fin double1e30, ?_, rfl⟩
    simp only [Option.toList_none, List.nil_append]
    rcases items_tokens_head L items hitems with h0 | ⟨key, rest, hkr, hk⟩
    · rw [h0]
      rfl
    · rw [hkr]
      simp only [analyzeInterval, h1 key hk]

/-- The pieces the reading of the optional player and of the optional
interval consumed form an argument list whose tokens are the pieces. -/
theorem args_of_prefix {B H : Type} (L : GtpLib B H) (rootPla : Player)
    (pieces : List (List Char)) (items : List AnalyzeItem)
    (hitems : ∀ it ∈ items, it.valid L = true)
    (htok : items.flatMap AnalyzeItem.tokens
      = (analyzeInterval L (analyzePlayer rootPla pieces).2).2) :
    ∃ a : AnalyzeArgs, a.valid L = true ∧ a.tokens = pieces ∧ a.items = items := by
  have hall : items.all (AnalyzeItem.valid L) = true := List.all_eq_true.mpr hitems
  -- the optional interval
  have hint : ∀ ps : List (List Char),
      items.flatMap AnalyzeItem.tokens = (analyzeInterval L ps).2 →
      ∃ i : Option (List Char), i.all (fun v => (validInterval L v).isSome) = true
        ∧ i.toList ++ items.flatMap AnalyzeItem.tokens = ps := by
    intro ps hps
    match ps with
    | [] =>
      refine ⟨none, rfl, ?_⟩
      rw [hps]
      rfl
    | p :: rest =>
      cases hd : L.tryStringToDouble p with
      | none =>
        simp only [analyzeInterval, hd] at hps
        exact ⟨none, rfl, by rw [hps]; rfl⟩
      | some x =>
        by_cases hok : intervalOk x = true
        · simp only [analyzeInterval, hd, hok, if_true] at hps
          refine ⟨some p, ?_, ?_⟩
          · simp only [Option.all_some, validInterval_of_ok L p x hd hok, Option.isSome_some]
          · rw [hps]
            rfl
        · simp only [analyzeInterval, hd, hok] at hps
          exact ⟨none, rfl, by rw [hps]; rfl⟩
  match pieces with
  | [] =>
    obtain ⟨i, hiv, hit⟩ := hint [] htok
    refine ⟨⟨none, i, items⟩, ?_, ?_, rfl⟩
    · simp only [AnalyzeArgs.valid, Option.all_none, hiv, hall, Bool.and_self]
    · simp only [AnalyzeArgs.tokens, Option.toList_none, List.nil_append, hit]
  | p :: rest =>
    cases hp : tryParsePlayer p with
    | none =>
      simp only [analyzePlayer, hp] at htok
      obtain ⟨i, hiv, hit⟩ := hint (p :: rest) htok
      refine ⟨⟨none, i, items⟩, ?_, ?_, rfl⟩
      · simp only [AnalyzeArgs.valid, Option.all_none, hiv, hall, Bool.and_self]
      · simp only [AnalyzeArgs.tokens, Option.toList_none, List.nil_append, hit]
    | some pla =>
      simp only [analyzePlayer, hp] at htok
      obtain ⟨i, hiv, hit⟩ := hint rest htok
      refine ⟨⟨some p, i, items⟩, ?_, ?_, rfl⟩
      · simp only [AnalyzeArgs.valid, Option.all_some, hp, Option.isSome_some, hiv, hall,
          Bool.and_self]
      · simp only [AnalyzeArgs.tokens, Option.toList_some, List.singleton_append,
          List.cons_append, List.nil_append, List.append_assoc, hit]

/-- C28. When the library reads neither a keyword of an analysis nor the name
of a player as a `double`, `lz-analyze` and `kata-analyze` accept the
arguments exactly when they are an optional player, an optional interval and
then keyword arguments `interval v`, `avoid` or `allow` with three tokens,
`minmoves n`, every interval a number that is not a NaN in `[0, 10^20)` and
every `n` an integer in `[0, 10^9)`. Accepted arguments start one analysis,
for the player given or the player to move, with the last interval given
(`1e30` when none is) times `1/100` and the last `minmoves` given; any other
arguments are answered with the error text and leave the state as it was. -/
theorem analyze_accepts_iff {B H : Type} (L : GtpLib B H) (bot : Bot B H) (cfg : GtpConfig)
    (st : GtpState B H) (command : List Char) (pieces : List (List Char))
    (hc : command = "lz-analyze".toList ∨ command = "kata-analyze".toList)
    (h1 : ∀ k, k = "interval".toList ∨ k = "avoid".toList ∨ k = "allow".toList
      ∨ k = "minmoves".toList → L.tryStringToDouble k = none)
    (h2 : ∀ s, tryParsePlayer s ≠ none → L.tryStringToDouble s = none) :
    ((handleCommand L bot cfg st command pieces).responseIsError = false
        ↔ ∃ a : AnalyzeArgs, a.valid L = true ∧ a.tokens = pieces)
    ∧ (∀ a : AnalyzeArgs, a.valid L = true → a.tokens = pieces →
        handleCommand L bot cfg st command pieces =
          Handled.ok
            { st.call
                (.analyze (a.pla (bot.getRootPla st.calls)) double1e40
                  (a.lastInterval L * (1 / 100)) (decide (command ≠ "lz-analyze".toList))
                  (lastMinMoves L a.items 0)) with
              currentlyAnalyzing := true } [])
    ∧ ((¬ ∃ a : AnalyzeArgs, a.valid L = true ∧ a.tokens = pieces) →
        handleCommand L bot cfg st command pieces =
          Handled.err st
            ("Could not parse lz-analyze arguments or arguments out of range: '".toList
              ++ Global.concat pieces " ".toList ++ "'".toList)) := by
  rw [handleCommand_analyze L bot cfg st command pieces hc]
  have hfwd : ∀ a : AnalyzeArgs, a.valid L = true → a.tokens = pieces →
      cmdAnalyze L bot st command pieces =
        Handled.ok
          { st.call
              (.analyze (a.pla (bot.getRootPla st.calls)) double1e40
                (a.lastInterval L * (1 / 100)) (decide (command ≠ "lz-analyze".toList))
                (lastMinMoves L a.items 0)) with
            currentlyAnalyzing := true } [] := by
    intro a hv htok
    have hpl := analyzePlayer_args L (bot.getRootPla st.calls) a hv h2
    rw [htok] at hpl
    obtain ⟨x, hx, hxr⟩ := analyzeInterval_args L a hv h1
    obtain ⟨r, hr, hrr⟩ := parse_of_items L a.items (valid_parts L a hv).2.2 x 0
    have hparse : parseAnalyzeKeywords L
        (analyzeInterval L (analyzePlayer (bot.getRootPla st.calls) pieces).2).2
        (analyzeInterval L (analyzePlayer (bot.getRootPla st.calls) pieces).2).1 0
          = some (r, lastMinMoves L a.items 0) := by
      rw [hpl]
      simp only
      rw [hx]
      exact hr
    rw [cmdAnalyze_some L bot st command pieces _ hparse, hpl]
    simp only
    rw [hrr, hxr]
  have hbwd : (¬ ∃ a : AnalyzeArgs, a.valid L = true ∧ a.tokens = pieces) →
      cmdAnalyze L bot st command pieces =
        Handled.err st
          ("Could not parse lz-analyze arguments or arguments out of range: '".toList
            ++ Global.concat pieces " ".toList ++ "'".toList) := by
    intro hno
    cases hparse : parseAnalyzeKeywords L
        (analyzeInterval L (analyzePlayer (bot.getRootPla st.calls) pieces).2).2
        (analyzeInterval L (analyzePlayer (bot.getRootPla st.calls) pieces).2).1 0 with
    | none => exact cmdAnalyze_none L bot st command pieces hparse
    | some r =>
      exfalso
      obtain ⟨items, hitems, htok, _, _⟩ := items_of_parse L _ _ (Nat.le_refl _) _ _ r hparse
      obtain ⟨a, hv, hat, _⟩ :=
        args_of_prefix L (bot.getRootPla st.calls) pieces items hitems htok
      exact hno ⟨a, hv, hat⟩
  refine ⟨⟨?_, ?_⟩, hfwd, hbwd⟩
  · intro hok
    by_contra hno
    rw [hbwd hno] at hok
    cases hok
  · rintro ⟨a, hv, htok⟩
    rw [hfwd a hv htok]
    rfl

theorem analyze_accepts_iff_witness :
    handleCommand analyzeLib (sampleBot true 84 0) (sampleConfig false)
        (sampleRun (sampleBot true 84 0)).st "kata-analyze".toList
        ["w".toList, "50".toList, "minmoves".toList, "3".toList]
      = Handled.ok
          { (sampleRun (sampleBot true 84 0)).st.call
              (.analyze .white double1e40 (50 * (1 / 100)) true 3) with
            currentlyAnalyzing := true } [] := by
  have h1 : ∀ k, k = "interval".toList ∨ k = "avoid".toList ∨ k = "allow".toList
      ∨ k = "minmoves".toList → analyzeLib.tryStringToDouble k = none := by
    intro k hk
    rcases hk with rfl | rfl | rfl | rfl <;> decide
  have h2 : ∀ s, tryParsePlayer s ≠ none → analyzeLib.tryStringToDouble s = none := by
    intro s hs
    show (if s = "50".toList then some (Num.fin 50) else none) = none
    rw [if_neg]
    rintro rfl
    exact hs (by decide)
  have hi : validInterval analyzeLib "50".toList = some 50 :=
    (validInterval_some_iff analyzeLib "50".toList 50).mpr
      ⟨by decide, by norm_num, by norm_num⟩
  have hm : validMinMoves analyzeLib "3".toList = some 3 := by decide
  have hv : AnalyzeArgs.valid analyzeLib
      ⟨some "w".toList, some "50".toList, [.minmoves "3".toList]⟩ = true := by
    have hw : (tryParsePlayer "w".toList).isSome = true := by decide
    simp only [AnalyzeArgs.valid, Option.all_some, hw, hi, Option.isSome_some, List.all_cons,
      List.all_nil, AnalyzeItem.valid, hm, Bool.and_self]
  have h := (analyze_accepts_iff analyzeLib (sampleBot true 84 0) (sampleConfig false)
    (sampleRun (sampleBot true 84 0)).st "kata-analyze".toList
    ["w".toList, "50".toList, "minmoves".toList, "3".toList] (Or.inr rfl) h1 h2).2.1
    ⟨some "w".toList, some "50".toList, [.minmoves "3".toList]⟩ hv rfl
  have e1 : AnalyzeArgs.pla ⟨some "w".toList, some "50".toList, [.minmoves "3".toList]⟩
      ((sampleBot true 84 0).getRootPla (sampleRun (sampleBot true 84 0)).st.calls)
        = .white := by decide
  have e2 : AnalyzeArgs.lastInterval analyzeLib
      ⟨some "w".toList, some "50".toList, [.minmoves "3".toList]⟩ = 50 := by
    simp only [AnalyzeArgs.lastInterval, lastInterval, hi, Option.getD_some]
  have e3 : lastMinMoves analyzeLib [.minmoves "3".toList] 0 = 3 := by
    simp only [lastMinMoves, hm, Option.getD_some]
  have e4 : decide ("kata-analyze".toList ≠ "lz-analyze".toList) = true := by decide
  rw [h, e1, e2, e3, e4]

/-- In the sample `lz-analyze b w`, `lz-analyze 1e25` (a text the library of
the sample does not read as a number) and `lz-analyze avoid b D4` are answered
with an error, and the calls on the bot stay as they were. -/
theorem analyze_rejects_sample :
    (∀ pieces ∈ [["b".toList, "w".toList], ["1e25".toList],
        ["avoid".toList, "b".toList, "D4".toList]],
      (handleCommand analyzeLib (sampleBot true 84 0) (sampleConfig false)
        (sampleRun (sampleBot true 84 0)).st "lz-analyze".toList pieces).responseIsError = true
      ∧ (handleCommand analyzeLib (sampleBot true 84 0) (sampleConfig false)
        (sampleRun (sampleBot true 84 0)).st "lz-analyze".toList pieces).st.calls.length
          = (sampleRun (sampleBot true 84 0)).st.calls.length) := by
  decide

/-! ## The GTP engine: `time_settings` at the bound `1e50` -/

/-- On a library that reads `1e50` as the `double` of that literal,
`time_settings 1e50 0 0` is accepted and gives both players that absolute
time, and `time_settings 2e50 0 0` is answered `invalid main_time`. -/
theorem time_settings_at_1e50 (st : GtpState SampleBoard SampleHist) :
    cmdTimeSettings timeLib st ["1e50".toList, "0".toList, "0".toList] =
      Handled.ok
        { st with
            bTimeControls := timeSettingsControls timeLib.defaultTimeControls double1e50 0 0
            wTimeControls := timeSettingsControls timeLib.defaultTimeControls double1e50 0 0 }
        []
    ∧ (timeSettingsControls timeLib.defaultTimeControls double1e50 0 0).mainTimeLeft
        = double1e50
    ∧ cmdTimeSettings timeLib st ["2e50".toList, "0".toList, "0".toList] =
      Handled.err st "invalid main_time".toList := by
  refine ⟨?_, ?_, ?_⟩
  · exact cmdTimeSettings_valid timeLib st "1e50".toList "0".toList "0".toList double1e50 0 0
      (by decide) (by with_unfolding_all decide) (by decide) (by norm_num [double1e50])
      (le_refl _) (le_refl _) (by norm_num [double1e50]) (by decide) (by decide)
  · simp only [timeSettingsControls]
    norm_num
  · have h2 : timeLib.tryStringToDouble "2e50".toList = some (.fin (2 * double1e50)) := by
      show (if "2e50".toList = "1e50".toList then some (Num.fin double1e50)
        else if "2e50".toList = "2e50".toList then some (Num.fin (2 * double1e50))
        else sampleNum "2e50".toList) = some (Num.fin (2 * double1e50))
      rw [if_neg (by decide), if_pos rfl]
    have h0 : timeLib.tryStringToDouble "0".toList = some (.fin 0) := by
      with_unfolding_all decide
    have hi : timeLib.tryStringToInt "0".toList = some 0 := by decide
    have hbad : (Num.fin (2 * double1e50)).isnan = true ∨ (Num.fin (2 * double1e50)).lt 0 = true
        ∨ (Num.fin (2 * double1e50)).gt double1e50 = true := by
      right
      right
      simp only [Num.gt, decide_eq_true_eq]
      norm_num [double1e50]
    simp only [cmdTimeSettings, h2, h0, hi, if_pos hbad]

end KataGo
